import Mathlib

/-! Verification development for the `eval_miner` ASIC stack.

Shallow embedding of parts of

* `eval_miner/device/asicio` (frame codec, CRC check, payload index),
* `eval_miner/device/asic` (chip-id mapping, pipelined register read,
  faulty-ASIC tracker, temperature conversion),
* `eval_miner/device/devhdr` (hash-board ASIC id configuration).

Conventions of the embedding:

* Go's `uint8`, `uint32`, `int`, `int64` are `Nat` / `Int`; a value of a sized
  unsigned type is *well typed* when it is below `2 ^ w`.
* `[]byte` is `List Nat` (each element a byte, i.e. `< 256`).
* A Go function returning `(T, error)` becomes `Except String T`; a run-time
  panic (index out of range, assignment to a nil map) becomes `none`.
* `time.Time` / `time.Duration` are `Int` nanoseconds.  Every read of the wall
  clock (`time.Now()`, `time.Since`) takes the next value of a clock oracle.
* A finite `float32` / `float64` value is the rational number it stands for.
  In the temperature conversion, the tuning state machine and the per-chip
  hit percentage every operation and every constant is rounded to its format
  (`ieee.float32`, `ieee.float64`); the other parts of the control loop are
  stated over exact rational arithmetic, and their definitions say so.
-/

set_option autoImplicit false

/-! ## Go standard library: `hash/crc32` and `encoding/binary` -/

namespace crc32

/-- The reversed IEEE polynomial, `crc32.IEEE` of Go's `hash/crc32`. -/
def IEEE : Nat := 0xedb88320

/-- One iteration of the inner loop of `simplePopulateTable`:
`if crc&1 == 1 { crc = (crc >> 1) ^ poly } else { crc >>= 1 }`. -/
def tableStep (crc : Nat) : Nat :=
  if crc % 2 = 1 then (crc >>> 1) ^^^ IEEE else crc >>> 1

/-- Entry `i` of `crc32.IEEETable` (`simplePopulateTable`): eight table steps
starting from `i`. -/
def IEEETable (i : Nat) : Nat :=
  tableStep (tableStep (tableStep (tableStep (tableStep (tableStep (tableStep (tableStep i)))))))

/-- Loop body of `simpleUpdate`: `crc = tab[byte(crc)^v] ^ (crc >> 8)`. -/
def updateByte (crc v : Nat) : Nat :=
  IEEETable ((crc % 256) ^^^ v) ^^^ (crc >>> 8)

/-- The function `simpleUpdate(crc, tab, p)` of `hash/crc32` for the IEEE
table: complement, fold the bytes in, complement. -/
def simpleUpdate (crc : Nat) (p : List Nat) : Nat :=
  (p.foldl updateByte (crc ^^^ 0xFFFFFFFF)) ^^^ 0xFFFFFFFF

/-- The function `crc32.Checksum(data, crc32.IEEETable)`, which is
`Update(0, tab, data)`. -/
def Checksum (data : List Nat) : Nat :=
  simpleUpdate 0 data

end crc32

namespace binary

/-- Little-endian bytes of a `uint32`, `binary.LittleEndian.PutUint32`:
`byte(v), byte(v>>8), byte(v>>16), byte(v>>24)`. -/
def putUint32 (v : Nat) : List Nat :=
  [v % 256, v / 256 % 256, v / 65536 % 256, v / 16777216 % 256]

/-- Decoder `binary.LittleEndian.Uint32` on four bytes
(`b0 | b1<<8 | b2<<16 | b3<<24`, the bytes being disjoint bit ranges). -/
def uint32 (b : List Nat) : Nat :=
  b.getD 0 0 + b.getD 1 0 * 256 + b.getD 2 0 * 65536 + b.getD 3 0 * 16777216

end binary

/-! ## Go floating point: `float32` and `float64` values as rationals -/

namespace ieee

/-- The integer nearest to `x`, a tie going to the even one. -/
def roundNearestEven (x : ℚ) : Int :=
  let f := ⌊x⌋
  let r := x - f
  if r < 1 / 2 then f else if 1 / 2 < r then f + 1 else if f % 2 = 0 then f else f + 1

/-- The number of halvings that bring `n` below 2, with `fuel` steps at
most. -/
def natLog2Aux : Nat → Nat → Nat
  | 0, _ => 0
  | fuel + 1, n => if n < 2 then 0 else natLog2Aux fuel (n / 2) + 1

/-- The position of the leading bit of a positive natural number `n`:
`2 ^ natLog2 n ≤ n < 2 ^ (natLog2 n + 1)`. -/
def natLog2 (n : Nat) : Nat := natLog2Aux n n

/-- The exponent `e` of a positive number `x`: `2 ^ e ≤ x < 2 ^ (e + 1)`.  The
difference of the leading-bit positions of numerator and denominator is `e`
or `e + 1`. -/
def floorLog2 (x : ℚ) : Int :=
  let k : Int := (natLog2 x.num.natAbs : Int) - (natLog2 x.den : Int)
  if x < (2 : ℚ) ^ k then k - 1 else k

/-- The value nearest to `x` in the binary floating-point format with `p`
fraction bits and least normal exponent `emin`, a tie going to the even
significand (the rounding of every IEEE 754 operation and conversion in Go).
Below `2 ^ emin` the spacing is that of the subnormal numbers.  The format's
upper end is not represented: a result beyond the largest finite number, which
the format turns into an infinity, is rounded like any other. -/
def roundFloat (p : Nat) (emin : Int) (x : ℚ) : ℚ :=
  if x = 0 then 0
  else
    let e := max (floorLog2 |x|) emin
    let q : ℚ := (2 : ℚ) ^ (e - (p : Int))
    (roundNearestEven (x / q) : ℚ) * q

/-- Rounding to `float32` (binary32). -/
def float32 (x : ℚ) : ℚ := roundFloat 23 (-126) x

/-- Rounding to `float64` (binary64). -/
def float64 (x : ℚ) : ℚ := roundFloat 52 (-1022) x

end ieee

/-! ## `asicio`: frame types and the reflective codec (`struct-pack.go`, `types.go`) -/

namespace asicio

def CMD_NOTHING : Nat := 0
def CMD_WRITE : Nat := 1
def CMD_READ : Nat := 2
def CMD_READWRITE : Nat := 3
def CMD_LOAD0 : Nat := 4
def CMD_LOAD1 : Nat := 5
def CMD_LOAD2 : Nat := 6
def CMD_LOAD3 : Nat := 7
def CMD_RETURNHIT : Nat := 0x40
def CMD_BROADCAST : Nat := 0x80

def CMD_UNIQUE : Nat := 0x12345678
def RSP_UNIQUE : Nat := 0xdac07654
def HIT_UNIQUE : Nat := 0xdac07654
def RSP_LEN_CFG : Nat := 16
def RSP_LEN_HIT : Nat := 92
def IDLE_BYTES : Nat := 20

/-- The leaf values (`default:` branch of `packValue` / `unpackValue`) that
occur in the frame structs: `uint8`, `uint32` and byte arrays `[N]byte`. -/
inductive GoLeaf where
  | uint8 (n : Nat)
  | uint32 (n : Nat)
  | byteArray (bs : List Nat)
deriving DecidableEq, Repr

/-- The `reflect.Value`s the codec walks over: a leaf, a struct (its fields in
declaration order), a nil pointer, or a pointer to a value. -/
inductive GoValue where
  | leaf (l : GoLeaf)
  | struct (fields : List GoLeaf)
  | nilPtr
  | ptr (elem : GoValue)
deriving DecidableEq, Repr

/-- Number of bytes `encoding/binary` uses for a leaf. -/
def GoLeaf.size : GoLeaf → Nat
  | .uint8 _ => 1
  | .uint32 _ => 4
  | .byteArray bs => bs.length

/-- A leaf holds a value of its Go type. -/
def GoLeaf.wellTyped : GoLeaf → Prop
  | .uint8 n => n < 256
  | .uint32 n => n < 2 ^ 32
  | .byteArray bs => ∀ b ∈ bs, b < 256

/-- Two leaves have the same Go type. -/
def GoLeaf.sameType : GoLeaf → GoLeaf → Prop
  | .uint8 _, .uint8 _ => True
  | .uint32 _, .uint32 _ => True
  | .byteArray a, .byteArray b => a.length = b.length
  | _, _ => False

/-- The call `binary.Write(buf, binary.LittleEndian, v.Interface())` on a leaf:
the bytes appended to the buffer. -/
def binaryWrite : GoLeaf → List Nat
  | .uint8 n => [n]
  | .uint32 n => binary.putUint32 n
  | .byteArray bs => bs

/-- The call `binary.Read(buf, binary.LittleEndian, v.Addr().Interface())` on a
leaf: `io.ReadFull` of `size` bytes from the `bytes.Buffer`.  A short buffer
is drained and gives `EOF` (nothing left) or `unexpected EOF`, the leaf
keeping its old value. -/
def binaryRead (buf : List Nat) (l : GoLeaf) : List Nat × GoLeaf × Option String :=
  if buf.length < l.size then
    ([], l, some (if buf.length = 0 then "EOF" else "unexpected EOF"))
  else
    match l with
    | .uint8 _ => (buf.drop 1, .uint8 (buf.getD 0 0), none)
    | .uint32 _ => (buf.drop 4, .uint32 (binary.uint32 (buf.take 4)), none)
    | .byteArray bs => (buf.drop bs.length, .byteArray (buf.take bs.length), none)

/-- The `reflect.Struct` loop of `packValue`: every field is a leaf and is
written with `binary.Write`, which cannot fail on a `bytes.Buffer`. -/
def packFields : List GoLeaf → List Nat
  | [] => []
  | f :: fs => binaryWrite f ++ packFields fs

/-- The function `packValue`: the bytes written to the buffer, or the error. -/
def packValue : GoValue → Except String (List Nat)
  | .nilPtr => .error "cannot pack nil"
  | .ptr e => packValue e
  | .struct fs => .ok (packFields fs)
  | .leaf l => .ok (binaryWrite l)

/-- The function `packType`: pack every element in turn, stop at the first error. -/
def packType : List GoValue → Except String (List Nat)
  | [] => .ok []
  | e :: es =>
    match packValue e with
    | .error err => .error err
    | .ok bs =>
      match packType es with
      | .error err => .error err
      | .ok rest => .ok (bs ++ rest)

/-- The function `Pack(elts ...interface{}) ([]byte, error)`. -/
def Pack (elts : List GoValue) : Except String (List Nat) :=
  packType elts

/-- The `default:` branch of `unpackValue` on a leaf; `addressable` is
`v.CanAddr()`. -/
def unpackLeaf (buf : List Nat) (addressable : Bool) (l : GoLeaf) :
    List Nat × GoLeaf × Option String :=
  if addressable then binaryRead buf l
  else (buf, l, some "cannot unpack unaddressable leaf type")

/-- The `reflect.Struct` loop of `unpackValue`: remaining buffer, the fields as
filled so far, and the first error.  A field is addressable when its struct is. -/
def unpackFields (addressable : Bool) (buf : List Nat) :
    List GoLeaf → List Nat × List GoLeaf × Option String
  | [] => (buf, [], none)
  | f :: fs =>
    match unpackLeaf buf addressable f with
    | (buf1, f1, some err) => (buf1, f1 :: fs, some err)
    | (buf1, f1, none) =>
      match unpackFields addressable buf1 fs with
      | (buf2, fs2, e) => (buf2, f1 :: fs2, e)

/-- The function `unpackValue`; `addressable` is `v.CanAddr()`, true for
anything reached through a pointer. -/
def unpackValue (buf : List Nat) : Bool → GoValue → List Nat × GoValue × Option String
  | _, .nilPtr => (buf, .nilPtr, some "cannot unpack nil")
  | _, .ptr e =>
    match unpackValue buf true e with
    | (buf1, e1, err) => (buf1, .ptr e1, err)
  | addressable, .struct fs =>
    match unpackFields addressable buf fs with
    | (buf1, fs1, err) => (buf1, .struct fs1, err)
  | addressable, .leaf l =>
    match unpackLeaf buf addressable l with
    | (buf1, l1, err) => (buf1, .leaf l1, err)

/-- The function `UnpackBuf`: every element must be a non-nil pointer. -/
def UnpackBuf (buf : List Nat) : List GoValue → List Nat × List GoValue × Option String
  | [] => (buf, [], none)
  | e :: es =>
    match e with
    | .nilPtr => (buf, e :: es, some "nil pointer passed to UnpackBuf")
    | .ptr _ =>
      match unpackValue buf false e with
      | (buf1, e1, some err) => (buf1, e1 :: es, some err)
      | (buf1, e1, none) =>
        match UnpackBuf buf1 es with
        | (buf2, es2, err) => (buf2, e1 :: es2, err)
    | _ => (buf, e :: es, some "non-pointer value passed to UnpackBuf")

/-- Result of `Unpack`: the byte count and error it returns, and the elements
as left behind the pointers that were passed. -/
structure UnpackResult where
  read : Nat
  err : Option String
  elts : List GoValue
deriving DecidableEq, Repr

/-- The function `Unpack(b []byte, elts ...interface{}) (int, error)`:
`read := len(b) - buf.Len()`. -/
def Unpack (b : List Nat) (elts : List GoValue) : UnpackResult :=
  match UnpackBuf b elts with
  | (buf, elts1, err) => { read := b.length - buf.length, err := err, elts := elts1 }

/-- Frame struct `commandCfgType` of `types.go`. -/
structure commandCfgType where
  Command_unique : Nat
  Id : Nat
  Command : Nat
  Spare : Nat
  Address : Nat
  Data : Nat
  Crc : Nat
deriving DecidableEq, Repr

/-- Frame struct `commandLoadType` of `types.go`. -/
structure commandLoadType where
  Command_unique : Nat
  Id : Nat
  Command : Nat
  Nbits : Nat
  Sequence : Nat
  Load : List Nat
  Crc : Nat
deriving DecidableEq, Repr

/-- Frame struct `responseCfgType` of `types.go`. -/
structure responseCfgType where
  Response_unique : Nat
  Id : Nat
  Command : Nat
  Spare : Nat
  Address : Nat
  Data : Nat
  Crc : Nat
deriving DecidableEq, Repr

/-- Frame struct `ResponseHitType` of `types.go`. -/
structure ResponseHitType where
  Hit_unique : Nat
  Id : Nat
  Command : Nat
  Nbits : Nat
  Sequence : Nat
  Result : List Nat
  Crc : Nat
deriving DecidableEq, Repr

/-- Every field of a `commandCfgType` is in the range of its Go type. -/
def commandCfgType.wellTyped (x : commandCfgType) : Prop :=
  x.Command_unique < 2 ^ 32 ∧ x.Id < 256 ∧ x.Command < 256 ∧ x.Spare < 256 ∧
    x.Address < 256 ∧ x.Data < 2 ^ 32 ∧ x.Crc < 2 ^ 32

/-- Every field of a `commandLoadType` is in the range of its Go type
(`Load` is a `[80]byte`). -/
def commandLoadType.wellTyped (x : commandLoadType) : Prop :=
  x.Command_unique < 2 ^ 32 ∧ x.Id < 256 ∧ x.Command < 256 ∧ x.Nbits < 256 ∧
    x.Sequence < 256 ∧ (x.Load.length = 80 ∧ ∀ b ∈ x.Load, b < 256) ∧ x.Crc < 2 ^ 32

/-- Every field of a `responseCfgType` is in the range of its Go type. -/
def responseCfgType.wellTyped (x : responseCfgType) : Prop :=
  x.Response_unique < 2 ^ 32 ∧ x.Id < 256 ∧ x.Command < 256 ∧ x.Spare < 256 ∧
    x.Address < 256 ∧ x.Data < 2 ^ 32 ∧ x.Crc < 2 ^ 32

/-- Every field of a `ResponseHitType` is in the range of its Go type
(`Result` is a `[80]byte`). -/
def ResponseHitType.wellTyped (x : ResponseHitType) : Prop :=
  x.Hit_unique < 2 ^ 32 ∧ x.Id < 256 ∧ x.Command < 256 ∧ x.Nbits < 256 ∧
    x.Sequence < 256 ∧ (x.Result.length = 80 ∧ ∀ b ∈ x.Result, b < 256) ∧ x.Crc < 2 ^ 32

/-- The struct as `reflect` sees it: its fields in declaration order. -/
def commandCfgType.toValue (x : commandCfgType) : GoValue :=
  .struct [.uint32 x.Command_unique, .uint8 x.Id, .uint8 x.Command, .uint8 x.Spare,
    .uint8 x.Address, .uint32 x.Data, .uint32 x.Crc]

/-- The struct as `reflect` sees it: its fields in declaration order. -/
def commandLoadType.toValue (x : commandLoadType) : GoValue :=
  .struct [.uint32 x.Command_unique, .uint8 x.Id, .uint8 x.Command, .uint8 x.Nbits,
    .uint8 x.Sequence, .byteArray x.Load, .uint32 x.Crc]

/-- The struct as `reflect` sees it: its fields in declaration order. -/
def responseCfgType.toValue (x : responseCfgType) : GoValue :=
  .struct [.uint32 x.Response_unique, .uint8 x.Id, .uint8 x.Command, .uint8 x.Spare,
    .uint8 x.Address, .uint32 x.Data, .uint32 x.Crc]

/-- The struct as `reflect` sees it: its fields in declaration order. -/
def ResponseHitType.toValue (x : ResponseHitType) : GoValue :=
  .struct [.uint32 x.Hit_unique, .uint8 x.Id, .uint8 x.Command, .uint8 x.Nbits,
    .uint8 x.Sequence, .byteArray x.Result, .uint32 x.Crc]

/-- The zero value `var x commandCfgType`. -/
def commandCfgType.zero : commandCfgType := ⟨0, 0, 0, 0, 0, 0, 0⟩

/-- The zero value `var x commandLoadType`. -/
def commandLoadType.zero : commandLoadType := ⟨0, 0, 0, 0, 0, List.replicate 80 0, 0⟩

/-- The zero value `var resp responseCfgType`. -/
def responseCfgType.zero : responseCfgType := ⟨0, 0, 0, 0, 0, 0, 0⟩

/-- The zero value `var resp ResponseHitType`. -/
def ResponseHitType.zero : ResponseHitType := ⟨0, 0, 0, 0, 0, List.replicate 80 0, 0⟩

/-- Read a `responseCfgType` back from the value behind the pointer handed to
`Unpack`. -/
def responseCfgType.ofValue : GoValue → responseCfgType
  | .ptr (.struct [.uint32 u, .uint8 i, .uint8 c, .uint8 s, .uint8 a, .uint32 d, .uint32 k]) =>
    ⟨u, i, c, s, a, d, k⟩
  | _ => responseCfgType.zero

/-- Read a `ResponseHitType` back from the value behind the pointer handed to
`Unpack`. -/
def ResponseHitType.ofValue : GoValue → ResponseHitType
  | .ptr (.struct [.uint32 u, .uint8 i, .uint8 c, .uint8 n, .uint8 s, .byteArray r, .uint32 k]) =>
    ⟨u, i, c, n, s, r, k⟩
  | _ => ResponseHitType.zero

/-- The `msg, _ := Pack(...)` idiom: the byte slice, `nil` when `Pack` fails. -/
def packedOrNil (r : Except String (List Nat)) : List Nat :=
  match r with
  | .ok bs => bs
  | .error _ => []

/-- The function `prepareAsicCmd` of `cmd.go`: pack with a zero crc, checksum
everything but the last four bytes, complement, pack again.  `none` is the
slice-bounds panic of `msg[:len(msg)-4]` on a message shorter than four bytes. -/
def prepareAsicCmd (id cmd addr data : Nat) : Option (List Nat) :=
  let cmd_cfg : commandCfgType :=
    { Command_unique := CMD_UNIQUE, Id := id, Command := cmd, Spare := 0,
      Address := addr, Data := data, Crc := 0 }
  let msg := packedOrNil (Pack [.ptr cmd_cfg.toValue])
  if msg.length < 4 then none
  else
    let cmd_cfg1 : commandCfgType :=
      { cmd_cfg with Crc := crc32.Checksum (msg.take (msg.length - 4)) ^^^ 0xFFFFFFFF }
    some (packedOrNil (Pack [.ptr cmd_cfg1.toValue]))

/-- First part of `checkCfgRespRaw`: a 15-byte fragment gets the canonical
command byte (offset 5) or spare byte (offset 6) re-inserted,
`append((*v)[:6], (*v)[5:]...)` followed by `a[5] = CMD_READ`, resp.
`append((*v)[:7], (*v)[6:]...)` followed by `a[6] = 0`.  The result is the new
`*v` and `loss_offset`. -/
def recoverByteLoss (v : List Nat) : Except String (List Nat × Nat) :=
  if v.length = RSP_LEN_CFG - 1 then
    if v.getD 4 0 ≠ CMD_READ ∧ v.getD 5 0 = 0 then
      .ok ((v.take 6 ++ v.drop 5).set 5 CMD_READ, 5)
    else if v.getD 5 0 = CMD_READ ∧ v.getD 6 0 ≠ 0 then
      .ok ((v.take 7 ++ v.drop 6).set 6 0, 6)
    else .error "partial unpacked"
  else .ok (v, 0)

/-- The method `AuraAsicIO.checkCfgRespRaw` of `cmd.go` (log output left out):
the decoded response, or the error together with a nil response. -/
def checkCfgRespRaw (v : List Nat) : Except String responseCfgType :=
  match recoverByteLoss v with
  | .error e => .error e
  | .ok (v1, _) =>
    let r := Unpack v1 [.ptr responseCfgType.zero.toValue]
    match r.err with
    | some err => .error err
    | none =>
      if r.read ≠ RSP_LEN_CFG then .error "partial unpacked"
      else
        let resp := responseCfgType.ofValue (r.elts.headD .nilPtr)
        let input := v1.take (RSP_LEN_CFG - 4)
        let cksum := crc32.Checksum input ^^^ 0xFFFFFFFF
        if resp.Crc ≠ cksum then .error "unmatched crc32" else .ok resp

/-- The one-hot mask of bit `k` in a message of `n` bytes: byte `k / 8` has
bit `k % 8` set. -/
def bitMask (n k : Nat) : List Nat :=
  (List.range n).map (fun i => if i = k / 8 then 2 ^ (k % 8) else 0)

/-- The message `v` with its bit `k` flipped. -/
def flipBit (v : List Nat) (k : Nat) : List Nat :=
  List.zipWith (fun a b => a ^^^ b) v (bitMask v.length k)

end asicio

/-! ## `asicio`: the payload index (`cmdrw.go`) -/

namespace asicio

/-- The Go zero value `time.Time{}` (1 January of year 1, UTC) in nanoseconds
relative to the Unix epoch. -/
def zeroTime : Int := -62135596800000000000

def asicRegisterReadRoundTripCount : Nat := 1000

/-- Map key `asicReadPayload` of `types.go`. -/
structure asicReadPayload where
  addr : Nat
  asicId : Nat
deriving DecidableEq, Repr

/-- The record `asicCmd` of `types.go`.  Its channel `ch` is represented by the
log `AuraAsicIO.chSent` of the values sent on it. -/
structure asicCmd where
  seq : Nat
  requestTime : Int
  responseTime : Int
  finishTime : Int
  readall : Bool
  targets : List Nat
  command : Nat
  addrs : List Nat
  load : List Nat
  data : List Int
  resps : Int
  done : Bool
  issued : Bool
  completed : Bool
deriving DecidableEq, Repr

/-- The part of `AuraAsicIO` that the payload index and the response queues
work on.  A `*asicCmd` is an address (`Nat`); `cmds` is the heap holding the
records; the FIFOs `qHit` and `qResp` (`fifo.go`, a `container/list` of
`*[]byte`) are the lists of the queued frames, front first.  A Go map from keys
to slices is a function that gives the nil slice for an absent key; the reverse
map, whose key set matters, gives `none` for an absent key. -/
structure AuraAsicIO where
  cmdRegReadMap : asicReadPayload → List Nat
  cmdReverseRegReadMap : Nat → Option (List asicReadPayload)
  cmdHistory : List Nat
  elapsedTime : List Int
  elapsedTimeSum : Int
  cmds : Nat → asicCmd
  chSent : List (Nat × Int)
  clockReads : Nat
  singleThread : Bool
  qHit : List (List Nat)
  qResp : List (List Nat)
  cmdAliveTime : Int := zeroTime

/-- A read of the wall clock: the next value of the oracle. -/
def AuraAsicIO.timeNow (clock : Nat → Int) (aa : AuraAsicIO) : Int × AuraAsicIO :=
  (clock aa.clockReads, { aa with clockReads := aa.clockReads + 1 })

/-- The maps and the history as `NewAsicIOInit` makes them: all empty. -/
def NewAsicIOInit (cmds : Nat → asicCmd) : AuraAsicIO :=
  { cmdRegReadMap := fun _ => [],
    cmdReverseRegReadMap := fun _ => none,
    cmdHistory := [],
    elapsedTime := [],
    elapsedTimeSum := 0,
    cmds := cmds,
    chSent := [],
    clockReads := 0,
    singleThread := false,
    qHit := [],
    qResp := [] }

/-- Inner loop of `createPayloadEntriesInMap` (`for _, addr := range cmd.addrs`)
on the forward map and the `payloads` slice. -/
def createPayloadEntriesAddrs (cmd asicId : Nat) :
    List Nat → (asicReadPayload → List Nat) × List asicReadPayload →
      (asicReadPayload → List Nat) × List asicReadPayload
  | [], st => st
  | addr :: addrs, (m, payloads) =>
    let payload : asicReadPayload := { addr := addr, asicId := asicId }
    createPayloadEntriesAddrs cmd asicId addrs
      (Function.update m payload (m payload ++ [cmd]), payloads ++ [payload])

/-- Outer loop of `createPayloadEntriesInMap`
(`for _, asicId := range cmd.targets`). -/
def createPayloadEntriesTargets (cmd : Nat) (addrs : List Nat) :
    List Nat → (asicReadPayload → List Nat) × List asicReadPayload →
      (asicReadPayload → List Nat) × List asicReadPayload
  | [], st => st
  | asicId :: targets, st =>
    createPayloadEntriesTargets cmd addrs targets (createPayloadEntriesAddrs cmd asicId addrs st)

/-- The method `createPayloadEntriesInMap(cmd)`. -/
def createPayloadEntriesInMap (clock : Nat → Int) (aa : AuraAsicIO) (cmd : Nat) : AuraAsicIO :=
  let c := aa.cmds cmd
  let st := createPayloadEntriesTargets cmd c.addrs c.targets (aa.cmdRegReadMap, [])
  let aa1 : AuraAsicIO :=
    { aa with
      cmdRegReadMap := st.1,
      cmdReverseRegReadMap := Function.update aa.cmdReverseRegReadMap cmd (some st.2),
      cmdHistory := aa.cmdHistory ++ [cmd] }
  let (now, aa2) := aa1.timeNow clock
  { aa2 with cmds := Function.update aa2.cmds cmd { c with requestTime := now } }

/-- The method `releaseCommand(c, val)`: a send on `c.ch` is an entry of
`chSent`. -/
def releaseCommand (aa : AuraAsicIO) (cmd : Nat) (val : Int) : AuraAsicIO :=
  let c := aa.cmds cmd
  if c.completed then aa
  else if c.finishTime = zeroTime ∨ c.responseTime = zeroTime then
    { aa with chSent := aa.chSent ++ [(cmd, val)] }
  else
    let aa1 : AuraAsicIO :=
      if aa.elapsedTime.length ≥ asicRegisterReadRoundTripCount then
        { aa with
          elapsedTimeSum := aa.elapsedTimeSum - aa.elapsedTime.headD 0,
          elapsedTime := aa.elapsedTime.drop 1 }
      else aa
    { aa1 with
      elapsedTime := aa1.elapsedTime ++ [c.finishTime - c.requestTime],
      elapsedTimeSum := aa1.elapsedTimeSum + (c.finishTime - c.requestTime),
      chSent := aa1.chSent ++ [(cmd, val)],
      cmds := Function.update aa1.cmds cmd { c with completed := true } }

/-- Loop of `removePayloadsFromMapandRelease` over the payloads of the record:
`append(cmds[:i], cmds[i+1:]...)` at the first `i` with `cmd == cmds[i]` erases
the first occurrence of the record from the list of the payload. -/
def removePayloads (cmd : Nat) :
    List asicReadPayload → (asicReadPayload → List Nat) → (asicReadPayload → List Nat)
  | [], m => m
  | payload :: payloads, m =>
    removePayloads cmd payloads (Function.update m payload ((m payload).erase cmd))

/-- The method `removePayloadsFromMapandRelease(cmd, val)`. -/
def removePayloadsFromMapandRelease (aa : AuraAsicIO) (cmd : Nat) (val : Int) : AuraAsicIO :=
  let payloads := (aa.cmdReverseRegReadMap cmd).getD []
  let aa1 : AuraAsicIO :=
    { aa with
      cmdRegReadMap := removePayloads cmd payloads aa.cmdRegReadMap,
      cmdReverseRegReadMap := Function.update aa.cmdReverseRegReadMap cmd none }
  releaseCommand aa1 cmd val

/-- The method `removeCommand(cmdInput, val)`: drop the first occurrence of the
record from the history, then `removePayloadsFromMapandRelease`. -/
def removeCommand (aa : AuraAsicIO) (cmdInput : Nat) (val : Int) : AuraAsicIO :=
  removePayloadsFromMapandRelease { aa with cmdHistory := aa.cmdHistory.erase cmdInput } cmdInput val

/-- States of the payload index that the transport can be in: it starts empty
(`NewAsicIOInit`); the writer registers a record it has just received, which
is a new allocation and so not yet a key of the reverse map; records are
removed on completion (`removeCommand`) or on timeout
(`removePayloadsFromMapandRelease` out of `cmdTimeoutChecker`); everything else
the transport does (`other`) leaves the two maps as they are. -/
inductive Reachable (clock : Nat → Int) : AuraAsicIO → Prop where
  | init (cmds : Nat → asicCmd) : Reachable clock (NewAsicIOInit cmds)
  | create (aa : AuraAsicIO) (cmd : Nat) :
      Reachable clock aa → aa.cmdReverseRegReadMap cmd = none →
        Reachable clock (createPayloadEntriesInMap clock aa cmd)
  | timeout (aa : AuraAsicIO) (cmd : Nat) (val : Int) :
      Reachable clock aa → Reachable clock (removePayloadsFromMapandRelease aa cmd val)
  | complete (aa : AuraAsicIO) (cmd : Nat) (val : Int) :
      Reachable clock aa → Reachable clock (removeCommand aa cmd val)
  | other (aa aa1 : AuraAsicIO) :
      Reachable clock aa → aa1.cmdRegReadMap = aa.cmdRegReadMap →
        aa1.cmdReverseRegReadMap = aa.cmdReverseRegReadMap → Reachable clock aa1

end asicio

/-! ## `asicio`: response queues (`fifo.go`, `cmd.go`) -/

namespace asicio

/-- The method `Fifo.Push`: `PushBack` on the list. -/
def Fifo.Push (ff : List (List Nat)) (v : List Nat) : List (List Nat) :=
  ff ++ [v]

/-- The method `Fifo.Pop`: the front element (`none` is the nil interface
value of an empty queue) and the queue that is left. -/
def Fifo.Pop (ff : List (List Nat)) : Option (List Nat) × List (List Nat) :=
  match ff with
  | [] => (none, [])
  | e :: rest => (some e, rest)

/-- The method `putHitRawResult(ptr)`; `none` is the index-out-of-range panic
of `(*ptr)[7]` on a frame shorter than 8 bytes. -/
def putHitRawResult (aa : AuraAsicIO) (ptr : List Nat) : Option AuraAsicIO :=
  match ptr[7]? with
  | none => none
  | some seq =>
    if seq = 0 then some aa
    else some { aa with qHit := Fifo.Push aa.qHit ptr }

/-- The method `CheckCfgResp`.  `asicRead` is the effect of the method
`aa.asicRead()`, which in single-thread mode drains the serial device into the
queues. -/
def CheckCfgResp (asicRead : AuraAsicIO → AuraAsicIO) (aa : AuraAsicIO) :
    Except String responseCfgType × AuraAsicIO :=
  match Fifo.Pop aa.qResp with
  | (some r, q) => (checkCfgRespRaw r, { aa with qResp := q })
  | (none, q) =>
    if aa.singleThread then
      let aa1 := asicRead { aa with qResp := q }
      match Fifo.Pop aa1.qResp with
      | (some r, q1) => (checkCfgRespRaw r, { aa1 with qResp := q1 })
      | (none, q1) => (.error "no response yet", { aa1 with qResp := q1 })
    else (.error "no response yet", { aa with qResp := q })

/-- The method `getCfgResp(id, cmd, addr)`.  In Go `&&` binds tighter than
`||`, so the test `resp.Id != id || resp.Command != cmd && resp.Address != addr`
is `resp.Id != id || (resp.Command != cmd && resp.Address != addr)`. -/
def getCfgResp (asicRead : AuraAsicIO → AuraAsicIO) (aa : AuraAsicIO) (id cmd addr : Nat) :
    Except String Nat × AuraAsicIO :=
  match CheckCfgResp asicRead aa with
  | (.error err, aa1) => (.error err, aa1)
  | (.ok resp, aa1) =>
    if resp.Id ≠ id ∨ (resp.Command ≠ cmd ∧ resp.Address ≠ addr) then
      (.error "unmatched result", aa1)
    else (.ok resp.Data, aa1)

/-- The method `CheckHitResult`: the returned pointer (`none` is nil), the
returned error (`none` is nil), and the state it leaves. -/
def CheckHitResult (aa : AuraAsicIO) : (Option ResponseHitType × Option String) × AuraAsicIO :=
  match Fifo.Pop aa.qHit with
  | (none, q) => ((none, none), { aa with qHit := q })
  | (some v, q) =>
    let aa1 : AuraAsicIO := { aa with qHit := q }
    let r := Unpack v [.ptr ResponseHitType.zero.toValue]
    match r.err with
    | some err => ((none, some err), aa1)
    | none =>
      if r.read ≠ RSP_LEN_HIT then ((none, some "partial unpacked"), aa1)
      else
        let resp := ResponseHitType.ofValue (r.elts.headD .nilPtr)
        let input := v.take (RSP_LEN_HIT - 4)
        let cksum := crc32.Checksum input ^^^ 0xFFFFFFFF
        if resp.Crc ≠ cksum then ((some resp, some "unmatched crc32"), aa1)
        else ((some resp, none), aa1)

end asicio

/-! ## `devhdr`: hash-board ASIC id configuration (`hbasicconfig.go`) -/

namespace devhdr

/-- The anonymous struct `struct { Low int; High int }`. -/
structure IdRange where
  Low : Int
  High : Int
deriving DecidableEq, Repr

/-- The struct `HashBoardAsicIdConfig`. -/
structure HashBoardAsicIdConfig where
  ChipsLow : IdRange
  ChipsHi : IdRange
deriving DecidableEq, Repr

/-- The variable `DefaultHbAsicIdConfig`. -/
def DefaultHbAsicIdConfig : HashBoardAsicIdConfig :=
  { ChipsLow := { Low := 0, High := 65 }, ChipsHi := { Low := 128, High := 193 } }

/-- The function `ChipIDtoIndex(hbConfig, chipId)`. -/
def ChipIDtoIndex (hbConfig : HashBoardAsicIdConfig) (chipId : Nat) : Int :=
  if (chipId : Int) > hbConfig.ChipsHi.High ∨
      ((chipId : Int) > hbConfig.ChipsLow.High ∧ (chipId : Int) < hbConfig.ChipsHi.Low) then
    -1
  else if (chipId : Int) ≥ hbConfig.ChipsHi.Low then
    (chipId : Int) - hbConfig.ChipsHi.Low + hbConfig.ChipsLow.High + 1
  else
    (chipId : Int)

end devhdr

/-! ## `asic`: the controller (`aura-asic.go`, `adapter.go`, `dvfs.go`) -/

namespace asic

/-- The constant `AsicIdDefault` of `adapter.go`. -/
def AsicIdDefault : Nat := 132

/-- The function `GetAsicCounts` of `adapter.go`. -/
def GetAsicCounts : Nat := AsicIdDefault

/-- The Go conversion `uint8(x)` of an `int` or `uint32`. -/
def toUint8 (x : Int) : Nat := (x % 256).toNat

def tempY : ℚ := 662.88
def tempK : ℚ := -287.48

def asicFaultyThresholdInSeconds : Int := 10 * 1000000000
def asicFaultyThresholdCount : Nat := 10
def asicFalseFaultyThresholdInMinutes : Int := 10 * (60 * 1000000000)
def asicFalseFaultyThresholdCount : Nat := 3

/-- The struct `faultyAsicTracker`. -/
structure faultyAsicTracker where
  firstOccurrenceTime : Int
  counts : Nat
  isFaulty : Bool
  falseBadCheck : Nat
deriving DecidableEq, Repr

/-- The struct `ChipEntry`, its `float32` fields as rationals. -/
structure ChipEntry where
  ChipId : Nat := 0
  Frequency : ℚ := 0
  Performance : ℚ := 0
  Voltage : ℚ := 0
  Temperature : ℚ := 0
  VoltGain : ℚ := 0
  VoltOffset : ℚ := 0
  NotFound : Bool := false
  NotResponsive : Bool := false
  NoResponseCtr : Int := 0
deriving DecidableEq, Repr

/-- The struct `HitStat` of `adapter.go`.  A slice field is `none` when it is
the nil slice. -/
structure HitStat where
  elapse : Int := 0
  totalGhits : Nat := 0
  totalThits : Nat := 0
  deltaGhits : Option (List Nat) := none
  deltaThits : Option (List Nat) := none
deriving DecidableEq, Repr

def statsRingSize : Nat := 12
def maxChip : Nat := 255
def hitMax : Nat := 2000

/-- The fields of `AuraAsic` that chip-id mapping, the pipelined read, the
faulty-ASIC tracker, the hit counters and the result polling work on.  The map
`faultyAsicsTrack` is `none` when it is the nil map, and else maps a chip id
to the tracker its pointer points to.  `clockReads` counts the reads of the
wall clock so far.  The fields from `AsicIDs` on start with the values of a
zero `AuraAsic{}`. -/
structure AuraAsic where
  seqChipIds : List Nat
  actualChipIds : List Nat
  BoardAsicConfig : devhdr.HashBoardAsicIdConfig
  lastBadAsicMarking : Int
  faultyAsicsTrack : Option (Nat → Option faultyAsicTracker)
  clockReads : Nat
  AsicIDs : List Nat := []
  brdChainId : Nat := 0
  autoReport : Bool := false
  ChipArray : List ChipEntry := []
  initComplete : Bool := false
  deadBoard : Bool := false
  lastTempReading : Int := asicio.zeroTime
  cacheTemps : List ℚ := []
  ghits : List Nat := List.replicate maxChip 0
  thits : List Nat := List.replicate maxChip 0
  deltaGhits : List Nat := List.replicate maxChip 0
  deltaThits : List Nat := List.replicate maxChip 0
  jobCount : Nat := 0
  hitStats : List HitStat := List.replicate statsRingSize {}
  lastlog : Int := asicio.zeroTime
  hitStatsCursor : Nat := 0
  reportCursor : Nat := 0
  pollingStart : Int := 0
  lastPolling : Int := asicio.zeroTime
  lastCntrReading : Int := asicio.zeroTime
  verMask : Nat := 0
  cacheVolts : List ℚ := []

/-- A read of the wall clock: the next value of the oracle. -/
def AuraAsic.timeNow (clock : Nat → Int) (aa : AuraAsic) : Int × AuraAsic :=
  (clock aa.clockReads, { aa with clockReads := aa.clockReads + 1 })

/-- The method `AuraAsic.ChipIdToIndex`. -/
def ChipIdToIndex (aa : AuraAsic) (chipId : Nat) : Int :=
  if (chipId : Int) > aa.BoardAsicConfig.ChipsHi.High ∨
      ((chipId : Int) > aa.BoardAsicConfig.ChipsLow.High ∧
        (chipId : Int) < aa.BoardAsicConfig.ChipsHi.Low) then
    -1
  else if (chipId : Int) ≥ aa.BoardAsicConfig.ChipsHi.Low then
    (chipId : Int) - aa.BoardAsicConfig.ChipsHi.Low + aa.BoardAsicConfig.ChipsLow.High + 1
  else
    (chipId : Int)

/-- The function `ChipIndexToId(chipIdx, asicIdCfg)`. -/
def ChipIndexToId (chipIdx : Nat) (asicIdCfg : devhdr.HashBoardAsicIdConfig) : Int :=
  if chipIdx ≥ toUint8 GetAsicCounts then -1
  else if chipIdx > toUint8 asicIdCfg.ChipsLow.High then
    (chipIdx : Int) - (asicIdCfg.ChipsLow.High + 1) + asicIdCfg.ChipsHi.Low
  else (chipIdx : Int)

/-- The Go conversion of a non-negative float to an integer type: the
fraction is dropped (truncation toward zero). -/
def truncate (x : ℚ) : Int :=
  if 0 ≤ x then ⌊x⌋ else ⌈x⌉

/-- The function `temperatureConvert(v float32) uint32`.  Every operation is a
`float32` operation: the constant `tempK` and the constant product
`tempY*(1.0/4096.0)` are converted to `float32`, and the difference, the
quotient and the sum are rounded. -/
def temperatureConvert (v : ℚ) : Nat :=
  (truncate (ieee.float32 (ieee.float32 (ieee.float32 (v - ieee.float32 tempK) /
      ieee.float32 (tempY * (1 / 4096))) + 1 / 2)) % 2 ^ 32).toNat

/-- The decoding expression of the loop of `ReadAllTemperature`,
`(float64(v&0xfff)-0.5)*tempY*(1.0/4096.0) + tempK`, every operation a
`float64` operation. -/
def readAllTemperatureDecode (v : Nat) : ℚ :=
  ieee.float64 (ieee.float64 (ieee.float64 (ieee.float64
    (ieee.float64 ((v % 4096 : Nat) : ℚ) - 1 / 2) * ieee.float64 tempY) * (1 / 4096)) +
      ieee.float64 tempK)

/-- The method `TopologyType.Temp(raw_ip)` for the calibration `(tempY, tempK)`
of the topology entry, every operation a `float32` operation. -/
def TopologyType.Temp (myTempY myTempK : ℚ) (raw_ip : Int) : ℚ :=
  ieee.float32 (ieee.float32 (ieee.float32 (ieee.float32
    (ieee.float32 ((raw_ip % 65536 : Int) : ℚ) - 1 / 2) * myTempY) * (1 / 4096)) + myTempK)

/-- The method `TopologyType.InverseTemp(temp)` for the calibration
`(tempY, tempK)` of the topology entry, every operation a `float32`
operation. -/
def TopologyType.InverseTemp (myTempY myTempK : ℚ) (temp : ℚ) : Int :=
  truncate (ieee.float32 (ieee.float32 (ieee.float32 (temp - myTempK) / myTempY) * 4096)) % 65536

/-- The method `isFaultyAsic`. -/
def isFaultyAsic (aa : AuraAsic) (asicId : Nat) : Bool :=
  match aa.faultyAsicsTrack with
  | none => false
  | some m =>
    match m asicId with
    | some payload => payload.isFaulty
    | none => false

/-- The method `clearFaultyAsic`: the returned flag and the state it leaves. -/
def clearFaultyAsic (clock : Nat → Int) (aa : AuraAsic) (asicId : Nat) : Bool × AuraAsic :=
  match aa.faultyAsicsTrack with
  | none => (false, aa)
  | some m =>
    match m asicId with
    | none => (false, aa)
    | some payload =>
      if payload.falseBadCheck < asicFalseFaultyThresholdCount then
        let (now1, aa1) := aa.timeNow clock
        if now1 - aa.lastBadAsicMarking > asicFalseFaultyThresholdInMinutes then
          let (now2, aa2) := aa1.timeNow clock
          (true, { aa2 with
            faultyAsicsTrack := some (Function.update m asicId (some
              { firstOccurrenceTime := now2,
                counts := 1,
                isFaulty := false,
                falseBadCheck := (payload.falseBadCheck + 1) % 2 ^ 32 })) })
        else (false, aa1)
      else (false, aa)

/-- The method `isAsicDetected`. -/
def isAsicDetected (aa : AuraAsic) (asicId : Nat) : Bool :=
  aa.actualChipIds.any (fun chipId => chipId == asicId)

/-- The method `updateAsicFaultyTracker`; `none` is the panic of an assignment
to an entry of a nil map. -/
def updateAsicFaultyTracker (clock : Nat → Int) (aa : AuraAsic) (asicId : Nat) : Option AuraAsic :=
  match aa.faultyAsicsTrack with
  | none => none
  | some m =>
    match m asicId with
    | none =>
      let (now, aa1) := aa.timeNow clock
      some { aa1 with
        faultyAsicsTrack := some (Function.update m asicId (some
          { firstOccurrenceTime := now, counts := 1, isFaulty := false, falseBadCheck := 0 })) }
    | some asicTrack =>
      let (now1, aa1) := aa.timeNow clock
      if now1 - asicTrack.firstOccurrenceTime < asicFaultyThresholdInSeconds then
        let counts := (asicTrack.counts + 1) % 2 ^ 32
        if counts = asicFaultyThresholdCount then
          let (now2, aa2) := aa1.timeNow clock
          some { aa2 with
            lastBadAsicMarking := now2,
            faultyAsicsTrack := some (Function.update m asicId (some
              { asicTrack with counts := counts, isFaulty := true })) }
        else
          some { aa1 with
            faultyAsicsTrack := some (Function.update m asicId (some
              { asicTrack with counts := counts })) }
      else
        let (now2, aa2) := aa1.timeNow clock
        some { aa2 with
          faultyAsicsTrack := some (Function.update m asicId (some
            { firstOccurrenceTime := now2, counts := 1, isFaulty := false, falseBadCheck := 0 })) }

/-- The local variables of `ReadRegsPipelined` that the target-filtering loops
update, together with the controller state.  The Go map `newTargetIndexMap`
gives 0 for an absent key. -/
structure FilterState where
  aa : AuraAsic
  newTargets : List Nat
  faultyAsics : Bool
  newTargetIndexMap : Nat → Nat

/-- Tail of the filter loop body, common to both loops:
`newTargetIndexMap[len(newTargets)] = idx; newTargets = append(newTargets, target)`. -/
def FilterState.submit (st : FilterState) (idx target : Nat) : FilterState :=
  { st with
    newTargetIndexMap := Function.update st.newTargetIndexMap st.newTargets.length idx,
    newTargets := st.newTargets ++ [target] }

/-- One iteration of the filter loops of `ReadRegsPipelined`.  The loop of the
read-all branch (`isReadAll`) has the extra test `!aa.isAsicDetected(target)`;
the loop over a caller-supplied list does not. -/
def filterStep (clock : Nat → Int) (isReadAll : Bool) (st : FilterState) (idx target : Nat) :
    FilterState :=
  if isFaultyAsic st.aa target then
    match clearFaultyAsic clock st.aa target with
    | (false, aa1) => { st with aa := aa1, faultyAsics := true }
    | (true, aa1) =>
      if isReadAll && !isAsicDetected aa1 target then { st with aa := aa1 }
      else FilterState.submit { st with aa := aa1 } idx target
  else
    if isReadAll && !isAsicDetected st.aa target then st
    else st.submit idx target

/-- The loop `for idx, target := range targets` of `ReadRegsPipelined`, from
index `idx` on. -/
def filterTargets (clock : Nat → Int) (isReadAll : Bool) :
    List Nat → Nat → FilterState → FilterState
  | [], _, st => st
  | target :: targets, idx, st =>
    filterTargets clock isReadAll targets (idx + 1) (filterStep clock isReadAll st idx target)

/-- The closure `readStub` of `ReadRegsPipelined`.  When it runs, the variable
`targets` is the caller's non-nil list or has been set to `aa.seqChipIds`, so
both branches of its `if targets == nil` give `len(targets)`. -/
def readStub (targets addrs : List Nat) : List Int :=
  List.replicate (addrs.length * targets.length) (-1)

/-- The loop `for regIdx := 0; regIdx < len(addrs); regIdx++` of
`ReadRegsPipelined` with `n` iterations to go, on `(res, flag, aa)`.
`none` is a panic: an index out of range in `retData[index]` or in
`res[resIdx*len(addrs)+regIdx]`, or the one of `updateAsicFaultyTracker`. -/
def projectRegs (clock : Nat → Int) (addrsLen : Nat) (retData : List Int)
    (resIdx asicIdx target : Nat) :
    Nat → Nat → List Int × Bool × AuraAsic → Option (List Int × Bool × AuraAsic)
  | 0, _, st => some st
  | n + 1, regIdx, (res, flag, aa) =>
    let index := asicIdx * addrsLen + regIdx
    match retData[index]? with
    | none => none
    | some d =>
      if resIdx * addrsLen + regIdx < res.length then
        let res1 := res.set (resIdx * addrsLen + regIdx) d
        if d = -1 ∧ flag = false then
          match updateAsicFaultyTracker clock aa target with
          | none => none
          | some aa1 =>
            projectRegs clock addrsLen retData resIdx asicIdx target n (regIdx + 1) (res1, true, aa1)
        else
          projectRegs clock addrsLen retData resIdx asicIdx target n (regIdx + 1) (res1, flag, aa)
      else none

/-- The loop `for asicIdx := 0; asicIdx < len(newTargets); asicIdx++` of
`ReadRegsPipelined` with `n` iterations to go, on `(res, aa)`. -/
def projectAsics (clock : Nat → Int) (addrsLen : Nat) (retData : List Int)
    (newTargets : List Nat) (newTargetIndexMap : Nat → Nat) :
    Nat → Nat → List Int × AuraAsic → Option (List Int × AuraAsic)
  | 0, _, st => some st
  | n + 1, asicIdx, (res, aa) =>
    match projectRegs clock addrsLen retData (newTargetIndexMap asicIdx) asicIdx
        (newTargets.getD asicIdx 0) addrsLen 0 (res, false, aa) with
    | none => none
    | some (res1, _, aa1) =>
      projectAsics clock addrsLen retData newTargets newTargetIndexMap n (asicIdx + 1) (res1, aa1)

/-- The method `AuraAsic.ReadRegsPipelined(targets, addrs)`.

* `targets = none` is the nil slice (read all chips).
* `nonBlockingRead newTargets addrs` is what the transport call
  `aa.asicIO.NonBlockingRead(newTargets, addrs, nil, CMD_READ)` returns: its
  status and its data slice.
* The result is the returned slice (the returned error is always nil) and the
  controller state afterwards; `none` is a panic. -/
def ReadRegsPipelined (clock : Nat → Int) (nonBlockingRead : List Nat → List Nat → Int × List Int)
    (aa : AuraAsic) (targets : Option (List Nat)) (addrs : List Nat) :
    Option (List Int × AuraAsic) :=
  let isReadAll := targets.isNone
  let targets1 :=
    match targets with
    | none => aa.seqChipIds
    | some ts => ts
  let st := filterTargets clock isReadAll targets1 0
    { aa := aa, newTargets := [], faultyAsics := false, newTargetIndexMap := fun _ => 0 }
  if st.faultyAsics ∧ st.newTargets.length = 0 then
    some (readStub targets1 addrs, st.aa)
  else
    match nonBlockingRead st.newTargets addrs with
    | (result, retData) =>
      if result = 0 ∧ st.faultyAsics = false ∧ isReadAll = false then
        some (retData, st.aa)
      else
        let res : List Int :=
          if isReadAll then List.replicate (aa.seqChipIds.length * addrs.length) (-1)
          else List.replicate (targets1.length * addrs.length) (-1)
        projectAsics clock addrs.length retData st.newTargets st.newTargetIndexMap
          st.newTargets.length 0 (res, st.aa)

/-! ### Vocabulary for the statements about `ReadRegsPipelined` -/

/-- The list the filter loop of `ReadRegsPipelined` runs over: the caller's
list, or `aa.seqChipIds` when the caller passes nil. -/
def targetList (aa : AuraAsic) (targets : Option (List Nat)) : List Nat :=
  match targets with
  | none => aa.seqChipIds
  | some ts => ts

/-- The locals of `ReadRegsPipelined` when the filter loop starts. -/
def filterInit (aa : AuraAsic) : FilterState :=
  { aa := aa, newTargets := [], faultyAsics := false, newTargetIndexMap := fun _ => 0 }

/-- The locals of `ReadRegsPipelined` when the filter loop has handled the
first `i` entries of the target list, that is, when it examines entry `i`. -/
def filterStateAt (clock : Nat → Int) (aa : AuraAsic) (targets : Option (List Nat)) (i : Nat) :
    FilterState :=
  filterTargets clock targets.isNone ((targetList aa targets).take i) 0 (filterInit aa)

/-- The locals of `ReadRegsPipelined` after the filter loop: `newTargets` is
the list submitted to the transport. -/
def filterFinal (clock : Nat → Int) (aa : AuraAsic) (targets : Option (List Nat)) : FilterState :=
  filterTargets clock targets.isNone (targetList aa targets) 0 (filterInit aa)

/-- Some slot among `retData[start], …, retData[start + n - 1]` holds -1. -/
def slotFailed (retData : List Int) : Nat → Nat → Bool
  | _, 0 => false
  | start, n + 1 => (retData[start]? == some (-1)) || slotFailed retData (start + 1) n

/-- The chips at those positions `k, k + 1, …` of the submitted list (its tail
from `k` on being `newTargets`) whose group of `addrsLen` returned slots holds
a -1, in list order and once per position. -/
def failedTargets (addrsLen : Nat) (retData : List Int) : List Nat → Nat → List Nat
  | [], _ => []
  | t :: newTargets, k =>
    (if slotFailed retData (k * addrsLen) addrsLen then [t] else []) ++
      failedTargets addrsLen retData newTargets (k + 1)

/-- One call of `updateAsicFaultyTracker` for each chip of the list, in order. -/
def applyTrackerUpdates (clock : Nat → Int) : List Nat → AuraAsic → Option AuraAsic
  | [], aa => some aa
  | t :: ts, aa =>
    match updateAsicFaultyTracker clock aa t with
    | none => none
    | some aa1 => applyTrackerUpdates clock ts aa1

/-- Relation between the filter loop's locals and the target list `all` when
the loop is about to examine index `idx`: every submitted position `k` comes
from an earlier index `newTargetIndexMap k` of `all` holding the same chip,
the indices increase with `k`, and as long as nothing was skipped in a loop
over a caller-supplied list, position `k` comes from index `k`. -/
def FilterInv (all : List Nat) (isReadAll : Bool) (idx : Nat) (st : FilterState) : Prop :=
  (∀ k, k < st.newTargets.length →
    st.newTargetIndexMap k < idx ∧ all[st.newTargetIndexMap k]? = st.newTargets[k]?) ∧
  (∀ k1 k2, k1 < k2 → k2 < st.newTargets.length →
    st.newTargetIndexMap k1 < st.newTargetIndexMap k2) ∧
  (st.faultyAsics = false → isReadAll = false →
    st.newTargets.length = idx ∧ ∀ k, k < idx → st.newTargetIndexMap k = k)

/-! ### Example inputs (scenario 2 of the specification's section 8) -/

/-- A board with the chips 0 to 3 expected and detected.  Chip 2 is flagged
faulty and has used up its three re-admissions; chip 3 has four failures on
record since time 0. -/
def scenarioBoard : AuraAsic :=
  { seqChipIds := [0, 1, 2, 3],
    actualChipIds := [0, 1, 2, 3],
    BoardAsicConfig := devhdr.DefaultHbAsicIdConfig,
    lastBadAsicMarking := 0,
    faultyAsicsTrack := some (fun c =>
      if c = 2 then some { firstOccurrenceTime := 0, counts := 10, isFaulty := true, falseBadCheck := 3 }
      else if c = 3 then
        some { firstOccurrenceTime := 0, counts := 4, isFaulty := false, falseBadCheck := 0 }
      else none),
    clockReads := 0 }

/-- A clock that shows one second after time 0 at every read. -/
def scenarioClock : Nat → Int := fun _ => 1000000000

/-- A transport on which chip 3 times out (status 1, its slots -1) and every
other submitted chip `t` answers `100 + t` on every address. -/
def scenarioTransport : List Nat → List Nat → Int × List Int :=
  fun ts as => (1, ts.flatMap (fun t => as.map (fun _ => if t = 3 then -1 else (100 + t : Int))))

end asic

/-! ## `devhdr`: chassis configuration (`chassisconfig.go`) -/

namespace devhdr

/-- The function `GetTotalChainCount`, which returns the constant 3. -/
def GetTotalChainCount : Nat := 3

end devhdr

/-! ## `asic`: the DVFS control loop (`dvfs.go`, `dvfs2.go`)

The `float32` variables and operations of the control loop are taken as
rationals and exact operations on them. -/

namespace asic

def DVFS_TUNING : Int := 0
def DVFS_NORMAL : Int := 1
def DVFS_STANDBY : Int := 2

def DVFS_TUNE_INIT : Int := 0
def DVFS_TUNE_SET_FREQ : Int := 1
def DVFS_TUNE_STEPPING_UP : Int := 2
def DVFS_TUNE_OPTIMIZE : Int := 3
def DVFS_TUNE_FINETUNE : Int := 4
def DVFS_TUNE_DONE : Int := 5

def backOffPctBigStep : ℚ := 0.10
def backOffPctSmallStep : ℚ := 0.06
def minPctStep : ℚ := 0.015

/-- The constant `AsicTempLimit` of `adapter.go`. -/
def AsicTempLimit : ℚ := 120

/-- The duration `time.Minute` in nanoseconds. -/
def minute : Int := 60 * 1000000000

/-- Go `int` arithmetic: the result of an operation wrapped into 64 bits
(two's complement). -/
def goInt (x : Int) : Int := (x + 2 ^ 63) % 2 ^ 64 - 2 ^ 63

/-- The package-level variables of `dvfs.go` and `dvfs2.go` that the target
adaptation and the temperature monitor read and write. -/
structure DvfsGlobals where
  MinThsRate : ℚ
  orgTargetTHS : ℚ
  targetTHS : ℚ
  curTargetTHS : ℚ
  dvfsState : Int
  tuneState : Int
  nBouncingBack : Int
  targetReducing : Bool
  backOffPct : ℚ
  curPower : ℚ
  powerHighWater : ℚ
  tempHighWater : ℚ
  max_temp : ℚ
  avg_temp : ℚ
  hotChip : Int
  hotBoard : Int
  curBoard : Int
deriving DecidableEq

/-- The method `DvfsType.reduceTargetTHS(bigStep, msg)`; `num_boards` is
`dd.num_boards` (the log line and its `msg` are left out). -/
def reduceTargetTHS (g : DvfsGlobals) (num_boards : Int) (bigStep : Bool) : DvfsGlobals :=
  let g1 : DvfsGlobals :=
    if g.nBouncingBack = 0 then
      { g with
        backOffPct := if bigStep then backOffPctBigStep else backOffPctSmallStep,
        nBouncingBack := goInt (g.nBouncingBack + 1) }
    else if g.targetReducing = false ∧ g.backOffPct > minPctStep then
      { g with
        backOffPct :=
          g.backOffPct * ((g.nBouncingBack : ℚ) / ((goInt (g.nBouncingBack + 1) : Int) : ℚ)),
        nBouncingBack := goInt (g.nBouncingBack + 1) }
    else g
  let g2 : DvfsGlobals := { g1 with targetReducing := true }
  let target := g2.curTargetTHS * (1 - g2.backOffPct)
  let realMin := g2.MinThsRate * (num_boards : ℚ) / (devhdr.GetTotalChainCount : ℚ)
  { g2 with targetTHS := if target < realMin then realMin else target }

/-- Tail of `monitorPowerTarget` from `newTarget := targetTHS * ratio` on (the
part commented "avoid internal target goes beyond user setting"). -/
def monitorPowerTargetApply (g : DvfsGlobals) (ratio : ℚ) : Bool × DvfsGlobals :=
  let newTarget0 := g.targetTHS * ratio
  let newTarget := if newTarget0 ≥ g.orgTargetTHS then g.orgTargetTHS else newTarget0
  if newTarget / g.targetTHS < 1.01 then (false, g)
  else (true, { g with targetTHS := newTarget })

/-- Middle of `monitorPowerTarget`: the block
`if suggestedStep >= minPctStep { ... } else { ... }` that fixes `ratio`,
followed by the tail. -/
def monitorPowerTargetRatio (g : DvfsGlobals) (hashpct pwrpct suggestedStep : ℚ) :
    Bool × DvfsGlobals :=
  if suggestedStep ≥ minPctStep then
    monitorPowerTargetApply
      { g with nBouncingBack := 1, backOffPct := suggestedStep, targetReducing := false }
      (1 + suggestedStep)
  else if g.nBouncingBack ≥ 5 ∨ g.backOffPct ≤ minPctStep then (false, g)
  else
    let ratio0 : ℚ := if hashpct < pwrpct then 0.965 / pwrpct else 0.965 / hashpct
    let g1 : DvfsGlobals := if g.nBouncingBack = 0 then { g with nBouncingBack := 1 } else g
    let g2 : DvfsGlobals :=
      if g1.targetReducing then
        { g1 with
          backOffPct :=
            g1.backOffPct * ((g1.nBouncingBack : ℚ) / ((goInt (g1.nBouncingBack + 1) : Int) : ℚ)),
          nBouncingBack := goInt (g1.nBouncingBack + 1),
          targetReducing := false }
      else g1
    monitorPowerTargetApply g2 (if ratio0 > 1 + g2.backOffPct then 1 + g2.backOffPct else ratio0)

/-- The method `DvfsType.monitorPowerTarget(avgHashRate, sinceTuneDone)`:
the returned flag and the globals it leaves.  `voltage` is `dd.voltage` and
`max_voltage` is `dd.systeminfo.max_voltage`; `suggestedStep` is 0 unless one
of the branches under `sinceTuneDone > time.Minute*30` sets it. -/
def monitorPowerTarget (g : DvfsGlobals) (voltage max_voltage : ℚ) (avgHashRate : ℚ)
    (sinceTuneDone : Int) : Bool × DvfsGlobals :=
  if g.targetTHS ≥ g.orgTargetTHS * 0.99 then (false, g)
  else
    let hashpct := avgHashRate / g.orgTargetTHS
    let pwrpct := g.curPower / g.powerHighWater
    if hashpct < 0.95 ∧ pwrpct < 0.95 ∧ voltage < max_voltage - 0.03 ∧
        g.max_temp < g.tempHighWater - 10 then
      if sinceTuneDone > minute * 30 then
        if hashpct < 0.75 ∧ pwrpct < 0.75 ∧ g.max_temp < g.tempHighWater - 25 then
          (true, { g with targetTHS := g.orgTargetTHS, nBouncingBack := 0 })
        else if hashpct < 0.8 ∧ pwrpct < 0.8 ∧ g.max_temp < g.tempHighWater - 20 then
          monitorPowerTargetRatio g hashpct pwrpct backOffPctBigStep
        else if hashpct < 0.90 ∧ pwrpct < 0.90 ∧ g.max_temp < g.tempHighWater - 15 then
          monitorPowerTargetRatio g hashpct pwrpct backOffPctSmallStep
        else monitorPowerTargetRatio g hashpct pwrpct 0
      else monitorPowerTargetRatio g hashpct pwrpct 0
    else (false, g)

/-- Example globals: a miner in NORMAL state with target 100 TH/s, before any
target reduction. -/
def scenarioDvfs : DvfsGlobals :=
  { MinThsRate := 30, orgTargetTHS := 100, targetTHS := 100, curTargetTHS := 100,
    dvfsState := DVFS_NORMAL, tuneState := DVFS_TUNE_DONE, nBouncingBack := 0,
    targetReducing := false, backOffPct := 0.10, curPower := 3000, powerHighWater := 3300,
    tempHighWater := 110, max_temp := 70, avg_temp := 60, hotChip := 0, hotBoard := 0,
    curBoard := 0 }

end asic

/-! ## `asic`: chip discovery (`AuraAsicInit` of `aura-asic.go`) -/

namespace asic

def ADDR_CHIP_UNIQUE : Nat := 0
def ADDR_SUMMARY : Nat := 18
def ADDR_HIT_COUNT_GENERAL : Nat := 96
def ADDR_TRUEHIT_COUNT_GENERAL : Nat := 97

/-- The reply value of an Auradine chip to a read of `ADDR_CHIP_UNIQUE`. -/
def chipUnique : Nat := 0x61727541

/-- Body of the collection loop of `AuraAsicInit` for one non-nil `result` of
`CheckCfgResp`: the slice `chips` afterwards. -/
def collectChip (maxChipId : Int) (swReadErrorAsics : List Nat) (chips : List Int)
    (result : asicio.responseCfgType) : List Int :=
  if result.Data = chipUnique ∧ result.Address = ADDR_CHIP_UNIQUE ∧
      (result.Id : Int) ≤ maxChipId then
    if swReadErrorAsics.any (fun asic => decide (asic = result.Id)) then chips
    else chips ++ [(result.Id : Int)]
  else chips

/-- The call `sort.Ints(chips)`: the slice in ascending order. -/
def sortInts (chips : List Int) : List Int :=
  chips.insertionSort (fun a b => a ≤ b)

/-- The loop "Remove duplicates" of `AuraAsicInit`, on the map `keys` and the
slice `chips2`. -/
def dedupChips : List Int → (Int → Bool) → List Nat → List Nat
  | [], _, chips2 => chips2
  | entry :: rest, keys, chips2 =>
    if keys entry then dedupChips rest keys chips2
    else dedupChips rest (Function.update keys entry true) (chips2 ++ [toUint8 entry])

/-- The loop `for ii := 0; ii < int(numChips); ii++` of `AuraAsicInit` with
`n` iterations to go, on `(aa.seqChipIds, aa.ChipArray)`; `jj` is the cursor
into `chips2`. -/
def buildChipTable (asicIdCfg : devhdr.HashBoardAsicIdConfig) (chips2 : List Nat) :
    Nat → Nat → Nat → List Nat × List ChipEntry → List Nat × List ChipEntry
  | 0, _, _, st => st
  | n + 1, ii, jj, (seqChipIds, chipArray) =>
    let chipId := toUint8 (ChipIndexToId (toUint8 ii) asicIdCfg)
    let seqChipIds1 := seqChipIds.set ii chipId
    if jj < chips2.length ∧ chipId = chips2.getD jj 0 then
      buildChipTable asicIdCfg chips2 n (ii + 1) (jj + 1)
        (seqChipIds1, chipArray ++ [{ ChipId := chipId }])
    else
      buildChipTable asicIdCfg chips2 n (ii + 1) jj
        (seqChipIds1, chipArray ++ [{ ChipId := chipId, NotFound := true }])

/-- The three tables that `AuraAsicInit` builds from the discovery replies. -/
structure ChipTable where
  actualChipIds : List Nat
  seqChipIds : List Nat
  ChipArray : List ChipEntry
deriving DecidableEq, Repr

/-- The part of `AuraAsicInit` from the collection of the discovery replies to
the end of the table loop.  `results` are the non-nil results that
`CheckCfgResp` gave to the collection loop before its timeout, in order;
`swReadErrorAsics` is the field of that name.  An error is the return
`nil, "no Auradine ASIC is detected"`. -/
def AuraAsicInitTable (maxChipId : Int) (swReadErrorAsics : List Nat)
    (asicIdCfg : devhdr.HashBoardAsicIdConfig) (results : List asicio.responseCfgType) :
    Except String ChipTable :=
  let chips := results.foldl (collectChip maxChipId swReadErrorAsics) []
  if chips.length = 0 then .error "no Auradine ASIC is detected"
  else
    let chips2 := dedupChips (sortInts chips) (fun _ => false) []
    let numChips := GetAsicCounts
    match buildChipTable asicIdCfg chips2 numChips 0 0 (List.replicate numChips 0, []) with
    | (seqChipIds, chipArray) =>
      .ok { actualChipIds := chips2, seqChipIds := seqChipIds, ChipArray := chipArray }

/-- The reply frame, decoded, of chip `id` to the discovery read. -/
def discoveryReply (id : Nat) : asicio.responseCfgType :=
  { asicio.responseCfgType.zero with
    Response_unique := asicio.RSP_UNIQUE, Id := id, Command := asicio.CMD_READ,
    Address := ADDR_CHIP_UNIQUE, Data := chipUnique }

end asic

/-! ## `asic`: the temperature monitor of the DVFS loop (`dvfs2.go`) -/

namespace asic

/-- The struct `TopologyType` of `dvfs.go`, its `float32` fields as rationals. -/
structure TopologyType where
  board : Int := 0
  row : Int := 0
  col : Int := 0
  id : Int := 0
  x : Int := 0
  y : Int := 0
  tempY : ℚ := 0
  tempK : ℚ := 0
  bistCoefficient : ℚ := 0
  temperature : ℚ := 0
  frequency : ℚ := 0
  voltage : ℚ := 0
  hitrate : ℚ := 0
  voltageGain : ℚ := 0
  voltageOffset : ℚ := 0
  badTempCtr : Int := 0
  badVoltCtr : Int := 0
  noResponseCtr : Nat := 0
deriving DecidableEq

/-- What the monitors of the DVFS loop read and write: the package
variables, the slice `my.topology`, the array `AsicHandle` (an entry `none`
is a nil pointer), and the arguments of the calls of
`powerstate.SystemPowerOff` made so far.  The fields from `num_boards` on are
`dd.num_boards` and the package variables of the voltage and power monitors,
the arrays of length `maxChains = 16`; they start with their initial values
(`num_boards` with the number of chains). -/
structure DvfsWorld where
  globals : DvfsGlobals
  topology : List TopologyType
  AsicHandle : List (Option AuraAsic)
  powerOffCalls : List Bool
  num_boards : Int := 3
  voltLoopCtr : Int := 0
  deadAsicCtr : List Nat := List.replicate 16 0
  powerHigh : Bool := false
  powerLowWater : ℚ := 0
  maxVolt : ℚ := 0.440
  avg_volt : List ℚ := List.replicate 16 0
  min_volt : List ℚ := List.replicate 16 0
  max_volt : List ℚ := List.replicate 16 0

/-- Body of the loop of `processTemp` for the entry `t`, on the package
variables and the local `badTemps`; the result carries the entry as the body
leaves it.  `none` is a panic: an index out of range in `AsicHandle[t.board+1]`
or in `aa.cacheTemps[...]`. -/
def processTempEntry (handles : List (Option AuraAsic)) (g : DvfsGlobals) (badTemps : Int)
    (t : TopologyType) : Option (DvfsGlobals × Int × TopologyType) :=
  let idx := goInt (t.board + 1)
  if idx < 0 then none
  else
    match handles[idx.toNat]? with
    | none => none
    | some none => some (g, goInt (badTemps + 1), t)
    | some (some aa) =>
      if aa.deadBoard then some (g, goInt (badTemps + 1), t)
      else
        let g1 : DvfsGlobals := if g.curBoard = -1 then { g with curBoard := t.board } else g
        let ci := ChipIdToIndex aa (toUint8 t.id)
        if ci < 0 then none
        else
          match aa.cacheTemps[ci.toNat]? with
          | none => none
          | some newTemp =>
            if newTemp > -300 then
              let t1 : TopologyType :=
                if newTemp > 170 then
                  { t with badTempCtr := goInt (t.badTempCtr + 1), temperature := 0 }
                else { t with badTempCtr := 0, temperature := newTemp }
              let g2 : DvfsGlobals := { g1 with avg_temp := g1.avg_temp + t1.temperature }
              let g3 : DvfsGlobals :=
                if t1.temperature > g2.max_temp then
                  { g2 with hotChip := t.id, hotBoard := t.board, max_temp := t1.temperature }
                else g2
              some (g3, badTemps, t1)
            else some (g1, goInt (badTemps + 1), t)

/-- The loop `for i := 0; i < len(my.topology); i++` of `processTemp` over the
entries still to visit: the package variables and `badTemps` at its end, and
the entries as it leaves them. -/
def processTempLoop (handles : List (Option AuraAsic)) :
    List TopologyType → DvfsGlobals × Int → Option ((DvfsGlobals × Int) × List TopologyType)
  | [], st => some (st, [])
  | t :: rest, (g, badTemps) =>
    match processTempEntry handles g badTemps t with
    | none => none
    | some (g1, badTemps1, t1) =>
      match processTempLoop handles rest (g1, badTemps1) with
      | none => none
      | some (st, ts) => some (st, t1 :: ts)

/-- The loop of `enterStandbyMode` with `n` iterations to go:
`if AsicHandle[i+1] != nil { AsicHandle[i+1].initComplete = false }`.
`none` is the panic of an index out of range. -/
def standbyHandles : Nat → Nat → List (Option AuraAsic) → Option (List (Option AuraAsic))
  | 0, _, handles => some handles
  | n + 1, i, handles =>
    match handles[i + 1]? with
    | none => none
    | some none => standbyHandles n (i + 1) handles
    | some (some aa) =>
      standbyHandles n (i + 1) (handles.set (i + 1) (some { aa with initComplete := false }))

/-- The function `enterStandbyMode` (its `Delay(2000)` only waits). -/
def enterStandbyMode (w : DvfsWorld) : Option DvfsWorld :=
  let w1 : DvfsWorld :=
    { w with
      globals := { w.globals with dvfsState := DVFS_STANDBY },
      powerOffCalls := w.powerOffCalls ++ [false] }
  match standbyHandles devhdr.GetTotalChainCount 0 w1.AsicHandle with
  | none => none
  | some handles => some { w1 with AsicHandle := handles }

/-- The method `DvfsType.processTemp`: the returned flag and the state it
leaves; `none` is a panic. -/
def processTemp (w : DvfsWorld) : Option (Bool × DvfsWorld) :=
  let g0 : DvfsGlobals :=
    { w.globals with hotChip := -1, hotBoard := -1, max_temp := -40, curBoard := -1 }
  match processTempLoop w.AsicHandle w.topology (g0, 0) with
  | none => none
  | some ((g1, badTemps), topology) =>
    let n : Int := goInt ((topology.length : Int) - badTemps)
    let g2 : DvfsGlobals :=
      if (n : ℚ) > 0 then { g1 with avg_temp := g1.avg_temp / (n : ℚ) }
      else { g1 with avg_temp := 0 }
    let w1 : DvfsWorld := { w with globals := g2, topology := topology }
    if g2.max_temp ≥ AsicTempLimit then
      match enterStandbyMode w1 with
      | none => none
      | some w2 => some (true, w2)
    else some (false, w1)

/-! ### Vocabulary for the statements about `processTemp` -/

/-- The cached temperature that `processTemp` reads for the entry `t`:
`aa.cacheTemps[aa.ChipIdToIndex(uint8(t.id))]` with `aa = AsicHandle[t.board+1]`.
`some none` when the board is nil or dead (the entry is skipped), `none` when
the read panics. -/
def cachedTemp (handles : List (Option AuraAsic)) (t : TopologyType) : Option (Option ℚ) :=
  if goInt (t.board + 1) < 0 then none
  else
    match handles[(goInt (t.board + 1)).toNat]? with
    | none => none
    | some none => some none
    | some (some aa) =>
      if aa.deadBoard then some none
      else if ChipIdToIndex aa (toUint8 t.id) < 0 then none
      else
        match aa.cacheTemps[(ChipIdToIndex aa (toUint8 t.id)).toNat]? with
        | none => none
        | some x => some (some x)

/-- A live board whose only cached temperature, the one of chip 0, is `x`. -/
def scenarioHotBoard (x : ℚ) : AuraAsic :=
  { seqChipIds := [0], actualChipIds := [0],
    BoardAsicConfig := devhdr.DefaultHbAsicIdConfig, lastBadAsicMarking := 0,
    faultyAsicsTrack := none, clockReads := 0, cacheTemps := [x], initComplete := true }

/-- A miner in NORMAL state with one board in slot 1 and chip 0 of that board
in its topology, the chip's cached temperature being `x`. -/
def scenarioHotWorld (x : ℚ) : DvfsWorld :=
  { globals := scenarioDvfs,
    topology := [{ board := 0, id := 0 }],
    AsicHandle := [none, some (scenarioHotBoard x), none, none],
    powerOffCalls := [] }

end asic

/-! ## `chip`: the message to the job manager (`chip/message.go`) -/

namespace chip

def SEQ_HASHRATE_UPDATE : Nat := 9999

/-- The struct `Message`.  The arrays `TrueHit`, `GenHit` and `HitRate` of
`CHIP_MAX = 256` entries are functions of the index, which is a `uint8`
wherever the controller writes them. -/
structure Message where
  Seq : Nat := 0
  Diff : Nat := 0
  Chip : Nat := 0
  Engine : Nat := 0
  Board : Nat := 0
  TrueHit : Nat → Nat := fun _ => 0
  GenHit : Nat → Nat := fun _ => 0
  HitRate : Nat → ℚ := fun _ => 0
  Body : String := ""
  VersionMask : Nat := 0

end chip

/-! ## `asic`: hit counters and result polling (`adapter.go`) -/

namespace asic

def maxJobInterval : Int := 300 * 1000000000
def cntReadInterval : Int := 5 * 1000000000
def minPollingInterval : Int := 10 * 1000000

/-- The Go conversion `uint32(x)` of an `int64`. -/
def toUint32 (x : Int) : Nat := (x % 2 ^ 32).toNat

/-- The `uint32` subtraction `a - b`. -/
def subUint32 (a b : Nat) : Nat := (((a : Int) - (b : Int)) % 2 ^ 32).toNat

/-- A store `s[i] = v` into a slice or an array; `none` is the panic of an
index out of range. -/
def storeAt {α : Type} (s : List α) (i : Nat) (v : α) : Option (List α) :=
  if i < s.length then some (s.set i v) else none

/-- The sanity check of `checkHitCounters` on a fresh delta at index `i`:
a delta above `hitMax` is replaced by 0 at index 0 and else by the delta of
the neighbour `i - 1` in the snapshot `cd`. -/
def sanitizeDelta (cd : List Nat) (i delta : Nat) : Nat :=
  if delta > hitMax then
    if i = 0 then 0 else cd.getD (i - 1) 0
  else delta

/-- Body of the first loop of `checkHitCounters` (true hits) at index `i`, on
the controller and on the snapshot `curStats` points to. -/
def trueHitStep (result : Int) (i : Nat) (aa : AuraAsic) (cur : HitStat) :
    Option (AuraAsic × HitStat) :=
  if result = -1 then
    match storeAt aa.deltaThits i 0, storeAt (cur.deltaThits.getD []) i 0, aa.ChipArray[i]? with
    | some d, some cd, some entry =>
      if entry.NotFound = false ∧ aa.AsicIDs[i]? = none then none
      else some ({ aa with deltaThits := d }, { cur with deltaThits := some cd })
    | _, _, _ => none
  else
    match aa.thits[i]? with
    | none => none
    | some old =>
      let cd := cur.deltaThits.getD []
      if i < cd.length ∧ i < aa.deltaThits.length then
        let delta := sanitizeDelta cd i (subUint32 (toUint32 result) old)
        some
          ({ aa with
              deltaThits := aa.deltaThits.set i delta,
              thits := aa.thits.set i (toUint32 result) },
            { cur with
              deltaThits := some (cd.set i delta),
              totalThits := (cur.totalThits + delta) % 2 ^ 32 })
      else none

/-- The expression `float32(t) * 100 / float32(g)` of `checkHitCounters` on
two `uint32` values, every operation rounded to `float32`. -/
def hitPercent (t g : Nat) : ℚ :=
  ieee.float32 (ieee.float32 (ieee.float32 (t : ℚ) * 100) / ieee.float32 (g : ℚ))

/-- Body of the second loop of `checkHitCounters` (general hits) at index `i`,
on the controller, the snapshot and the slice `percents`. -/
def genHitStep (result : Int) (i : Nat) (aa : AuraAsic) (cur : HitStat) (percents : List ℚ) :
    Option (AuraAsic × HitStat × List ℚ) :=
  if result = -1 then
    match storeAt (cur.deltaGhits.getD []) i 0, storeAt aa.deltaGhits i 0, aa.ChipArray[i]? with
    | some cd, some d, some entry =>
      if entry.NotFound = false ∧ aa.AsicIDs[i]? = none then none
      else some ({ aa with deltaGhits := d }, { cur with deltaGhits := some cd }, percents)
    | _, _, _ => none
  else
    match aa.ghits[i]? with
    | none => none
    | some old =>
      let cd := cur.deltaGhits.getD []
      if i < cd.length ∧ i < aa.deltaGhits.length then
        let delta := sanitizeDelta cd i (subUint32 (toUint32 result) old)
        let cur1 : HitStat := { cur with deltaGhits := some (cd.set i delta) }
        let aa1 : AuraAsic := { aa with deltaGhits := aa.deltaGhits.set i delta }
        if delta > 0 then
          match (cur1.deltaThits.getD [])[i]?, aa1.ChipArray[i]? with
          | some dt, some entry =>
            if i < percents.length then
              let pct : ℚ := hitPercent dt delta
              some
                ({ aa1 with
                    ChipArray := aa1.ChipArray.set i { entry with Performance := pct },
                    ghits := aa1.ghits.set i (toUint32 result) },
                  { cur1 with totalGhits := (cur1.totalGhits + delta) % 2 ^ 32 },
                  percents.set i pct)
            else none
          | _, _ => none
        else some ({ aa1 with ghits := aa1.ghits.set i (toUint32 result) }, cur1, percents)
      else none

/-- The first loop of `checkHitCounters` over the results still to visit. -/
def trueHitLoop : List Int → Nat → AuraAsic → HitStat → Option (AuraAsic × HitStat)
  | [], _, aa, cur => some (aa, cur)
  | result :: rest, i, aa, cur =>
    match trueHitStep result i aa cur with
    | none => none
    | some (aa1, cur1) => trueHitLoop rest (i + 1) aa1 cur1

/-- The second loop of `checkHitCounters` over the results still to visit. -/
def genHitLoop : List Int → Nat → AuraAsic → HitStat → List ℚ →
    Option (AuraAsic × HitStat × List ℚ)
  | [], _, aa, cur, percents => some (aa, cur, percents)
  | result :: rest, i, aa, cur, percents =>
    match genHitStep result i aa cur percents with
    | none => none
    | some (aa1, cur1, percents1) => genHitLoop rest (i + 1) aa1 cur1 percents1

/-- The method `AuraAsic.ReadAllPipelined(addr)`. -/
def ReadAllPipelined (clock : Nat → Int)
    (nonBlockingRead : List Nat → List Nat → Int × List Int) (aa : AuraAsic) (addr : Nat) :
    Option (List Int × AuraAsic) :=
  ReadRegsPipelined clock nonBlockingRead aa none [addr]

/-- The last loop of `checkHitCounters`, which fills `hashRates` for the log:
whether every index it uses is in range. -/
def hashRatesInRange (results : List Int) (asicIDs : List Nat) (cur : HitStat) : Bool :=
  (List.range results.length).all (fun i =>
    decide (results.getD i 0 = -1) ||
      (decide (i < asicIDs.length) && decide (i < (cur.deltaThits.getD []).length)))

/-- The method `AuraAsic.checkHitCounters`: the returned slice `percents` (the
returned error is always nil) and the controller afterwards; `none` is a
panic.  The snapshot `curStats` points into `aa.hitStats`; it is written back
at the end, nothing in between reading the ring. -/
def checkHitCounters (clock : Nat → Int)
    (nonBlockingRead : List Nat → List Nat → Int × List Int) (aa : AuraAsic) :
    Option (List ℚ × AuraAsic) :=
  let percents : List ℚ := List.replicate aa.AsicIDs.length 0
  let slot := aa.hitStatsCursor % statsRingSize
  match aa.hitStats[slot]? with
  | none => none
  | some cur0 =>
    let cur : HitStat :=
      if cur0.deltaGhits = none then
        { cur0 with
          deltaThits := some (List.replicate aa.AsicIDs.length 0),
          deltaGhits := some (List.replicate aa.AsicIDs.length 0) }
      else { cur0 with totalThits := 0, totalGhits := 0 }
    match ReadAllPipelined clock nonBlockingRead aa ADDR_TRUEHIT_COUNT_GENERAL with
    | none => none
    | some (results, aa1) =>
      match trueHitLoop results 0 aa1 cur with
      | none => none
      | some (aa2, cur2) =>
        match ReadAllPipelined clock nonBlockingRead aa2 ADDR_HIT_COUNT_GENERAL with
        | none => none
        | some (results2, aa3) =>
          match genHitLoop results2 0 aa3 cur2 percents with
          | none => none
          | some (aa4, cur4, percents4) =>
            match aa4.timeNow clock with
            | (now, aa5) =>
              match aa5.timeNow clock with
              | (now2, aa6) =>
                if hashRatesInRange results2 aa6.AsicIDs cur4 then
                  some (percents4,
                    { aa6 with
                      hitStats := aa6.hitStats.set slot { cur4 with elapse := now - aa6.lastlog },
                      lastlog := now2,
                      hitStatsCursor := (aa6.hitStatsCursor + 1) % statsRingSize })
                else none

/-- Body of the loop of `pollHitResults` for the chip `chipId =
aa.actualChipIds[i]` and its slot `ret = results[i-start]`, on the controller,
`nTotalHits` and the chip ids sent to `ReqestHitResult` so far.  `none` is the
panic of an index out of range in `aa.cacheTemps[...]` or `aa.ChipArray[...]`.
The cached temperature is taken in exact arithmetic (the code computes it in
`float64` and stores `float32(temp)` in the chip table); no statement depends
on its value. -/
def pollHitStep (ret : Int) (chipId : Nat) (aa : AuraAsic) (nTotalHits : Int)
    (requests : List Nat) : Option (AuraAsic × Int × List Nat) :=
  let idx := ChipIdToIndex aa chipId
  if idx < 0 then none
  else
    let temp : ℚ :=
      if ret ≠ -1 then (((ret / 65536 % 65536 : Int) : ℚ) - 0.5) * tempY * (1.0 / 4096.0) + tempK
      else -1000
    match storeAt aa.cacheTemps idx.toNat temp, aa.ChipArray[idx.toNat]? with
    | some temps, some entry =>
      let aa1 : AuraAsic :=
        { aa with
          cacheTemps := temps,
          ChipArray := aa.ChipArray.set idx.toNat { entry with Temperature := temp } }
      if ret ≠ -1 then
        let nHits := ret % 16
        if nHits ≠ 0 then
          some (aa1, goInt (nTotalHits + nHits), requests ++ List.replicate nHits.toNat chipId)
        else some (aa1, nTotalHits, requests)
      else some (aa1, nTotalHits, requests)
    | _, _ => none

/-- The loop `for i := start; i < end; i++` of `pollHitResults` over the chips
still to visit; `k` is `i - start`. -/
def pollHitLoop (results : List Int) :
    List Nat → Nat → AuraAsic → Int → List Nat → Option (AuraAsic × Int × List Nat)
  | [], _, aa, n, requests => some (aa, n, requests)
  | chipId :: rest, k, aa, n, requests =>
    match results[k]? with
    | none => none
    | some ret =>
      match pollHitStep ret chipId aa n requests with
      | none => none
      | some (aa1, n1, requests1) => pollHitLoop results rest (k + 1) aa1 n1 requests1

/-- The method `AuraAsic.pollHitResults(false)`: the returned count (the
returned error is always nil), the chip ids passed to `ReqestHitResult` in
order, and the controller afterwards.  The slice `aa.actualChipIds` is not nil
after `AuraAsicInit`, so `aa.actualChipIds[start:end]` is a non-nil slice. -/
def pollHitResults (clock : Nat → Int)
    (nonBlockingRead : List Nat → List Nat → Int × List Int) (aa : AuraAsic) :
    Option (Int × List Nat × AuraAsic) :=
  let chiplen : Int := aa.actualChipIds.length
  let start : Int := if aa.pollingStart ≥ chiplen then 0 else aa.pollingStart
  let stop : Int := if start + 44 > chiplen then chiplen else start + 44
  if start < 0 then none
  else
    let aa1 : AuraAsic := { aa with pollingStart := stop }
    let targets := (aa1.actualChipIds.drop start.toNat).take (stop.toNat - start.toNat)
    match ReadRegsPipelined clock nonBlockingRead aa1 (some targets) [ADDR_SUMMARY] with
    | none => none
    | some (results, aa2) =>
      match aa2.timeNow clock with
      | (now, aa3) =>
        let aa4 : AuraAsic := { aa3 with lastTempReading := now }
        match pollHitLoop results
            ((aa4.actualChipIds.drop start.toNat).take (stop.toNat - start.toNat)) 0 aa4 0 [] with
        | none => none
        | some (aa5, n, requests) => some (n, requests, aa5)

/-- The call `hex.EncodeToString(b)`. -/
def hexEncodeToString (b : List Nat) : String :=
  String.mk (b.flatMap (fun v =>
    [(Nat.toDigits 16 (v / 16 % 16)).headD '0', (Nat.toDigits 16 (v % 16)).headD '0']))

/-- The inner loop `for j := 0; j < len(aa.AsicIDs); j++` of the hash-rate
update of `CheckResults` over the chips still to visit. -/
def updateChips (stats : HitStat) (chipArray : List ChipEntry) :
    List Nat → Nat → chip.Message → Option chip.Message
  | [], _, msg => some msg
  | asicId :: rest, j, msg =>
    match (stats.deltaGhits.getD [])[j]?, (stats.deltaThits.getD [])[j]?, chipArray[j]? with
    | some g, some t, some entry =>
      updateChips stats chipArray rest (j + 1)
        { msg with
          GenHit := Function.update msg.GenHit asicId ((msg.GenHit asicId + g) % 2 ^ 64),
          TrueHit := Function.update msg.TrueHit asicId ((msg.TrueHit asicId + t) % 2 ^ 64),
          HitRate := Function.update msg.HitRate asicId entry.Performance }
    | _, _, _ => none

/-- The outer loop `for i := aa.reportCursor; i != aa.hitStatsCursor;
i = (i + 1) % statsRingSize` of the hash-rate update, with `n` rounds allowed.
After the first round `i` cycles through `0 .. statsRingSize - 1`, so a loop
that has not ended after `statsRingSize + 1` rounds never ends; `none` is that
or a panic. -/
def updateSnapshots (aa : AuraAsic) : Nat → Nat → chip.Message → Option chip.Message
  | 0, _, _ => none
  | n + 1, i, msg =>
    if i = aa.hitStatsCursor then some msg
    else
      match aa.hitStats[i]? with
      | none => none
      | some stats =>
        match updateChips stats aa.ChipArray aa.AsicIDs 0 msg with
        | none => none
        | some msg1 => updateSnapshots aa n ((i + 1) % statsRingSize) msg1

/-- The reader goroutine handing the raw hit frames `frames` to
`putHitRawResult`, one after the other. -/
def deliverHits : List (List Nat) → asicio.AuraAsicIO → Option asicio.AuraAsicIO
  | [], io => some io
  | v :: rest, io =>
    match asicio.putHitRawResult io v with
    | none => none
    | some io1 => deliverHits rest io1

/-- The calls of `CheckHitResult` after a poll that reported hits, at most `n`
of them: the first call that gives a response ends them.  `arrivals k` are the
frames the reader goroutine has queued since the previous call. -/
def pollRetry (arrivals : Nat → List (List Nat)) :
    Nat → Nat → asicio.AuraAsicIO → Option (Option asicio.ResponseHitType × asicio.AuraAsicIO)
  | 0, _, io => some (none, io)
  | n + 1, k, io =>
    match deliverHits (arrivals k) io with
    | none => none
    | some io1 =>
      match asicio.CheckHitResult io1 with
      | ((some r, _), io2) => some (some r, io2)
      | ((none, _), io2) => pollRetry arrivals n (k + 1) io2

/-- What `CheckResults` returns and leaves: the message and the error (`none`
is nil), the controller, the transport, and the chip ids passed to
`ReqestHitResult`. -/
structure CheckResultsOutcome where
  msg : Option chip.Message
  err : Option String
  aa : AuraAsic
  asicIO : asicio.AuraAsicIO
  requests : List Nat

/-- Tail of `CheckResults` from `if r != nil` on. -/
def CheckResultsMessage (aa : AuraAsic) (io : asicio.AuraAsicIO)
    (r : Option asicio.ResponseHitType) (err : Option String) (requests : List Nat) :
    Option CheckResultsOutcome :=
  match r with
  | some r =>
    some
      { msg := some
          { Seq := r.Sequence, Diff := r.Nbits, Chip := r.Id, Engine := r.Result.getD 76 0,
            Board := aa.brdChainId, Body := hexEncodeToString r.Result, VersionMask := 0 },
        err := err, aa := aa, asicIO := io, requests := requests }
  | none =>
    if aa.reportCursor ≠ aa.hitStatsCursor then
      match updateSnapshots aa (statsRingSize + 1) aa.reportCursor
          { Seq := chip.SEQ_HASHRATE_UPDATE } with
      | none => none
      | some msg =>
        some
          { msg := some msg, err := err, aa := { aa with reportCursor := aa.hitStatsCursor },
            asicIO := io, requests := requests }
    else some { msg := none, err := err, aa := aa, asicIO := io, requests := requests }

/-- Middle of `CheckResults`: the first call of `CheckHitResult` and the block
`if r == nil && !aa.autoReport && time.Since(aa.lastPolling) > minInterval`,
followed by the tail. -/
def CheckResultsPoll (clock : Nat → Int)
    (nonBlockingRead : List Nat → List Nat → Int × List Int)
    (arrivals : Nat → List (List Nat)) (aa : AuraAsic) (io : asicio.AuraAsicIO) :
    Option CheckResultsOutcome :=
  match deliverHits (arrivals 0) io with
  | none => none
  | some io0 =>
    match asicio.CheckHitResult io0 with
    | ((r, err), io1) =>
      if r.isNone ∧ aa.autoReport = false then
        match aa.timeNow clock with
        | (now, aa1) =>
          if now - aa1.lastPolling > minPollingInterval then
            match aa1.timeNow clock with
            | (_, aa2) =>
              match pollHitResults clock nonBlockingRead aa2 with
              | none => none
              | some (n, requests, aa3) =>
                match aa3.timeNow clock with
                | (now3, aa4) =>
                  let aa5 : AuraAsic := { aa4 with lastPolling := now3 }
                  if n > 0 then
                    match pollRetry arrivals 11 1 io1 with
                    | none => none
                    | some (r1, io2) => CheckResultsMessage aa5 io2 r1 err requests
                  else CheckResultsMessage aa5 io1 r err requests
          else CheckResultsMessage aa1 io1 r err []
      else CheckResultsMessage aa io1 r err []

/-- The method `AuraAsic.CheckResults`; `none` is a panic (or the hash-rate
update loop not ending).

* `nonBlockingRead` is the transport call inside `ReadRegsPipelined`.
* `arrivals 0` are the hit frames the reader goroutine queues before the first
  call of `CheckHitResult`, `arrivals k` those it queues before the `k`-th call
  after the poll. -/
def CheckResults (clock : Nat → Int)
    (nonBlockingRead : List Nat → List Nat → Int × List Int)
    (arrivals : Nat → List (List Nat)) (aa : AuraAsic) (io : asicio.AuraAsicIO) :
    Option CheckResultsOutcome :=
  if aa.jobCount = 0 then
    some { msg := none, err := none, aa := aa, asicIO := io, requests := [] }
  else
    match aa.timeNow clock with
    | (now, aa1) =>
      if now - aa1.lastlog ≥ cntReadInterval then
        match aa1.timeNow clock with
        | (now2, aa2) =>
          if now2 - aa2.lastCntrReading < maxJobInterval then
            match checkHitCounters clock nonBlockingRead aa2 with
            | none => none
            | some (_, aa3) => CheckResultsPoll clock nonBlockingRead arrivals aa3 io
          else CheckResultsPoll clock nonBlockingRead arrivals aa2 io
      else CheckResultsPoll clock nonBlockingRead arrivals aa1 io

/-! ### Vocabulary for the statements about hit counting -/

/-- The slot of the ring that the latest counter reading wrote: the one before
`hitStatsCursor`. -/
def AuraAsic.latestSlot (aa : AuraAsic) : Nat :=
  (aa.hitStatsCursor + statsRingSize - 1) % statsRingSize

/-- What the latest snapshot and the chip table have to do with each other
between two counter readings: the deltas of the snapshot are `uint32` values,
and every expected chip with a positive general-hit delta in the snapshot has
as its `Performance` the percentage `hitPercent` of the snapshot's two deltas.
Before the first reading the slot holds nil slices and nothing is asked. -/
def PerformanceInv (aa : AuraAsic) : Bool :=
  match aa.hitStats[aa.latestSlot]? with
  | none => true
  | some cur =>
    (List.range aa.seqChipIds.length).all (fun k =>
      decide ((cur.deltaGhits.getD []).getD k 0 < 2 ^ 32) &&
      decide ((cur.deltaThits.getD []).getD k 0 < 2 ^ 32) &&
      (decide ((cur.deltaGhits.getD []).getD k 0 = 0) ||
        decide ((aa.ChipArray[k]?).map (fun e => e.Performance) =
          some (hitPercent ((cur.deltaThits.getD []).getD k 0)
            ((cur.deltaGhits.getD []).getD k 0)))))

/-! ### Example inputs for `CheckResults` -/

/-- A board with the single chip 0, one job loaded, its counters read at time
0 and its last poll at time 0. -/
def scenarioPollBoard : AuraAsic :=
  { seqChipIds := [0], actualChipIds := [0],
    BoardAsicConfig := devhdr.DefaultHbAsicIdConfig, lastBadAsicMarking := 0,
    faultyAsicsTrack := none, clockReads := 0,
    AsicIDs := [0], ChipArray := [{}], cacheTemps := [-1000], jobCount := 1,
    lastlog := 0, lastCntrReading := 0, lastPolling := 0 }

/-- A hit frame of chip 0 for the job with sequence number 1 whose crc field is
left at zero. -/
def scenarioHitFrame : List Nat :=
  [0x54, 0x76, 0xc0, 0xda, 0, 0x40, 0x1d, 1] ++ List.replicate 80 0 ++ [0, 0, 0, 0]

/-- A transport on which every chip answers 1 on every address (for SUMMARY:
one hit result waiting). -/
def scenarioSummaryTransport : List Nat → List Nat → Int × List Int :=
  fun ts as => (0, ts.flatMap (fun _ => as.map (fun _ => (1 : Int))))

/-- The reader goroutine queues `scenarioHitFrame` before the first call of
`CheckHitResult` after the poll, and nothing else. -/
def scenarioArrivals : Nat → List (List Nat) :=
  fun k => if k = 1 then [scenarioHitFrame] else []

/-- A transport state with `scenarioHitFrame` in the hit queue. -/
def scenarioQueuedIO : asicio.AuraAsicIO :=
  { asicio.NewAsicIOInit (fun _ =>
      ⟨0, asicio.zeroTime, asicio.zeroTime, asicio.zeroTime, false, [], asicio.CMD_READ, [], [],
        [], 0, false, false, false⟩) with
    qHit := [scenarioHitFrame] }

/-- A transport state with empty queues. -/
def scenarioIdleIO : asicio.AuraAsicIO :=
  asicio.NewAsicIOInit (fun _ =>
    ⟨0, asicio.zeroTime, asicio.zeroTime, asicio.zeroTime, false, [], asicio.CMD_READ, [], [],
      [], 0, false, false, false⟩)

end asic

/-! ## `asicio`: matching responses to pending reads (`cmdrw.go`, `cmd.go`) -/

namespace asicio

/-- The constant `math.MaxUint64`. -/
def maxUint64 : Nat := 2 ^ 64 - 1

/-- The loop `for _, cmd := range cmds` of `getCmdRegReadFromPayload` on the
variables `(res, lower)`; `none` is the nil pointer. -/
def getCmdRegReadLoop (cmds : Nat → asicCmd) : List Nat → Option Nat × Nat → Option Nat × Nat
  | [], st => st
  | cmd :: rest, (res, lower) =>
    if (cmds cmd).seq ≤ lower then getCmdRegReadLoop cmds rest (some cmd, (cmds cmd).seq)
    else getCmdRegReadLoop cmds rest (res, lower)

/-- The method `getCmdRegReadFromPayload(asicReg)`. -/
def getCmdRegReadFromPayload (aa : AuraAsicIO) (asicReg : asicReadPayload) : Option Nat :=
  (getCmdRegReadLoop aa.cmds (aa.cmdRegReadMap asicReg) (none, maxUint64)).1

/-- The method `prepareCmdData(cmd)`; `totalAsicsOnHB` is the field of that
name. -/
def prepareCmdData (totalAsicsOnHB : Nat) (aa : AuraAsicIO) (cmd : Nat) : AuraAsicIO :=
  let c := aa.cmds cmd
  let datalen :=
    if c.readall then c.addrs.length * totalAsicsOnHB else c.addrs.length * c.targets.length
  { aa with cmds := Function.update aa.cmds cmd { c with data := List.replicate datalen (-1) } }

/-- The block `if is_read` of `cmdwriter` for a read record `ri`, on the local
`seq` and the transport state: `seq++; ri.seq = seq; aa.prepareCmdData(ri);
aa.createPayloadEntriesInMap(ri)`. -/
def cmdwriterRegister (clock : Nat → Int) (totalAsicsOnHB : Nat) (seq : Nat) (aa : AuraAsicIO)
    (ri : Nat) : Nat × AuraAsicIO :=
  let seq1 := (seq + 1) % 2 ^ 64
  let aa1 : AuraAsicIO :=
    { aa with cmds := Function.update aa.cmds ri { aa.cmds ri with seq := seq1 } }
  (seq1, createPayloadEntriesInMap clock (prepareCmdData totalAsicsOnHB aa1 ri) ri)

/-- The loop of `updatePayload` over `cmd.targets`, which stops at the first
match: `asic_idx`, 0 when there is no match. -/
def firstMatch (v : Nat) : List Nat → Nat → Nat
  | [], _ => 0
  | x :: rest, idx => if v = x then idx else firstMatch v rest (idx + 1)

/-- The loop of `updatePayload` over `cmd.addrs`, which does not stop at a
match: `addr_idx` is the last matching index, 0 when there is none. -/
def lastMatch (v : Nat) : List Nat → Nat → Nat → Nat
  | [], _, found => found
  | x :: rest, idx, found =>
    if v = x then lastMatch v rest (idx + 1) idx else lastMatch v rest (idx + 1) found

/-- The method `updatePayload(resp)`: the returned record (`none` is nil) and
the transport state; the outer `none` is the panic of an index out of range in
`cmd.data[...]`.  `hbAsicConfig` is the field of that name. -/
def updatePayload (clock : Nat → Int) (hbAsicConfig : devhdr.HashBoardAsicIdConfig)
    (aa : AuraAsicIO) (resp : responseCfgType) : Option (Option Nat × AuraAsicIO) :=
  match getCmdRegReadFromPayload aa { addr := resp.Address, asicId := resp.Id } with
  | none => some (none, aa)
  | some cmd =>
    let c := aa.cmds cmd
    let asic_idx : Int :=
      if c.readall = false then (firstMatch resp.Id c.targets 0 : Nat)
      else devhdr.ChipIDtoIndex hbAsicConfig resp.Id
    let addr_idx : Int := (lastMatch resp.Address c.addrs 0 0 : Nat)
    let slot : Int := (c.addrs.length : Int) * asic_idx + addr_idx
    if slot < 0 ∨ slot ≥ c.data.length then none
    else
      let c1 : asicCmd := { c with data := c.data.set slot.toNat (resp.Data : Int) }
      let (c2, aa2) : asicCmd × AuraAsicIO :=
        if c1.responseTime = zeroTime then
          let (now, aa1) := aa.timeNow clock
          ({ c1 with responseTime := now }, aa1)
        else (c1, aa)
      let c3 : asicCmd := { c2 with resps := asic.goInt (c2.resps + 1) }
      if c3.resps = (c3.targets.length : Int) * (c3.addrs.length : Int) then
        let (now3, aa3) := aa2.timeNow clock
        let c4 : asicCmd := { c3 with finishTime := now3, done := true }
        let aa4 := removeCommand { aa3 with cmds := Function.update aa3.cmds cmd c4 } cmd 0
        let (now5, aa5) := aa4.timeNow clock
        some (some cmd, { aa5 with cmdAliveTime := now5 })
      else some (some cmd, { aa2 with cmds := Function.update aa2.cmds cmd c3 })

/-- The calls `updatePayload(resp)` of `cmdreader` for the responses of a list,
in order.  `none` is a panic. -/
def updatePayloads (clock : Nat → Int) (hbAsicConfig : devhdr.HashBoardAsicIdConfig) :
    List responseCfgType → AuraAsicIO → Option AuraAsicIO
  | [], aa => some aa
  | resp :: rest, aa =>
    match updatePayload clock hbAsicConfig aa resp with
    | none => none
    | some (_, aa1) => updatePayloads clock hbAsicConfig rest aa1

/-- A read record as `newAsicCmd(targets, CMD_READ, addrs, nil)` makes it. -/
def newReadCmd (targets addrs : List Nat) : asicCmd :=
  { seq := 0, requestTime := zeroTime, responseTime := zeroTime, finishTime := zeroTime,
    readall := false, targets := targets, command := CMD_READ, addrs := addrs, load := [],
    data := [], resps := 0, done := false, issued := false, completed := false }

/-- The decoded read response of chip `id` for register `addr` with value
`data` (its crc field, which `updatePayload` does not read, left at 0). -/
def readResponse (id addr data : Nat) : responseCfgType :=
  { responseCfgType.zero with
    Response_unique := RSP_UNIQUE, Id := id, Command := CMD_READ, Address := addr, Data := data }

/-- Two read records at the addresses 7 and 8, both for register 5 of chip 1,
registered by the writer one after the other (sequence numbers 1 and 2). -/
def scenarioTwoPending : AuraAsicIO :=
  let aa0 := NewAsicIOInit (fun _ => newReadCmd [1] [5])
  let r1 := cmdwriterRegister (fun _ => 0) 132 0 aa0 7
  (cmdwriterRegister (fun _ => 0) 132 r1.1 r1.2 8).2

/-- One read record at the address 7 for the registers 5 and 6 of chip 1,
registered by the writer. -/
def scenarioOnePending : AuraAsicIO :=
  (cmdwriterRegister (fun _ => 0) 132 0 (NewAsicIOInit (fun _ => newReadCmd [1] [5, 6])) 7).2

/-- One read record at the address 7 for register 5, with chip 1 listed twice
among its targets, registered by the writer. -/
def scenarioRepeatedTarget : AuraAsicIO :=
  (cmdwriterRegister (fun _ => 0) 132 0 (NewAsicIOInit (fun _ => newReadCmd [1, 1] [5])) 7).2

end asicio

/-! ## `asic`: the controller that `AuraAsicInit` returns, and timed tracker calls -/

namespace asic

/-- The function `AuraAsicInit`, from the collection of the discovery replies
to its return, on the fields of the model.  `results` are the replies that the
collection loop sees, `revision` is the pair `(resp, err)` that the read of the
chip revision returns (`none` for a nil error).  The literal
`AuraAsic{devName: devName, baudRate: baudrate}` leaves the map
`faultyAsicsTrack`, the slice `swReadErrorAsics` and the time
`lastBadAsicMarking` at their zero values, and no later statement of the
function assigns them.  `clockReads` counts from the return. -/
def AuraAsicInit (brdChainId : Nat) (maxChipId : Int)
    (asicIdCfg : devhdr.HashBoardAsicIdConfig) (results : List asicio.responseCfgType)
    (revision : Nat × Option String) : Except String AuraAsic :=
  match AuraAsicInitTable maxChipId [] asicIdCfg results with
  | .error e => .error e
  | .ok t =>
    let if_ver := (revision.1 &&& 0xff00) >>> 8
    if revision.2.isSome ∧ if_ver ≠ 1 then
      .error ("unsupported chip version " ++ toString if_ver)
    else
      .ok { seqChipIds := t.seqChipIds,
            actualChipIds := t.actualChipIds,
            BoardAsicConfig := asicIdCfg,
            lastBadAsicMarking := asicio.zeroTime,
            faultyAsicsTrack := none,
            clockReads := 0,
            brdChainId := toUint8 brdChainId,
            ChipArray := t.ChipArray }

/-- The two methods that write the faulty-ASIC tracker. -/
inductive TrackerCall where
  | update
  | clear
deriving DecidableEq, Repr

/-- A sequence of calls of `updateAsicFaultyTracker` and `clearFaultyAsic` for
the chip `asicId`, each made at the instant paired with it: every reading of
the clock inside a call shows the instant of the call.  The result counts the
calls of `clearFaultyAsic` that returned `true`; `none` is a panic. -/
def runTrackerCalls (asicId : Nat) : List (TrackerCall × Int) → AuraAsic → Option (Nat × AuraAsic)
  | [], aa => some (0, aa)
  | (TrackerCall.update, t) :: rest, aa =>
    match updateAsicFaultyTracker (fun _ => t) aa asicId with
    | none => none
    | some aa1 => runTrackerCalls asicId rest aa1
  | (TrackerCall.clear, t) :: rest, aa =>
    match clearFaultyAsic (fun _ => t) aa asicId with
    | (ok, aa1) =>
      match runTrackerCalls asicId rest aa1 with
      | none => none
      | some (n, aa2) => some ((if ok then 1 else 0) + n, aa2)

/-- The calls of `updateAsicFaultyTracker` at the instants `times`. -/
def updatesAt (times : List Int) : List (TrackerCall × Int) :=
  times.map (fun t => (TrackerCall.update, t))

/-- The tracker entry of a chip, `none` when the map is nil or has no entry. -/
def trackerEntry (aa : AuraAsic) (asicId : Nat) : Option faultyAsicTracker :=
  match aa.faultyAsicsTrack with
  | none => none
  | some m => m asicId

/-- A board like `scenarioBoard` with an allocated, empty tracker map and no
chip marked so far. -/
def scenarioFreshBoard : AuraAsic :=
  { scenarioBoard with
    lastBadAsicMarking := asicio.zeroTime,
    faultyAsicsTrack := some (fun _ => none) }

/-- One round in the life of a failing chip, starting at the instant `t`: ten
failed reads 100 ms apart, which flag the chip, and the read that asks for
re-admission eleven minutes after the start. -/
def scenarioFaultRound (t : Int) : List (TrackerCall × Int) :=
  updatesAt ((List.range 10).map (fun i => t + (i : Int) * 100000000)) ++
    [(TrackerCall.clear, t + 11 * minute)]

/-- Four such rounds, twenty minutes apart. -/
def scenarioFourRounds : List (TrackerCall × Int) :=
  scenarioFaultRound 0 ++ scenarioFaultRound (20 * minute) ++
    scenarioFaultRound (40 * minute) ++ scenarioFaultRound (60 * minute)

/-- The replies of the chips 0, 1, 5, 128 and 129 to the discovery read. -/
def scenarioDiscovery : List asicio.responseCfgType :=
  [discoveryReply 0, discoveryReply 1, discoveryReply 5, discoveryReply 128, discoveryReply 129]

/-- A transport that reports `status` and on which the chip `chip` times out
(its slots hold -1), while every other submitted chip `t` answers `100 + t` on
every address. -/
def scenarioSilentChip (status : Int) (chip : Nat) : List Nat → List Nat → Int × List Int :=
  fun ts as =>
    (status, ts.flatMap (fun t => as.map (fun _ => if t = chip then -1 else (100 + t : Int))))

end asic

/-! ## `asic`: example inputs for the target adaptation -/

namespace asic

/-- Globals of a miner whose target was backed off to 50 TH/s of the 100 TH/s
the user asked for, after five rounds of bouncing back and with the back-off
step below `minPctStep`; the supply runs at 1500 W of 3300 W. -/
def scenarioBackedOff : DvfsGlobals :=
  { scenarioDvfs with
    targetTHS := 50, curTargetTHS := 50, nBouncingBack := 5, backOffPct := 0.01,
    curPower := 1500 }

end asic

/-! ## `asic`: the tuning state machine (`tuneHashRate` of `dvfs2.go`)

Every variable of this part is a `float32` value and every operation is
rounded to `float32`.  A product that is an operand of a sum is rounded before
the sum is taken. -/

namespace asic

/-- The typed constant `low_rate float32 = 0.97`. -/
def low_rate : ℚ := ieee.float32 0.97

/-- The typed constant `start_rate float32 = low_rate - 0.02`: the constant
expression is evaluated exactly and then converted to `float32`. -/
def start_rate : ℚ := ieee.float32 (low_rate - 0.02)

/-- The typed constant `optimize_trigger_rate float32 = 0.70`. -/
def optimize_trigger_rate : ℚ := ieee.float32 0.70

/-- The voltage fields of the struct `SystemInfoType` of `dvfs.go`. -/
structure SystemInfoType where
  min_voltage : ℚ
  max_voltage : ℚ
  voltage_step : ℚ
deriving DecidableEq

/-- What `tuneHashRate` reads and writes: the package variables `tuneState`,
`lasthitrate`, `measurement` and `last_measurement`, and the fields `voltage`
and `systeminfo` of `dd`.  The chip frequencies, which `setFreqAll` and `Tune`
write, are not part of it. -/
structure TuneVars where
  tuneState : Int
  voltage : ℚ
  systeminfo : SystemInfoType
  lasthitrate : ℚ
  measurement : ℚ
  last_measurement : ℚ
deriving DecidableEq

/-- The method `DvfsType.SetVoltage` (the call of `psu.SetVoltage` with the
same value is left out). -/
def DvfsType.SetVoltage (v : TuneVars) (voltage : ℚ) : TuneVars :=
  { v with voltage := if voltage < v.systeminfo.min_voltage then v.systeminfo.min_voltage
                      else voltage }

/-- The comparison `pctOver50Pct() < optimize_trigger_rate`, the value of the
call being `none` when it is not a number (empty topology). -/
def belowTrigger : Option ℚ → Bool
  | none => false
  | some pct => decide (pct < optimize_trigger_rate)

/-- The argument of the call of `SetVoltage` that steps the voltage up:
`float32(math.Min(float64(dd.voltage+dd.systeminfo.voltage_step*step),
float64(dd.systeminfo.max_voltage)))`. -/
def stepUpVoltage (v : TuneVars) (step : ℚ) : ℚ :=
  min (ieee.float32 (v.voltage + ieee.float32 (v.systeminfo.voltage_step * step)))
    v.systeminfo.max_voltage

/-- The body of `case DVFS_TUNE_FINETUNE` of `tuneHashRate`, up to the
`return false` that ends the function. -/
def tuneHashRateFinetune (v : TuneVars) (hitrate : ℚ) : Bool × TuneVars :=
  let reached_max := decide (v.voltage ≥ v.systeminfo.max_voltage)
  if hitrate ≤ start_rate ∧ reached_max = true then (true, v)
  else
    let v1 : TuneVars :=
      { v with lasthitrate := hitrate, last_measurement := v.measurement,
               measurement := ieee.float32 (low_rate - hitrate) }
    if hitrate < low_rate then
      let step0 : ℚ :=
        ieee.float32 ((⌊ieee.float32 (ieee.float32 (low_rate - hitrate) * 100)⌋ : Int) : ℚ)
      let step : ℚ := if step0 < 1 then 1 else step0
      (false, DvfsType.SetVoltage v1 (stepUpVoltage v1 step))
    else (true, v1)

/-- The method `DvfsType.tuneHashRate(hitrate)`: the returned flag and the
variables it leaves.  `MinerVoutMin` is the variable of that name of package
`psu`, `pct` the value of `pctOver50Pct()` (`none` when it is not a number) and
`tuneResult` the value of `Tune(average_f)`. -/
def tuneHashRate (MinerVoutMin : ℚ) (pct : Option ℚ) (tuneResult : Bool) (v : TuneVars)
    (hitrate : ℚ) : Bool × TuneVars :=
  if v.tuneState = DVFS_TUNE_INIT then
    let v1 : TuneVars :=
      if v.voltage > MinerVoutMin then DvfsType.SetVoltage v (ieee.float32 (v.voltage - 0.5))
      else v
    let v2 : TuneVars :=
      if v1.voltage ≤ MinerVoutMin then { v1 with tuneState := DVFS_TUNE_SET_FREQ } else v1
    (false, v2)
  else if v.tuneState = DVFS_TUNE_SET_FREQ then
    (false, { v with lasthitrate := 0, measurement := optimize_trigger_rate,
                     last_measurement := optimize_trigger_rate,
                     tuneState := DVFS_TUNE_STEPPING_UP })
  else if v.tuneState = DVFS_TUNE_STEPPING_UP then
    if v.voltage ≥ v.systeminfo.max_voltage then (true, v)
    else if belowTrigger pct = true then
      let v1 : TuneVars :=
        { v with lasthitrate := hitrate, last_measurement := v.measurement,
                 measurement := ieee.float32 (optimize_trigger_rate - hitrate) }
      let p : ℚ := pct.getD 0
      let step : ℚ :=
        if p < ieee.float32 0.1 then 20 else if p < ieee.float32 0.3 then 10 else 4
      (false, DvfsType.SetVoltage v1 (stepUpVoltage v1 step))
    else tuneHashRateFinetune { v with tuneState := DVFS_TUNE_FINETUNE } hitrate
  else if v.tuneState = DVFS_TUNE_OPTIMIZE then
    (false, if tuneResult then { v with tuneState := DVFS_TUNE_FINETUNE } else v)
  else if v.tuneState = DVFS_TUNE_FINETUNE then tuneHashRateFinetune v hitrate
  else (false, v)

/-- Tuning variables in state FINETUNE with the supply at its maximum of 15 V. -/
def scenarioFinetuneAtMax : TuneVars :=
  { tuneState := DVFS_TUNE_FINETUNE, voltage := 15,
    systeminfo := { min_voltage := 11, max_voltage := 15,
                    voltage_step := ieee.float32 0.005 },
    lasthitrate := ieee.float32 0.955, measurement := ieee.float32 0.015,
    last_measurement := ieee.float32 0.02 }

end asic

/-! ## `asic`: the per-chip hit-rate of `getHashRate` (`dvfs2.go`) -/

namespace asic

/-- The duration `time.Second` in nanoseconds. -/
def second : Int := 1000000000

/-- A `float32` quotient: `none` when the result is not a finite number, which
for finite operands is the case of a zero divisor (`0/0` is NaN, `x/0` an
infinity). -/
def floatDiv (a b : ℚ) : Option ℚ :=
  if b = 0 then none else some (a / b)

/-- How the body of the loop of `getHashRate` ends for a chip of a live board:
`backwards` is the `continue` after the warning that the counters went
backwards (nothing is stored), `idle` the `continue` after `t.hitrate = 0`, and
`measured v0 v1 hitrate` the end of the body with the final values of the
locals `v0` and `v1` and the value stored in `t.hitrate`. -/
inductive HitRateOutcome where
  | backwards
  | idle
  | measured (v0 v1 : Int) (hitrate : Option ℚ)
deriving DecidableEq

/-- The body of the loop of `getHashRate` for a chip of a live board, from
`v1 := cnt1[1] - cnt0[1]` to `t.hitrate = float32(v0) / float32(v1)`.
`frequency` is `t.frequency`, `period` the argument in nanoseconds, `cnt1` and
`cnt0` the new and the base counter pair of the chip (component 1 is index 0,
the true hits, component 2 is index 1, the general hits).  The integer
divisions are those of Go, which truncate toward zero. -/
def getHashRateChip (frequency : ℚ) (period : Int) (cnt1 cnt0 : Int × Int) : HitRateOutcome :=
  let v1 := goInt (cnt1.2 - cnt0.2)
  let v0 := goInt (cnt1.1 - cnt0.1)
  if v0 < 0 ∨ v1 < 0 then HitRateOutcome.backwards
  else if v1 = 0 then HitRateOutcome.idle
  else
    let v := Int.tdiv (truncate (frequency * 0.07885 * (period : ℚ))) second
    let v1a := if v1 > goInt (v * 2) ∨ v1 < Int.tdiv v 2 then v else v1
    let v0a := if v0 > v1a then v1a else v0
    HitRateOutcome.measured v0a v1a (floatDiv (v0a : ℚ) (v1a : ℚ))

end asic

/-! ## `asic`: version rolling (`SendJob` of `adapter.go`, `setVerRolling` of `aura-asic.go`) -/

namespace asic

def ADDR_VERSION_BOUND : Nat := 16
def ADDR_VERSION_SHIFT : Nat := 17

/-- Number of trailing zero bits of `x`, looking at no more than `fuel` bits. -/
def trailingZeros : Nat → Nat → Nat
  | 0, _ => 0
  | fuel + 1, x => if x % 2 = 1 then 0 else 1 + trailingZeros fuel (x / 2)

/-- Number of bits needed to write `x`, looking at no more than `fuel` bits. -/
def bitLen : Nat → Nat → Nat
  | 0, _ => 0
  | fuel + 1, x => if x = 0 then 0 else 1 + bitLen fuel (x / 2)

/-- The function `bits.TrailingZeros32`; the result is 32 for `x = 0`. -/
def TrailingZeros32 (x : Nat) : Nat := trailingZeros 32 (x % 2 ^ 32)

/-- The function `bits.LeadingZeros32`; the result is 32 for `x = 0`. -/
def LeadingZeros32 (x : Nat) : Nat := 32 - bitLen 32 (x % 2 ^ 32)

/-- One pass of the loop of `setVerRolling`: the chip written to, the locals
`min` and `max` (which the function logs as the window of the chip) and the
value `max<<16 + min` written to the register `ADDR_VERSION_BOUND`. -/
structure VerWindow where
  chip : Nat
  min : Nat
  max : Nat
  data : Nat
deriving DecidableEq, Repr

/-- The loop of `setVerRolling` over the chips still to write, `i` being the
loop counter; all arithmetic is that of `uint32`. -/
def setVerRollingLoop (lower window : Nat) : List Nat → Nat → List VerWindow
  | [], _ => []
  | chip :: rest, i =>
    let min := (lower + window * (i % 2 ^ 32)) % 2 ^ 32
    let max := (min + window + (2 ^ 32 - 1)) % 2 ^ 32
    { chip := chip, min := min, max := max, data := (max * 2 ^ 16 + min) % 2 ^ 32 } ::
      setVerRollingLoop lower window rest (i + 1)

/-- The method `setVerRolling(shift, lower, upper)` for 32-bit arguments: the
writes to `ADDR_VERSION_BOUND`, in order, and the value that is then broadcast
to `ADDR_VERSION_SHIFT`.  `none` is the panic of the integer division by
`uint32(len(aa.actualChipIds))` when that is zero. -/
def setVerRolling (aa : AuraAsic) (shift lower upper : Nat) : Option (List VerWindow × Nat) :=
  let lower1 := ((lower + 3) % 2 ^ 32) / 4 * 4 % 2 ^ 32
  let n := aa.actualChipIds.length % 2 ^ 32
  if n = 0 then none
  else
    let window0 := ((upper + (2 ^ 32 - lower1) + 1) % 2 ^ 32) / n
    let window1 := if window0 < 4 then 1 else window0
    let window := window1 / 4 * 4 % 2 ^ 32
    some (setVerRollingLoop lower1 window aa.actualChipIds 0, shift)

/-- The method `GetAsicNum`. -/
def GetAsicNum (aa : AuraAsic) : Nat := aa.seqChipIds.length

/-- The block of `SendJob` that sets the version rolling for the job's
`VersionMask`: the controller it leaves and, when the block runs
`setVerRolling`, what that writes (`none` in second place when the mask is
unchanged and `jobCount` is not a multiple of 16).  `none` in first place is a
panic: a negative shift count, or the one of `setVerRolling`. -/
def SendJobVerRolling (aa : AuraAsic) (VersionMask : Nat) :
    Option (AuraAsic × Option (List VerWindow × Nat)) :=
  if VersionMask ≠ aa.verMask ∨ aa.jobCount % 16 = 0 then
    let shift := TrailingZeros32 VersionMask
    let lzs := LeadingZeros32 VersionMask
    if shift < 32 then
      if 32 < shift + lzs then none
      else
        let max := 1 <<< (32 - shift - lzs)
        match setVerRolling aa (shift % 2 ^ 32) 0 (max % 2 ^ 32) with
        | none => none
        | some w => some ({ aa with verMask := VersionMask }, some w)
    else
      let max := 4 * GetAsicNum aa
      match setVerRolling aa 13 0 (max % 2 ^ 32) with
      | none => none
      | some w => some ({ aa with verMask := VersionMask }, some w)
  else some (aa, none)

/-- The width of the version field of a mask:
`32 - TrailingZeros32(mask) - LeadingZeros32(mask)`. -/
def verWidth (VersionMask : Nat) : Nat :=
  32 - TrailingZeros32 VersionMask - LeadingZeros32 VersionMask

/-- A board with the chips `0 .. n-1` detected, before its first job. -/
def scenarioChips (n : Nat) : AuraAsic :=
  { scenarioFreshBoard with
    seqChipIds := List.range n, actualChipIds := List.range n }

end asic

/-! ## `asic`: the per-second check of the DVFS loop (`dvfs2.go`) -/

namespace asic

def minVolt : ℚ := 0.170

/-- The package arrays `avg_volt`, `min_volt`, `max_volt` and the local slice
`badVolts` of `processVolt`. -/
structure VoltStats where
  avg_volt : List ℚ
  min_volt : List ℚ
  max_volt : List ℚ
  badVolts : List Int
deriving DecidableEq

/-- The first loop of `processVolt`, with `n` boards to go from board `i`.
`none` is the panic of an index out of range. -/
def processVoltReset (handles : List (Option AuraAsic)) : Nat → Nat → VoltStats → Option VoltStats
  | 0, _, st => some st
  | n + 1, i, st =>
    match handles[i + 1]? with
    | none => none
    | some h =>
      let dead : Bool :=
        match h with
        | some aa => aa.deadBoard
        | none => false
      match storeAt st.avg_volt i 0, storeAt st.min_volt i (if dead then 0 else 400),
          storeAt st.max_volt i 0, storeAt st.badVolts i 0 with
      | some a, some mn, some mx, some b => processVoltReset handles n (i + 1) ⟨a, mn, mx, b⟩
      | _, _, _, _ => none

/-- The body of the second loop of `processVolt` for the entry `t`: the
statistics and the entry as the body leaves them.  `none` is the panic of an
index out of range. -/
def processVoltEntry (maxVolt : ℚ) (handles : List (Option AuraAsic)) (st : VoltStats)
    (t : TopologyType) : Option (VoltStats × TopologyType) :=
  let idx := goInt (t.board + 1)
  if idx < 0 then none
  else
    match handles[idx.toNat]? with
    | none => none
    | some none => some (st, t)
    | some (some aa) =>
      let ci := ChipIdToIndex aa (toUint8 t.id)
      if ci < 0 then none
      else
        match aa.cacheVolts[ci.toNat]? with
        | none => none
        | some v =>
          if t.board < 0 then none
          else
            let b := t.board.toNat
            if (v > maxVolt ∨ v < minVolt) ∧ (v < 0 ∨ v > 0.800) then
              match st.badVolts[b]? with
              | none => none
              | some c =>
                some ({ st with badVolts := st.badVolts.set b (goInt (c + 1)) },
                      { t with voltage := 0 })
            else
              let t1 : TopologyType :=
                { t with
                  voltage := v,
                  badVoltCtr := if v > maxVolt ∨ v < minVolt then goInt (t.badVoltCtr + 1) else 0 }
              match st.avg_volt[b]?, st.max_volt[b]?, st.min_volt[b]? with
              | some a, some mx, some mn =>
                some ({ st with
                        avg_volt := st.avg_volt.set b (a + v),
                        max_volt := if v > mx then st.max_volt.set b v else st.max_volt,
                        min_volt := if v < mn then st.min_volt.set b v else st.min_volt }, t1)
              | _, _, _ => none

/-- The second loop of `processVolt` over the entries still to visit. -/
def processVoltLoop (maxVolt : ℚ) (handles : List (Option AuraAsic)) :
    List TopologyType → VoltStats → Option (VoltStats × List TopologyType)
  | [], st => some (st, [])
  | t :: rest, st =>
    match processVoltEntry maxVolt handles st t with
    | none => none
    | some (st1, t1) =>
      match processVoltLoop maxVolt handles rest st1 with
      | none => none
      | some (st2, ts) => some (st2, t1 :: ts)

/-- The third loop of `processVolt`, with `n` boards to go from board `i`.
`none` is a panic: the integer division by `dd.num_boards = 0`, or an index
out of range. -/
def processVoltAverage (topologyLen num_boards : Int) : Nat → Nat → VoltStats → Option VoltStats
  | 0, _, st => some st
  | n + 1, i, st =>
    if num_boards = 0 then none
    else
      match st.badVolts[i]?, st.avg_volt[i]? with
      | some b, some a =>
        let goodReads : ℚ := ((goInt (Int.tdiv topologyLen num_boards - b) : Int) : ℚ)
        processVoltAverage topologyLen num_boards n (i + 1)
          { st with avg_volt := st.avg_volt.set i (if goodReads > 0 then a / goodReads else 0) }
      | _, _ => none

/-- The method `DvfsType.processVolt`: the returned flag, which is always
false, and the state it leaves; `none` is a panic. -/
def processVolt (w : DvfsWorld) : Option (Bool × DvfsWorld) :=
  let chainCount := devhdr.GetTotalChainCount
  let st0 : VoltStats := ⟨w.avg_volt, w.min_volt, w.max_volt, List.replicate chainCount 0⟩
  match processVoltReset w.AsicHandle chainCount 0 st0 with
  | none => none
  | some st1 =>
    match processVoltLoop w.maxVolt w.AsicHandle w.topology st1 with
    | none => none
    | some (st2, topology) =>
      match processVoltAverage (topology.length : Int) w.num_boards chainCount 0 st2 with
      | none => none
      | some st3 =>
        some (false, { w with
          topology := topology, avg_volt := st3.avg_volt, min_volt := st3.min_volt,
          max_volt := st3.max_volt })

/-- The loop of `monitorTempVolt` that refreshes the sensor caches, with `n`
boards to go from board `i`: `deadAsicCtr[i] = 0`, and for a board that is not
nil the calls of `ReadAllTemperature` and `ReadAllVoltage`, whose effect on the
controller is `readSensors` (`none` when they panic). -/
def refreshSensors (readSensors : AuraAsic → Option AuraAsic) :
    Nat → Nat → List Nat × List (Option AuraAsic) → Option (List Nat × List (Option AuraAsic))
  | 0, _, st => some st
  | n + 1, i, (ctr, handles) =>
    match storeAt ctr i 0, handles[i + 1]? with
    | some ctr1, some none => refreshSensors readSensors n (i + 1) (ctr1, handles)
    | some ctr1, some (some aa) =>
      match readSensors aa with
      | none => none
      | some aa1 => refreshSensors readSensors n (i + 1) (ctr1, handles.set (i + 1) (some aa1))
    | _, _ => none

/-- The method `DvfsType.monitorTempVolt`: the two alarms and the state it
leaves; `none` is a panic. -/
def monitorTempVolt (readSensors : AuraAsic → Option AuraAsic) (w : DvfsWorld) :
    Option ((Bool × Bool) × DvfsWorld) :=
  let refreshed : Option DvfsWorld :=
    if w.voltLoopCtr % 2 = 0 then
      match refreshSensors readSensors devhdr.GetTotalChainCount 0 (w.deadAsicCtr, w.AsicHandle) with
      | none => none
      | some (ctr, handles) => some { w with deadAsicCtr := ctr, AsicHandle := handles }
    else some w
  match refreshed with
  | none => none
  | some w1 =>
    let w2 : DvfsWorld := { w1 with voltLoopCtr := goInt (w1.voltLoopCtr + 1) }
    match processTemp w2 with
    | none => none
    | some (tempAlarm, w3) =>
      match processVolt w3 with
      | none => none
      | some (voltAlarm, w4) => some ((tempAlarm, voltAlarm), w4)

/-- The function `checkPower`: the flag `slowdown` and the state it leaves.
`readPower` is the value that `ReadPower()` returns. -/
def checkPower (readPower : ℚ) (w : DvfsWorld) : Bool × DvfsWorld :=
  let g : DvfsGlobals :=
    if readPower < 20000 then { w.globals with curPower := readPower } else w.globals
  let w1 : DvfsWorld := { w with globals := g }
  if g.curPower > g.powerHighWater then
    (decide (g.curTargetTHS > g.MinThsRate), { w1 with powerHigh := true })
  else if w1.powerHigh = true ∧ g.curPower < w1.powerLowWater then
    (false, { w1 with powerHigh := false })
  else (false, w1)

/-- The method `DvfsType.perSecondCheck(hitrate)`: the returned flag and the
state it leaves; `none` is a panic.  `readPower` is the value that
`ReadPower()` returns when `checkPower` is reached. -/
def perSecondCheck (readSensors : AuraAsic → Option AuraAsic) (readPower : ℚ) (w : DvfsWorld)
    (hitrate : ℚ) : Option (Bool × DvfsWorld) :=
  match monitorTempVolt readSensors w with
  | none => none
  | some ((tempAlarm, voltAlarm), w1) =>
    if tempAlarm then some (true, w1)
    else
      match checkPower readPower w1 with
      | (s2, w2) =>
        if s2 then
          let g := reduceTargetTHS w2.globals w2.num_boards (decide (hitrate < 0.95))
          some (true, { w2 with
            globals := { g with dvfsState := DVFS_TUNING, tuneState := DVFS_TUNE_INIT } })
        else if voltAlarm then some (true, w2)
        else some (false, w2)

/-- A miner in STANDBY after a temperature alarm at full load: one board in
slot 1 whose chip 0 has cooled down to 60 degrees and shows 0.30 V, the last
accepted power reading at 3400 W above the high-water mark of 3300 W, and the
target still at 100 TH/s.  The counter `voltLoopCtr` is odd, so the next check
works on the cached sensor values. -/
def scenarioStandbyWorld : DvfsWorld :=
  { globals := { scenarioDvfs with dvfsState := DVFS_STANDBY, curPower := 3400 },
    topology := [{ board := 0, id := 0 }],
    AsicHandle := [none, some { scenarioHotBoard 60 with cacheVolts := [0.30], initComplete := false },
      none, none],
    powerOffCalls := [false],
    num_boards := 1,
    voltLoopCtr := 1,
    powerHigh := true,
    powerLowWater := 2970 }

end asic

/-! ## Theorems: floating-point rounding -/

namespace ieee

/-- With enough fuel the halving count brackets the number between two powers
of two. -/
theorem natLog2Aux_spec : ∀ (fuel n : Nat), 0 < n → n ≤ fuel →
    2 ^ natLog2Aux fuel n ≤ n ∧ n < 2 ^ (natLog2Aux fuel n + 1) := by
  intro fuel
  induction fuel with
  | zero => intro n h0 h1; omega
  | succ f ih =>
    intro n h0 h1
    unfold natLog2Aux
    by_cases h2 : n < 2
    · rw [if_pos h2]
      have : n = 1 := by omega
      subst this
      norm_num
    · rw [if_neg h2]
      obtain ⟨i1, i2⟩ := ih (n / 2) (by omega) (by omega)
      rw [pow_succ, pow_succ]
      rw [pow_succ] at i2
      constructor <;> omega

/-- The leading-bit position brackets a positive natural number. -/
theorem natLog2_spec (n : Nat) (h : 0 < n) : 2 ^ natLog2 n ≤ n ∧ n < 2 ^ (natLog2 n + 1) :=
  natLog2Aux_spec n n h (le_refl n)

/-- The spacing used by `roundFloat` is positive. -/
theorem quantum_pos (e : Int) : (0 : ℚ) < (2 : ℚ) ^ e := zpow_pos (by norm_num) e

/-- The exponent brackets a positive number. -/
theorem floorLog2_spec (x : ℚ) (hx : 0 < x) :
    (2 : ℚ) ^ floorLog2 x ≤ x ∧ x < (2 : ℚ) ^ (floorLog2 x + 1) := by
  have hnum : 0 < x.num := Rat.num_pos.mpr hx
  have hN : 0 < x.num.natAbs := Int.natAbs_pos.mpr (ne_of_gt hnum)
  obtain ⟨n1, n2⟩ := natLog2_spec x.num.natAbs hN
  obtain ⟨d1, d2⟩ := natLog2_spec x.den x.den_pos
  have hxe : (x.num.natAbs : ℚ) / (x.den : ℚ) = x := by
    have h1 : ((x.num.natAbs : Nat) : ℚ) = (x.num : ℚ) := by
      rw [Nat.cast_natAbs, abs_of_pos hnum]
    rw [h1]
    exact Rat.num_div_den x
  have hD : (0 : ℚ) < (x.den : ℚ) := by exact_mod_cast x.den_pos
  have hNq : (0 : ℚ) < (x.num.natAbs : ℚ) := by exact_mod_cast hN
  have qn1 : (2 : ℚ) ^ natLog2 x.num.natAbs ≤ (x.num.natAbs : ℚ) := by exact_mod_cast n1
  have qn2 : (x.num.natAbs : ℚ) < (2 : ℚ) ^ (natLog2 x.num.natAbs + 1) := by exact_mod_cast n2
  have qd1 : (2 : ℚ) ^ natLog2 x.den ≤ (x.den : ℚ) := by exact_mod_cast d1
  have qd2 : (x.den : ℚ) < (2 : ℚ) ^ (natLog2 x.den + 1) := by exact_mod_cast d2
  have h2ne : (2 : ℚ) ≠ 0 := by norm_num
  have hpa : (0 : ℚ) < (2 : ℚ) ^ natLog2 x.num.natAbs := pow_pos (by norm_num) _
  have hpb : (0 : ℚ) < (2 : ℚ) ^ natLog2 x.den := pow_pos (by norm_num) _
  have hpb1 : (0 : ℚ) < (2 : ℚ) ^ (natLog2 x.den + 1) := pow_pos (by norm_num) _
  -- the two outer bounds
  have hlow : (2 : ℚ) ^ ((natLog2 x.num.natAbs : Int) - (natLog2 x.den : Int) - 1) ≤ x := by
    have e1 : (2 : ℚ) ^ ((natLog2 x.num.natAbs : Int) - (natLog2 x.den : Int) - 1) =
        (2 : ℚ) ^ natLog2 x.num.natAbs / (2 : ℚ) ^ (natLog2 x.den + 1) := by
      rw [show ((natLog2 x.num.natAbs : Int) - (natLog2 x.den : Int) - 1) =
        (natLog2 x.num.natAbs : Int) - ((natLog2 x.den + 1 : Nat) : Int) by push_cast; ring]
      rw [zpow_sub₀ h2ne, zpow_natCast, zpow_natCast]
    have h0 : (2 : ℚ) ^ natLog2 x.num.natAbs / (2 : ℚ) ^ (natLog2 x.den + 1) ≤
        (x.num.natAbs : ℚ) / (x.den : ℚ) := by
      rw [div_le_div_iff₀ hpb1 hD]
      exact mul_le_mul qn1 (le_of_lt qd2) (le_of_lt hD) (le_of_lt hNq)
    calc (2 : ℚ) ^ ((natLog2 x.num.natAbs : Int) - (natLog2 x.den : Int) - 1)
        = (2 : ℚ) ^ natLog2 x.num.natAbs / (2 : ℚ) ^ (natLog2 x.den + 1) := e1
      _ ≤ (x.num.natAbs : ℚ) / (x.den : ℚ) := h0
      _ = x := hxe
  have hhigh : x < (2 : ℚ) ^ ((natLog2 x.num.natAbs : Int) - (natLog2 x.den : Int) + 1) := by
    have e1 : (2 : ℚ) ^ ((natLog2 x.num.natAbs : Int) - (natLog2 x.den : Int) + 1) =
        (2 : ℚ) ^ (natLog2 x.num.natAbs + 1) / (2 : ℚ) ^ natLog2 x.den := by
      rw [show ((natLog2 x.num.natAbs : Int) - (natLog2 x.den : Int) + 1) =
        ((natLog2 x.num.natAbs + 1 : Nat) : Int) - (natLog2 x.den : Int) by push_cast; ring]
      rw [zpow_sub₀ h2ne, zpow_natCast, zpow_natCast]
    have h0 : (x.num.natAbs : ℚ) / (x.den : ℚ) <
        (2 : ℚ) ^ (natLog2 x.num.natAbs + 1) / (2 : ℚ) ^ natLog2 x.den := by
      rw [div_lt_div_iff₀ hD hpb]
      calc (x.num.natAbs : ℚ) * (2 : ℚ) ^ natLog2 x.den
          ≤ (x.num.natAbs : ℚ) * (x.den : ℚ) := mul_le_mul_of_nonneg_left qd1 (le_of_lt hNq)
        _ < (2 : ℚ) ^ (natLog2 x.num.natAbs + 1) * (x.den : ℚ) := mul_lt_mul_of_pos_right qn2 hD
    calc x = (x.num.natAbs : ℚ) / (x.den : ℚ) := hxe.symm
      _ < (2 : ℚ) ^ (natLog2 x.num.natAbs + 1) / (2 : ℚ) ^ natLog2 x.den := h0
      _ = (2 : ℚ) ^ ((natLog2 x.num.natAbs : Int) - (natLog2 x.den : Int) + 1) := e1.symm
  unfold floorLog2
  simp only
  by_cases hc : x < (2 : ℚ) ^ ((natLog2 x.num.natAbs : Int) - (natLog2 x.den : Int))
  · rw [if_pos hc]
    refine ⟨hlow, ?_⟩
    rw [show ((natLog2 x.num.natAbs : Int) - (natLog2 x.den : Int) - 1 + 1) =
      (natLog2 x.num.natAbs : Int) - (natLog2 x.den : Int) by ring]
    exact hc
  · rw [if_neg hc]
    exact ⟨not_lt.mp hc, hhigh⟩

/-- The exponent does not decrease with the number. -/
theorem floorLog2_mono (m y : ℚ) (hm : 0 < m) (h : m ≤ y) : floorLog2 m ≤ floorLog2 y := by
  have hy : 0 < y := lt_of_lt_of_le hm h
  obtain ⟨m1, _⟩ := floorLog2_spec m hm
  obtain ⟨_, y2⟩ := floorLog2_spec y hy
  have hlt : (2 : ℚ) ^ floorLog2 m < (2 : ℚ) ^ (floorLog2 y + 1) := by linarith
  have := (zpow_lt_zpow_iff_right₀ (by norm_num : (1 : ℚ) < 2)).mp hlt
  omega

/-- Rounding to the nearest integer moves a number by at most one half. -/
theorem roundNearestEven_near (x : ℚ) : |((roundNearestEven x : Int) : ℚ) - x| ≤ 1 / 2 := by
  have hl := Int.floor_le x
  have hu := Int.lt_floor_add_one x
  unfold roundNearestEven
  simp only
  rw [abs_le]
  split_ifs with h1 h2 h3
  · constructor <;> linarith
  · push_cast; constructor <;> linarith
  · constructor <;> linarith
  · push_cast; constructor <;> linarith

/-- Rounding to the nearest integer does not go below an integer that the
number is not below. -/
theorem roundNearestEven_ge (k : Int) (x : ℚ) (h : (k : ℚ) ≤ x) : k ≤ roundNearestEven x := by
  have hf : k ≤ ⌊x⌋ := Int.le_floor.mpr h
  unfold roundNearestEven
  simp only
  split_ifs <;> omega

/-- The error of one rounding: at most the relative error `2 ^ -(p+1)`, plus
half a subnormal spacing. -/
theorem roundFloat_near (p : Nat) (emin : Int) (x : ℚ) :
    |roundFloat p emin x - x| ≤
      |x| * (2 : ℚ) ^ (-((p : Int) + 1)) + (2 : ℚ) ^ (emin - (p : Int) - 1) := by
  have hpos2 : (0 : ℚ) ≤ (2 : ℚ) ^ (emin - (p : Int) - 1) := le_of_lt (quantum_pos _)
  have hposr : (0 : ℚ) ≤ |x| * (2 : ℚ) ^ (-((p : Int) + 1)) :=
    mul_nonneg (abs_nonneg x) (le_of_lt (quantum_pos _))
  unfold roundFloat
  by_cases hx : x = 0
  · rw [if_pos hx, hx]
    simp only [sub_zero, abs_zero, zero_mul, zero_add]
    exact hpos2
  · rw [if_neg hx]
    simp only
    have hq : (0 : ℚ) < (2 : ℚ) ^ (max (floorLog2 |x|) emin - (p : Int)) := quantum_pos _
    have hnear := roundNearestEven_near (x / (2 : ℚ) ^ (max (floorLog2 |x|) emin - (p : Int)))
    have herr : |((roundNearestEven (x / (2 : ℚ) ^ (max (floorLog2 |x|) emin - (p : Int))) : Int) : ℚ) *
        (2 : ℚ) ^ (max (floorLog2 |x|) emin - (p : Int)) - x| ≤
        1 / 2 * (2 : ℚ) ^ (max (floorLog2 |x|) emin - (p : Int)) := by
      have e1 : ((roundNearestEven (x / (2 : ℚ) ^ (max (floorLog2 |x|) emin - (p : Int))) : Int) : ℚ) *
          (2 : ℚ) ^ (max (floorLog2 |x|) emin - (p : Int)) - x =
          (((roundNearestEven (x / (2 : ℚ) ^ (max (floorLog2 |x|) emin - (p : Int))) : Int) : ℚ) -
            x / (2 : ℚ) ^ (max (floorLog2 |x|) emin - (p : Int))) *
          (2 : ℚ) ^ (max (floorLog2 |x|) emin - (p : Int)) := by
        field_simp
      rw [e1, abs_mul, abs_of_pos hq]
      exact mul_le_mul_of_nonneg_right hnear (le_of_lt hq)
    refine le_trans herr ?_
    have hhalf : (1 : ℚ) / 2 = (2 : ℚ) ^ (-1 : Int) := by norm_num
    rcases le_total (floorLog2 |x|) emin with hle | hle
    · rw [max_eq_right hle, hhalf, ← zpow_add₀ (by norm_num : (2 : ℚ) ≠ 0)]
      have e2 : (-1 : Int) + (emin - (p : Int)) = emin - (p : Int) - 1 := by ring
      rw [e2]
      linarith
    · rw [max_eq_left hle, hhalf, ← zpow_add₀ (by norm_num : (2 : ℚ) ≠ 0)]
      have e2 : (-1 : Int) + (floorLog2 |x| - (p : Int)) = floorLog2 |x| + (-((p : Int) + 1)) := by
        ring
      rw [e2, zpow_add₀ (by norm_num : (2 : ℚ) ≠ 0)]
      have hlog : (2 : ℚ) ^ floorLog2 |x| ≤ |x| := (floorLog2_spec |x| (abs_pos.mpr hx)).1
      have := mul_le_mul_of_nonneg_right hlog (le_of_lt (quantum_pos (-((p : Int) + 1))))
      linarith

/-- The error of a rounding to `float32` of a number of size at most `B`. -/
theorem float32_near (x B : ℚ) (h : |x| ≤ B) :
    |float32 x - x| ≤ B / 16777216 + 1 / 10 ^ 40 := by
  have h1 := roundFloat_near 23 (-126) x
  have e1 : (2 : ℚ) ^ (-(((23 : Nat) : Int) + 1)) = 1 / 16777216 := by norm_num [zpow_neg]
  have e2 : (2 : ℚ) ^ ((-126 : Int) - ((23 : Nat) : Int) - 1) ≤ 1 / 10 ^ 40 := by
    norm_num [zpow_neg]
  rw [e1] at h1
  unfold float32
  have h3 : |x| * (1 / 16777216) ≤ B / 16777216 := by linarith
  linarith

/-- The error of a rounding to `float64` of a number of size at most `B`. -/
theorem float64_near (x B : ℚ) (h : |x| ≤ B) :
    |float64 x - x| ≤ B / 9007199254740992 + 1 / 10 ^ 40 := by
  have h1 := roundFloat_near 52 (-1022) x
  have e1 : (2 : ℚ) ^ (-(((52 : Nat) : Int) + 1)) = 1 / 9007199254740992 := by norm_num [zpow_neg]
  have e2 : (2 : ℚ) ^ ((-1022 : Int) - ((52 : Nat) : Int) - 1) ≤ 1 / 10 ^ 40 := by
    norm_num [zpow_neg]
  rw [e1] at h1
  unfold float64
  have h3 : |x| * (1 / 9007199254740992) ≤ B / 9007199254740992 := by linarith
  linarith

end ieee

namespace ieee

/-- Rounding keeps the sign of a non-negative number. -/
theorem roundFloat_nonneg (p : Nat) (emin : Int) (x : ℚ) (h : 0 ≤ x) :
    0 ≤ roundFloat p emin x := by
  unfold roundFloat
  by_cases hx : x = 0
  · rw [if_pos hx]
  · rw [if_neg hx]
    simp only
    have hq : (0 : ℚ) < (2 : ℚ) ^ (max (floorLog2 |x|) emin - (p : Int)) := quantum_pos _
    have h0 : (0 : Int) ≤ roundNearestEven (x / (2 : ℚ) ^ (max (floorLog2 |x|) emin - (p : Int))) :=
      roundNearestEven_ge 0 _ (by
        have := div_nonneg h (le_of_lt hq)
        simpa using this)
    have h1 : (0 : ℚ) ≤
        ((roundNearestEven (x / (2 : ℚ) ^ (max (floorLog2 |x|) emin - (p : Int))) : Int) : ℚ) := by
      exact_mod_cast h0
    exact mul_nonneg h1 (le_of_lt hq)

/-- Rounding does not go below a positive value of the format that the number
is not below. -/
theorem roundFloat_ge_of_fixed (p : Nat) (emin : Int) (m y : ℚ) (hm0 : 0 < m)
    (hm : roundFloat p emin m = m) (h : m ≤ y) : m ≤ roundFloat p emin y := by
  have hy0 : 0 < y := lt_of_lt_of_le hm0 h
  have hlog : floorLog2 m ≤ floorLog2 y := floorLog2_mono m y hm0 h
  have hmabs : |m| = m := abs_of_pos hm0
  have hyabs : |y| = y := abs_of_pos hy0
  unfold roundFloat at hm ⊢
  rw [if_neg (ne_of_gt hm0)] at hm
  rw [if_neg (ne_of_gt hy0)]
  simp only [hmabs, hyabs] at hm ⊢
  have hqy : (0 : ℚ) < (2 : ℚ) ^ (max (floorLog2 y) emin - (p : Int)) := quantum_pos _
  rcases lt_or_ge (max (floorLog2 m) emin) (max (floorLog2 y) emin) with hlt | hge
  · -- the number lies in a higher binade than `m`
    have hey : max (floorLog2 y) emin = floorLog2 y := by
      apply max_eq_left
      by_contra hc
      have h1 : max (floorLog2 y) emin = emin := max_eq_right (le_of_lt (not_le.mp hc))
      have h2 : emin ≤ max (floorLog2 m) emin := le_max_right _ _
      omega
    have hem : floorLog2 m + 1 ≤ floorLog2 y := by
      have h2 : floorLog2 m ≤ max (floorLog2 m) emin := le_max_left _ _
      omega
    rw [hey] at hqy ⊢
    have hpow : (2 : ℚ) ^ floorLog2 y ≤ y := (floorLog2_spec y hy0).1
    have hk : ((2 ^ p : Nat) : Int) ≤
        roundNearestEven (y / (2 : ℚ) ^ (floorLog2 y - (p : Int))) := by
      apply roundNearestEven_ge
      rw [le_div_iff₀ hqy]
      have e1 : (((2 ^ p : Nat) : Int) : ℚ) * (2 : ℚ) ^ (floorLog2 y - (p : Int)) =
          (2 : ℚ) ^ floorLog2 y := by
        push_cast
        rw [← zpow_natCast (2 : ℚ) p, ← zpow_add₀ (by norm_num : (2 : ℚ) ≠ 0)]
        congr 1
        ring
      rw [e1]
      exact hpow
    have hk2 : (((2 ^ p : Nat) : Int) : ℚ) ≤
        ((roundNearestEven (y / (2 : ℚ) ^ (floorLog2 y - (p : Int))) : Int) : ℚ) := by
      exact_mod_cast hk
    have hbig : (2 : ℚ) ^ floorLog2 y ≤
        ((roundNearestEven (y / (2 : ℚ) ^ (floorLog2 y - (p : Int))) : Int) : ℚ) *
          (2 : ℚ) ^ (floorLog2 y - (p : Int)) := by
      have e1 : (((2 ^ p : Nat) : Int) : ℚ) * (2 : ℚ) ^ (floorLog2 y - (p : Int)) =
          (2 : ℚ) ^ floorLog2 y := by
        push_cast
        rw [← zpow_natCast (2 : ℚ) p, ← zpow_add₀ (by norm_num : (2 : ℚ) ≠ 0)]
        congr 1
        ring
      rw [← e1]
      exact mul_le_mul_of_nonneg_right hk2 (le_of_lt hqy)
    have hmlt : m < (2 : ℚ) ^ (floorLog2 m + 1) := (floorLog2_spec m hm0).2
    have hmono : (2 : ℚ) ^ (floorLog2 m + 1) ≤ (2 : ℚ) ^ floorLog2 y :=
      zpow_le_zpow_right₀ (by norm_num) hem
    linarith
  · -- the same spacing applies to `m` and to the number
    have hle : max (floorLog2 m) emin ≤ max (floorLog2 y) emin := max_le_max hlog (le_refl _)
    have heq : max (floorLog2 m) emin = max (floorLog2 y) emin := le_antisymm hle hge
    rw [heq] at hm
    have hk : roundNearestEven (m / (2 : ℚ) ^ (max (floorLog2 y) emin - (p : Int))) ≤
        roundNearestEven (y / (2 : ℚ) ^ (max (floorLog2 y) emin - (p : Int))) := by
      apply roundNearestEven_ge
      rw [le_div_iff₀ hqy, hm]
      exact h
    have hk2 : ((roundNearestEven (m / (2 : ℚ) ^ (max (floorLog2 y) emin - (p : Int))) : Int) : ℚ) ≤
        ((roundNearestEven (y / (2 : ℚ) ^ (max (floorLog2 y) emin - (p : Int))) : Int) : ℚ) := by
      exact_mod_cast hk
    calc m = ((roundNearestEven (m / (2 : ℚ) ^ (max (floorLog2 y) emin - (p : Int))) : Int) : ℚ) *
          (2 : ℚ) ^ (max (floorLog2 y) emin - (p : Int)) := hm.symm
      _ ≤ _ := mul_le_mul_of_nonneg_right hk2 (le_of_lt hqy)

end ieee

namespace ieee

end ieee

/-! ## Theorems: checksum and codec -/

namespace crc32

theorem shiftRight_xor (a b n : Nat) : (a ^^^ b) >>> n = (a >>> n) ^^^ (b >>> n) := by
  apply Nat.eq_of_testBit_eq
  intro i
  simp [Nat.testBit_shiftRight, Nat.testBit_xor]

theorem xor_mod_256 (a b : Nat) : (a ^^^ b) % 256 = (a % 256) ^^^ (b % 256) := by
  apply Nat.eq_of_testBit_eq
  intro i
  have h : (256 : Nat) = 2 ^ 8 := by norm_num
  rw [h]
  simp only [Nat.testBit_mod_two_pow, Nat.testBit_xor]
  cases decide (i < 8) <;> simp

theorem xor_xor_xor_comm (a b c d : Nat) : (a ^^^ b) ^^^ (c ^^^ d) = (a ^^^ c) ^^^ (b ^^^ d) := by
  apply Nat.eq_of_testBit_eq
  intro i
  simp only [Nat.testBit_xor]
  cases a.testBit i <;> cases b.testBit i <;> cases c.testBit i <;> cases d.testBit i <;> rfl

theorem tableStep_xor (a b : Nat) : tableStep (a ^^^ b) = tableStep a ^^^ tableStep b := by
  unfold tableStep
  have hab : (a ^^^ b) % 2 = (a + b) % 2 := Nat.xor_mod_two_eq
  rcases Nat.mod_two_eq_zero_or_one a with ha | ha <;>
    rcases Nat.mod_two_eq_zero_or_one b with hb | hb
  · have : (a ^^^ b) % 2 = 0 := by omega
    simp [ha, hb, this, shiftRight_xor]
  · have : (a ^^^ b) % 2 = 1 := by omega
    simp [ha, hb, this, shiftRight_xor, Nat.xor_assoc]
  · have : (a ^^^ b) % 2 = 1 := by omega
    simp only [ha, hb, this, shiftRight_xor, if_true]
    simp [Nat.xor_assoc, Nat.xor_comm (b >>> 1)]
  · have : (a ^^^ b) % 2 = 0 := by omega
    simp only [ha, hb, this, shiftRight_xor, if_true]
    rw [xor_xor_xor_comm, Nat.xor_self, Nat.xor_zero]
    simp

theorem IEEETable_xor (a b : Nat) : IEEETable (a ^^^ b) = IEEETable a ^^^ IEEETable b := by
  simp only [IEEETable, tableStep_xor]

theorem updateByte_xor (s t v w : Nat) :
    updateByte (s ^^^ t) (v ^^^ w) = updateByte s v ^^^ updateByte t w := by
  unfold updateByte
  rw [xor_mod_256, shiftRight_xor, xor_xor_xor_comm (s % 256) (t % 256) v w, IEEETable_xor,
    xor_xor_xor_comm]

theorem foldl_updateByte_xor (l e : List Nat) (h : l.length = e.length) (s t : Nat) :
    (List.zipWith (fun a b => a ^^^ b) l e).foldl updateByte (s ^^^ t) =
      l.foldl updateByte s ^^^ e.foldl updateByte t := by
  induction l generalizing e s t with
  | nil =>
    cases e with
    | nil => simp
    | cons _ _ => simp at h
  | cons a l ih =>
    cases e with
    | nil => simp at h
    | cons b e =>
      simp only [List.zipWith_cons_cons, List.foldl_cons]
      rw [updateByte_xor]
      exact ih e (by simpa using h) _ _

end crc32

namespace crc32

theorem tableStep_lt (x : Nat) (h : x < 2 ^ 32) : tableStep x < 2 ^ 32 := by
  unfold tableStep
  have h1 : x >>> 1 < 2 ^ 32 := by
    rw [Nat.shiftRight_eq_div_pow]; omega
  split
  · exact Nat.xor_lt_two_pow h1 (by decide)
  · exact h1

theorem IEEETable_lt (x : Nat) (h : x < 2 ^ 32) : IEEETable x < 2 ^ 32 := by
  unfold IEEETable
  repeat apply tableStep_lt
  exact h

theorem updateByte_lt (s v : Nat) (hs : s < 2 ^ 32) (hv : v < 256) : updateByte s v < 2 ^ 32 := by
  unfold updateByte
  apply Nat.xor_lt_two_pow
  · apply IEEETable_lt
    have h1 : s % 256 < 2 ^ 32 := by omega
    have h2 : v < 2 ^ 32 := by omega
    exact Nat.xor_lt_two_pow h1 h2
  · rw [Nat.shiftRight_eq_div_pow]; omega

theorem foldl_updateByte_lt (l : List Nat) (hl : ∀ b ∈ l, b < 256) (s : Nat) (hs : s < 2 ^ 32) :
    l.foldl updateByte s < 2 ^ 32 := by
  induction l generalizing s with
  | nil => simpa using hs
  | cons a l ih =>
    simp only [List.foldl_cons]
    apply ih
    · intro b hb; exact hl b (List.mem_cons_of_mem _ hb)
    · exact updateByte_lt s a hs (hl a (List.mem_cons_self _ _))

theorem Checksum_lt (l : List Nat) (hl : ∀ b ∈ l, b < 256) : Checksum l < 2 ^ 32 := by
  unfold Checksum simpleUpdate
  apply Nat.xor_lt_two_pow
  · exact foldl_updateByte_lt l hl _ (by decide)
  · decide

/-- Flipping bits of a message changes its checksum by the checksum register
value that the flipped bits alone produce from a zero register. -/
theorem Checksum_zipWith_xor (l e : List Nat) (h : l.length = e.length) :
    Checksum (List.zipWith (fun a b => a ^^^ b) l e) = Checksum l ^^^ e.foldl updateByte 0 := by
  unfold Checksum simpleUpdate
  have := foldl_updateByte_xor l e h (0 ^^^ 0xFFFFFFFF) 0
  rw [Nat.xor_zero] at this
  rw [this, Nat.xor_assoc, Nat.xor_comm (List.foldl updateByte 0 e), ← Nat.xor_assoc]

end crc32

namespace asicio

set_option maxRecDepth 100000 in
theorem bitMask_facts : ∀ k < 128,
    (((bitMask 16 k).take 12).foldl crc32.updateByte 0 ≠ 0 ∧ (bitMask 16 k).drop 12 = [0, 0, 0, 0]) ∨
    ((bitMask 16 k).take 12 = List.replicate 12 0 ∧ (bitMask 16 k).drop 12 ≠ [0, 0, 0, 0] ∧
      ∀ b ∈ (bitMask 16 k).drop 12, b < 256) := by
  decide

end asicio

namespace binary

theorem uint32_putUint32 (n : Nat) (h : n < 2 ^ 32) (rest : List Nat) :
    uint32 ((putUint32 n ++ rest).take 4) = n := by
  simp [uint32, putUint32]
  omega

theorem length_putUint32 (n : Nat) : (putUint32 n).length = 4 := rfl

end binary

namespace asicio

theorem binaryWrite_length (f : GoLeaf) : (binaryWrite f).length = f.size := by
  cases f <;> simp [binaryWrite, GoLeaf.size, binary.putUint32]

theorem binaryRead_binaryWrite (f f0 : GoLeaf) (hwt : f.wellTyped) (hty : GoLeaf.sameType f0 f)
    (rest : List Nat) : binaryRead (binaryWrite f ++ rest) f0 = (rest, f, none) := by
  cases f with
  | uint8 n =>
    cases f0 <;> simp [GoLeaf.sameType] at hty
    simp [binaryRead, binaryWrite, GoLeaf.size]
  | uint32 n =>
    cases f0 <;> simp [GoLeaf.sameType] at hty
    have h := binary.uint32_putUint32 n hwt rest
    simp only [binaryRead, binaryWrite, GoLeaf.size, List.length_append, binary.length_putUint32]
    rw [h]
    simp [binary.putUint32]
  | byteArray bs =>
    cases f0 <;> simp [GoLeaf.sameType] at hty
    simp [binaryRead, binaryWrite, GoLeaf.size, hty]

theorem unpackFields_packFields (fs fs0 : List GoLeaf) (hwt : ∀ f ∈ fs, f.wellTyped)
    (hty : List.Forall₂ GoLeaf.sameType fs0 fs) (rest : List Nat) :
    unpackFields true (packFields fs ++ rest) fs0 = (rest, fs, none) := by
  induction hty generalizing rest with
  | nil => simp [unpackFields, packFields]
  | @cons f0 f fs0 fs h _ ih =>
    have h1 := binaryRead_binaryWrite f f0 (hwt f (List.mem_cons_self _ _)) h (packFields fs ++ rest)
    have h2 := ih (fun g hg => hwt g (List.mem_cons_of_mem _ hg)) rest
    simp only [unpackFields, packFields, unpackLeaf, if_true, List.append_assoc, h1, h2]

/-- Round trip of the codec on any struct of well-typed leaves: `Pack` of a
pointer to it succeeds, and `Unpack` of the bytes into a pointer to a struct
of the same type reads all of them and leaves the packed struct behind. -/
theorem Unpack_Pack_struct (fs fs0 : List GoLeaf) (hwt : ∀ f ∈ fs, f.wellTyped)
    (hty : List.Forall₂ GoLeaf.sameType fs0 fs) :
    Pack [.ptr (.struct fs)] = .ok (packFields fs) ∧
      Unpack (packFields fs) [.ptr (.struct fs0)] =
        { read := (packFields fs).length, err := none, elts := [.ptr (.struct fs)] } := by
  constructor
  · simp [Pack, packType, packValue]
  · have h := unpackFields_packFields fs fs0 hwt hty []
    rw [List.append_nil] at h
    simp [Unpack, UnpackBuf, unpackValue, h]

end asicio

namespace asicio

/-- C1 (frame round trip).  For every well-typed value of `commandCfgType`,
`commandLoadType`, `responseCfgType` and `ResponseHitType`, `Pack` of a pointer
to it succeeds with exactly 16 bytes (config types) or 92 bytes (load and hit
types), and `Unpack` of those bytes into a pointer to a zero value of the same
type reads all of them without error and leaves a value equal to the packed
one field for field. -/
theorem pack_unpack_roundtrip (a : commandCfgType) (b : commandLoadType) (c : responseCfgType)
    (d : ResponseHitType) (ha : a.wellTyped) (hb : b.wellTyped) (hc : c.wellTyped)
    (hd : d.wellTyped) :
    (∃ bs, Pack [.ptr a.toValue] = .ok bs ∧ bs.length = 16 ∧
      Unpack bs [.ptr commandCfgType.zero.toValue] =
        { read := 16, err := none, elts := [.ptr a.toValue] }) ∧
    (∃ bs, Pack [.ptr b.toValue] = .ok bs ∧ bs.length = 92 ∧
      Unpack bs [.ptr commandLoadType.zero.toValue] =
        { read := 92, err := none, elts := [.ptr b.toValue] }) ∧
    (∃ bs, Pack [.ptr c.toValue] = .ok bs ∧ bs.length = 16 ∧
      Unpack bs [.ptr responseCfgType.zero.toValue] =
        { read := 16, err := none, elts := [.ptr c.toValue] }) ∧
    (∃ bs, Pack [.ptr d.toValue] = .ok bs ∧ bs.length = 92 ∧
      Unpack bs [.ptr ResponseHitType.zero.toValue] =
        { read := 92, err := none, elts := [.ptr d.toValue] }) := by
  obtain ⟨a1, a2, a3, a4, a5, a6, a7⟩ := ha
  obtain ⟨b1, b2, b3, b4, b5, ⟨b6, b6'⟩, b7⟩ := hb
  obtain ⟨c1, c2, c3, c4, c5, c6, c7⟩ := hc
  obtain ⟨d1, d2, d3, d4, d5, ⟨d6, d6'⟩, d7⟩ := hd
  simp only [Nat.reducePow] at a1 a6 a7 b1 b7 c1 c6 c7 d1 d7
  refine ⟨?_, ?_, ?_, ?_⟩
  · have h := Unpack_Pack_struct
      [.uint32 a.Command_unique, .uint8 a.Id, .uint8 a.Command, .uint8 a.Spare,
        .uint8 a.Address, .uint32 a.Data, .uint32 a.Crc]
      [.uint32 0, .uint8 0, .uint8 0, .uint8 0, .uint8 0, .uint32 0, .uint32 0]
      (by simp [GoLeaf.wellTyped, *]) (by simp [GoLeaf.sameType])
    have hl : (packFields [.uint32 a.Command_unique, .uint8 a.Id, .uint8 a.Command,
        .uint8 a.Spare, .uint8 a.Address, .uint32 a.Data, .uint32 a.Crc]).length = 16 := by
      simp [packFields, binaryWrite, binary.putUint32]
    rw [hl] at h
    exact ⟨_, h.1, hl, h.2⟩
  · have h := Unpack_Pack_struct
      [.uint32 b.Command_unique, .uint8 b.Id, .uint8 b.Command, .uint8 b.Nbits,
        .uint8 b.Sequence, .byteArray b.Load, .uint32 b.Crc]
      [.uint32 0, .uint8 0, .uint8 0, .uint8 0, .uint8 0, .byteArray (List.replicate 80 0),
        .uint32 0]
      (by simp [GoLeaf.wellTyped, *]; exact b6') (by simp [GoLeaf.sameType, b6])
    have hl : (packFields [.uint32 b.Command_unique, .uint8 b.Id, .uint8 b.Command,
        .uint8 b.Nbits, .uint8 b.Sequence, .byteArray b.Load, .uint32 b.Crc]).length = 92 := by
      simp [packFields, binaryWrite, binary.putUint32, b6]
    rw [hl] at h
    exact ⟨_, h.1, hl, h.2⟩
  · have h := Unpack_Pack_struct
      [.uint32 c.Response_unique, .uint8 c.Id, .uint8 c.Command, .uint8 c.Spare,
        .uint8 c.Address, .uint32 c.Data, .uint32 c.Crc]
      [.uint32 0, .uint8 0, .uint8 0, .uint8 0, .uint8 0, .uint32 0, .uint32 0]
      (by simp [GoLeaf.wellTyped, *]) (by simp [GoLeaf.sameType])
    have hl : (packFields [.uint32 c.Response_unique, .uint8 c.Id, .uint8 c.Command,
        .uint8 c.Spare, .uint8 c.Address, .uint32 c.Data, .uint32 c.Crc]).length = 16 := by
      simp [packFields, binaryWrite, binary.putUint32]
    rw [hl] at h
    exact ⟨_, h.1, hl, h.2⟩
  · have h := Unpack_Pack_struct
      [.uint32 d.Hit_unique, .uint8 d.Id, .uint8 d.Command, .uint8 d.Nbits,
        .uint8 d.Sequence, .byteArray d.Result, .uint32 d.Crc]
      [.uint32 0, .uint8 0, .uint8 0, .uint8 0, .uint8 0, .byteArray (List.replicate 80 0),
        .uint32 0]
      (by simp [GoLeaf.wellTyped, *]; exact d6') (by simp [GoLeaf.sameType, d6])
    have hl : (packFields [.uint32 d.Hit_unique, .uint8 d.Id, .uint8 d.Command,
        .uint8 d.Nbits, .uint8 d.Sequence, .byteArray d.Result, .uint32 d.Crc]).length = 92 := by
      simp [packFields, binaryWrite, binary.putUint32, d6]
    rw [hl] at h
    exact ⟨_, h.1, hl, h.2⟩

end asicio

namespace asicio

/-- Witness of `pack_unpack_roundtrip` at one concrete value of each type. -/
theorem pack_unpack_roundtrip_witness :
    (commandCfgType.mk 0x12345678 5 2 0 0x1e 7 9).wellTyped ∧
    (commandLoadType.mk 0x12345678 0 0x84 32 1 (List.replicate 80 0xab) 3).wellTyped ∧
    (responseCfgType.mk 0xdac07654 5 2 0 0x1e 7 9).wellTyped ∧
    (ResponseHitType.mk 0xdac07654 5 0x44 32 1 (List.replicate 80 0xcd) 3).wellTyped ∧
    ((∃ bs, Pack [.ptr (commandCfgType.mk 0x12345678 5 2 0 0x1e 7 9).toValue] = .ok bs ∧
        bs.length = 16 ∧
        Unpack bs [.ptr commandCfgType.zero.toValue] =
          { read := 16, err := none,
            elts := [.ptr (commandCfgType.mk 0x12345678 5 2 0 0x1e 7 9).toValue] }) ∧
      (∃ bs, Pack [.ptr (commandLoadType.mk 0x12345678 0 0x84 32 1
          (List.replicate 80 0xab) 3).toValue] = .ok bs ∧
        bs.length = 92 ∧
        Unpack bs [.ptr commandLoadType.zero.toValue] =
          { read := 92, err := none,
            elts := [.ptr (commandLoadType.mk 0x12345678 0 0x84 32 1
              (List.replicate 80 0xab) 3).toValue] }) ∧
      (∃ bs, Pack [.ptr (responseCfgType.mk 0xdac07654 5 2 0 0x1e 7 9).toValue] = .ok bs ∧
        bs.length = 16 ∧
        Unpack bs [.ptr responseCfgType.zero.toValue] =
          { read := 16, err := none,
            elts := [.ptr (responseCfgType.mk 0xdac07654 5 2 0 0x1e 7 9).toValue] }) ∧
      (∃ bs, Pack [.ptr (ResponseHitType.mk 0xdac07654 5 0x44 32 1
          (List.replicate 80 0xcd) 3).toValue] = .ok bs ∧
        bs.length = 92 ∧
        Unpack bs [.ptr ResponseHitType.zero.toValue] =
          { read := 92, err := none,
            elts := [.ptr (ResponseHitType.mk 0xdac07654 5 0x44 32 1
              (List.replicate 80 0xcd) 3).toValue] })) :=
  have ha : (commandCfgType.mk 0x12345678 5 2 0 0x1e 7 9).wellTyped := by
    simp [commandCfgType.wellTyped]
  have hb : (commandLoadType.mk 0x12345678 0 0x84 32 1 (List.replicate 80 0xab) 3).wellTyped := by
    simp [commandLoadType.wellTyped]
  have hc : (responseCfgType.mk 0xdac07654 5 2 0 0x1e 7 9).wellTyped := by
    simp [responseCfgType.wellTyped]
  have hd : (ResponseHitType.mk 0xdac07654 5 0x44 32 1 (List.replicate 80 0xcd) 3).wellTyped := by
    simp [ResponseHitType.wellTyped]
  ⟨ha, hb, hc, hd, pack_unpack_roundtrip _ _ _ _ ha hb hc hd⟩

end asicio

namespace asicio

/-- C2 (command-config frame layout).  For every `id`, `cmd`, `addr` (bytes)
and `data` (a `uint32`), `prepareAsicCmd` returns exactly the 16 bytes
`78 56 34 12, id, cmd, 0, addr`, the four little-endian bytes of `data`, and
the four little-endian bytes of `crc`, where `crc` is the bitwise complement
(in 32 bits) of the IEEE CRC-32 checksum of the first 12 bytes. -/
theorem prepareAsicCmd_layout (id cmd addr data : Nat) (hid : id < 256) (hcmd : cmd < 256)
    (haddr : addr < 256) (hdata : data < 2 ^ 32) :
    ∃ crc : Nat,
      crc = crc32.Checksum [0x78, 0x56, 0x34, 0x12, id, cmd, 0, addr,
        data % 256, data / 256 % 256, data / 65536 % 256, data / 16777216] ^^^ 0xFFFFFFFF ∧
      crc < 2 ^ 32 ∧
      prepareAsicCmd id cmd addr data = some [0x78, 0x56, 0x34, 0x12, id, cmd, 0, addr,
        data % 256, data / 256 % 256, data / 65536 % 256, data / 16777216,
        crc % 256, crc / 256 % 256, crc / 65536 % 256, crc / 16777216] := by
  have hd : data / 16777216 % 256 = data / 16777216 := by omega
  have hlt : crc32.Checksum [0x78, 0x56, 0x34, 0x12, id, cmd, 0, addr,
      data % 256, data / 256 % 256, data / 65536 % 256, data / 16777216] ^^^ 0xFFFFFFFF
        < 2 ^ 32 := by
    apply Nat.xor_lt_two_pow
    · apply crc32.Checksum_lt
      intro b hb
      simp only [List.mem_cons, List.mem_singleton, List.not_mem_nil, or_false] at hb
      omega
    · decide
  refine ⟨_, rfl, hlt, ?_⟩
  have hc : ∀ c : Nat, c < 2 ^ 32 → c / 16777216 % 256 = c / 16777216 := by
    intro c hc; omega
  simp only [prepareAsicCmd, Pack, packType, packValue, packedOrNil, commandCfgType.toValue,
    packFields, binaryWrite, binary.putUint32, CMD_UNIQUE]
  simp [hd, hc _ hlt]

set_option maxRecDepth 100000 in
/-- Witness of `prepareAsicCmd_layout`: a READ of register `0x1e` on chip 5;
the frame is `78 56 34 12 05 02 00 1e 00 00 00 00 e6 a7 e6 d5`. -/
theorem prepareAsicCmd_layout_witness :
    prepareAsicCmd 5 2 0x1e 0 =
      some [0x78, 0x56, 0x34, 0x12, 5, 2, 0, 0x1e, 0, 0, 0, 0, 0xe6, 0xa7, 0xe6, 0xd5] ∧
    ∃ crc : Nat,
      crc = crc32.Checksum [0x78, 0x56, 0x34, 0x12, 5, 2, 0, 0x1e,
        0 % 256, 0 / 256 % 256, 0 / 65536 % 256, 0 / 16777216] ^^^ 0xFFFFFFFF ∧
      crc < 2 ^ 32 ∧
      prepareAsicCmd 5 2 0x1e 0 = some [0x78, 0x56, 0x34, 0x12, 5, 2, 0, 0x1e,
        0 % 256, 0 / 256 % 256, 0 / 65536 % 256, 0 / 16777216,
        crc % 256, crc / 256 % 256, crc / 65536 % 256, crc / 16777216] :=
  ⟨by decide,
    prepareAsicCmd_layout 5 2 0x1e 0 (by decide) (by decide) (by decide) (by decide)⟩

end asicio

namespace asicio

/-- What `checkCfgRespRaw` does with a 16-byte message: the fields are the
little-endian decoding of the bytes, and the message is accepted exactly when
the decoded crc field is the complement of the checksum of the first 12 bytes. -/
theorem checkCfgRespRaw_of_length_16 (w : List Nat) (h : w.length = 16) :
    checkCfgRespRaw w =
      if binary.uint32 (w.drop 12) ≠ crc32.Checksum (w.take 12) ^^^ 0xFFFFFFFF then
        .error "unmatched crc32"
      else
        .ok { Response_unique := binary.uint32 (w.take 4), Id := w.getD 4 0,
              Command := w.getD 5 0, Spare := w.getD 6 0, Address := w.getD 7 0,
              Data := binary.uint32 ((w.drop 8).take 4), Crc := binary.uint32 (w.drop 12) } := by
  match w, h with
  | [w0, w1, w2, w3, w4, w5, w6, w7, w8, w9, w10, w11, w12, w13, w14, w15], _ =>
    simp [checkCfgRespRaw, recoverByteLoss, RSP_LEN_CFG, Unpack, UnpackBuf, unpackValue,
      unpackFields, unpackLeaf, binaryRead, GoLeaf.size, responseCfgType.zero,
      responseCfgType.toValue, responseCfgType.ofValue]

theorem zipWith_xor_replicate_zero (c : List Nat) (n : Nat) (h : c.length = n) :
    List.zipWith (fun a b => a ^^^ b) c (List.replicate n 0) = c := by
  induction c generalizing n with
  | nil => simp
  | cons a c ih =>
    cases n with
    | zero => simp at h
    | succ n =>
      simp only [List.replicate_succ, List.zipWith_cons_cons, Nat.xor_zero]
      rw [ih n (by simpa using h)]

theorem uint32_zipWith_xor_ne (c d : List Nat) (hc : c.length = 4) (hd : d.length = 4)
    (hcb : ∀ b ∈ c, b < 256) (hdb : ∀ b ∈ d, b < 256) (hne : d ≠ [0, 0, 0, 0]) :
    binary.uint32 (List.zipWith (fun a b => a ^^^ b) c d) ≠ binary.uint32 c := by
  match c, hc, d, hd with
  | [c0, c1, c2, c3], _, [d0, d1, d2, d3], _ =>
    have x : ∀ a b : Nat, a < 256 → b < 256 → a ^^^ b < 256 := fun a b ha hb =>
      Nat.xor_lt_two_pow (n := 8) ha hb
    have z : ∀ a b : Nat, a ^^^ b = a → b = 0 := by
      intro a b hab
      have : a ^^^ b = a ^^^ 0 := by rw [hab, Nat.xor_zero]
      exact Nat.xor_right_inj.mp this
    simp only [List.mem_cons, List.mem_singleton, List.not_mem_nil, or_false, forall_eq_or_imp,
      forall_eq] at hcb hdb
    obtain ⟨hc0, hc1, hc2, hc3⟩ := hcb
    obtain ⟨hd0, hd1, hd2, hd3⟩ := hdb
    have x0 := x c0 d0 hc0 hd0
    have x1 := x c1 d1 hc1 hd1
    have x2 := x c2 d2 hc2 hd2
    have x3 := x c3 d3 hc3 hd3
    intro heq
    simp [binary.uint32] at heq
    apply hne
    have e0 : c0 ^^^ d0 = c0 := by omega
    have e1 : c1 ^^^ d1 = c1 := by omega
    have e2 : c2 ^^^ d2 = c2 := by omega
    have e3 : c3 ^^^ d3 = c3 := by omega
    rw [z _ _ e0, z _ _ e1, z _ _ e2, z _ _ e3]

/-- C3 (CRC rejection).  For every 16-byte config response frame whose crc
field is the complement of the CRC-32 of its first 12 bytes, and every bit
position `k` in `0..127`, `checkCfgRespRaw` applied to the frame with bit `k`
flipped returns an error (and so no response). -/
theorem checkCfgRespRaw_rejects_bit_flip (v : List Nat) (hlen : v.length = 16)
    (hbytes : ∀ b ∈ v, b < 256)
    (hcrc : binary.uint32 (v.drop 12) = crc32.Checksum (v.take 12) ^^^ 0xFFFFFFFF)
    (k : Nat) (hk : k < 128) :
    ∃ e, checkCfgRespRaw (flipBit v k) = .error e := by
  have hml : (bitMask 16 k).length = 16 := by simp [bitMask]
  have hwl : (flipBit v k).length = 16 := by simp [flipBit, hlen, hml]
  have hdrop : (flipBit v k).drop 12 =
      List.zipWith (fun a b => a ^^^ b) (v.drop 12) ((bitMask 16 k).drop 12) := by
    simp [flipBit, hlen, List.drop_zipWith]
  have htake : (flipBit v k).take 12 =
      List.zipWith (fun a b => a ^^^ b) (v.take 12) ((bitMask 16 k).take 12) := by
    simp [flipBit, hlen, List.take_zipWith]
  have hne : binary.uint32 ((flipBit v k).drop 12) ≠
      crc32.Checksum ((flipBit v k).take 12) ^^^ 0xFFFFFFFF := by
    rw [hdrop, htake]
    rcases bitMask_facts k hk with ⟨hL, hz⟩ | ⟨hz, hd, hdb⟩
    · rw [hz, crc32.Checksum_zipWith_xor _ _ (by simp [hlen, hml])]
      have h4 := zipWith_xor_replicate_zero (v.drop 12) 4 (by simp [hlen])
      simp only [List.replicate] at h4
      rw [h4, hcrc]
      intro heq
      apply hL
      have h5 : ∀ a b c : Nat, a ^^^ c = (a ^^^ b) ^^^ c → b = 0 := by
        intro a b c h
        have h6 : a ^^^ (b ^^^ c) = a ^^^ (0 ^^^ c) := by
          rw [Nat.zero_xor, ← Nat.xor_assoc]; exact h.symm
        have h7 := Nat.xor_right_inj.mp h6
        exact Nat.xor_left_inj.mp h7
      exact h5 _ _ _ heq
    · rw [hz, zipWith_xor_replicate_zero (v.take 12) 12 (by simp [hlen]), ← hcrc]
      exact uint32_zipWith_xor_ne (v.drop 12) _ (by simp [hlen]) (by simp [hml])
        (fun b hb => hbytes b (List.mem_of_mem_drop hb)) hdb hd
  refine ⟨"unmatched crc32", ?_⟩
  rw [checkCfgRespRaw_of_length_16 _ hwl, if_pos hne]

set_option maxRecDepth 100000 in
/-- Witness of `checkCfgRespRaw_rejects_bit_flip`: the frame of chip 5
answering a READ of register `0x1e` with data 0 is accepted as it is and
rejected with its bit 42 flipped. -/
theorem checkCfgRespRaw_rejects_bit_flip_witness :
    checkCfgRespRaw [0x54, 0x76, 0xc0, 0xda, 5, 2, 0, 0x1e, 0, 0, 0, 0, 251, 51, 249, 84] =
      .ok ⟨0xdac07654, 5, 2, 0, 0x1e, 0, 0x54f933fb⟩ ∧
    ∃ e, checkCfgRespRaw
      (flipBit [0x54, 0x76, 0xc0, 0xda, 5, 2, 0, 0x1e, 0, 0, 0, 0, 251, 51, 249, 84] 42) =
        .error e :=
  ⟨by rfl,
    checkCfgRespRaw_rejects_bit_flip
      [0x54, 0x76, 0xc0, 0xda, 5, 2, 0, 0x1e, 0, 0, 0, 0, 251, 51, 249, 84]
      (by decide) (by decide) (by decide) 42 (by decide)⟩

end asicio

namespace asic

/-- The controller method `ChipIdToIndex` is the function `devhdr.ChipIDtoIndex`
on the controller's board configuration. -/
theorem ChipIdToIndex_eq (aa : AuraAsic) (chipId : Nat) :
    ChipIdToIndex aa chipId = devhdr.ChipIDtoIndex aa.BoardAsicConfig chipId := rfl

set_option maxRecDepth 100000 in
theorem default_chip_index_facts : ∀ i < 256,
    ((i ≤ 65 ∨ (128 ≤ i ∧ i ≤ 193)) →
      ChipIndexToId (toUint8 (devhdr.ChipIDtoIndex devhdr.DefaultHbAsicIdConfig i))
        devhdr.DefaultHbAsicIdConfig = (i : Int)) ∧
    (((66 ≤ i ∧ i ≤ 127) ∨ (194 ≤ i ∧ i ≤ 255)) →
      devhdr.ChipIDtoIndex devhdr.DefaultHbAsicIdConfig i = -1) := by
  decide

/-- C9 (chip-index bijection).  With the default id configuration (ranges
0..65 and 128..193, 132 chips per board), for every expected chip id `i`,
`ChipIndexToId(ChipIdToIndex(i)) = i`, and `ChipIdToIndex` as well as
`devhdr.ChipIDtoIndex` return -1 for every id in 66..127 and 194..255. -/
theorem chip_index_bijection (aa : AuraAsic)
    (hcfg : aa.BoardAsicConfig = devhdr.DefaultHbAsicIdConfig) (i : Nat) (hi : i < 256) :
    ((i ≤ 65 ∨ (128 ≤ i ∧ i ≤ 193)) →
      ChipIndexToId (toUint8 (ChipIdToIndex aa i)) aa.BoardAsicConfig = (i : Int)) ∧
    (((66 ≤ i ∧ i ≤ 127) ∨ (194 ≤ i ∧ i ≤ 255)) →
      ChipIdToIndex aa i = -1 ∧ devhdr.ChipIDtoIndex aa.BoardAsicConfig i = -1) := by
  rw [ChipIdToIndex_eq, hcfg]
  have h := default_chip_index_facts i hi
  exact ⟨h.1, fun hx => ⟨h.2 hx, h.2 hx⟩⟩

/-- Witness of `chip_index_bijection`: the expected chip id 130 and the unused
chip id 100 on a default board. -/
theorem chip_index_bijection_witness :
    ChipIndexToId (toUint8 (ChipIdToIndex
        { seqChipIds := [], actualChipIds := [],
          BoardAsicConfig := devhdr.DefaultHbAsicIdConfig, lastBadAsicMarking := 0,
          faultyAsicsTrack := none, clockReads := 0 } 130)) devhdr.DefaultHbAsicIdConfig
        = (130 : Int) ∧
      (ChipIdToIndex
        { seqChipIds := [], actualChipIds := [],
          BoardAsicConfig := devhdr.DefaultHbAsicIdConfig, lastBadAsicMarking := 0,
          faultyAsicsTrack := none, clockReads := 0 } 100 = -1 ∧
      devhdr.ChipIDtoIndex devhdr.DefaultHbAsicIdConfig 100 = -1) :=
  ⟨(chip_index_bijection
      { seqChipIds := [], actualChipIds := [],
        BoardAsicConfig := devhdr.DefaultHbAsicIdConfig, lastBadAsicMarking := 0,
        faultyAsicsTrack := none, clockReads := 0 } rfl 130 (by decide)).1
      (Or.inr ⟨by decide, by decide⟩),
    (chip_index_bijection
      { seqChipIds := [], actualChipIds := [],
        BoardAsicConfig := devhdr.DefaultHbAsicIdConfig, lastBadAsicMarking := 0,
        faultyAsicsTrack := none, clockReads := 0 } rfl 100 (by decide)).2
      (Or.inl ⟨by decide, by decide⟩)⟩

end asic

/-! ## Theorems: temperature conversion -/

namespace asic

theorem truncate_of_nonneg (x : ℚ) (h : 0 ≤ x) : truncate x = ⌊x⌋ := by
  simp [truncate, h]

/-- The `float32` and `float64` values of the temperature constants. -/
theorem temperature_constants :
    ieee.float32 tempK = -9420145 / 32768 ∧
    ieee.float32 tempY = 5430313 / 8192 ∧
    ieee.float32 (tempY * (1 / 4096)) = 5430313 / 33554432 ∧
    ieee.float64 tempK = -632175205506089 / 2199023255552 ∧
    ieee.float64 tempY = 5830754142561239 / 8796093022208 := by
  refine ⟨?_, ?_, ?_, ?_, ?_⟩ <;> decide!

/-- The integer part of a number `c` between 0 and 4096, taken as a `uint32`
or masked to 16 bits, is a natural number below 4096 in `(c - 1, c]`. -/
theorem floor_small (c : ℚ) (h0 : 0 ≤ c) (h1 : c < 4096) :
    ∃ n : Nat, ⌊c⌋ = (n : Int) ∧ n < 4096 ∧ (n : ℚ) ≤ c ∧ c < (n : ℚ) + 1 := by
  have hf0 := Int.floor_nonneg.mpr h0
  have hf1 : ⌊c⌋ < 4096 := by rw [Int.floor_lt]; exact_mod_cast h1
  have hl := Int.floor_le c
  have hu := Int.lt_floor_add_one c
  obtain ⟨n, hn⟩ := Int.eq_ofNat_of_zero_le hf0
  refine ⟨n, hn, by omega, ?_, ?_⟩
  · rw [hn] at hl; exact_mod_cast hl
  · rw [hn] at hu; exact_mod_cast hu

/-- On the working range the raw value of `temperatureConvert` is below 4096
and lies within `(x - 1.002, x + 0.002]` for
`x = (t - tempK) / (tempY / 4096) + 1/2`. -/
theorem temperatureConvert_near (t : ℚ) (h1 : -50 ≤ t) (h2 : t ≤ 125) :
    temperatureConvert t < 4096 ∧
    (t - tempK) * (4096 / tempY) + 1 / 2 - 1 - 1 / 500 < ((temperatureConvert t : Nat) : ℚ) ∧
    ((temperatureConvert t : Nat) : ℚ) ≤ (t - tempK) * (4096 / tempY) + 1 / 2 + 1 / 500 := by
  obtain ⟨hK, _, hS, _, _⟩ := temperature_constants
  unfold temperatureConvert
  rw [hK, hS]
  have ea := abs_le.mp (ieee.float32_near (t - -9420145 / 32768) 413
    (by rw [abs_le]; constructor <;> linarith))
  generalize ieee.float32 (t - -9420145 / 32768) = a at ea ⊢
  have hdiv : a / (5430313 / 33554432) = a * (33554432 / 5430313) := by ring
  rw [hdiv]
  have eb := abs_le.mp (ieee.float32_near (a * (33554432 / 5430313)) 2560
    (by rw [abs_le]; constructor <;> linarith))
  generalize ieee.float32 (a * (33554432 / 5430313)) = b at eb ⊢
  have ec := abs_le.mp (ieee.float32_near (b + 1 / 2) 2561
    (by rw [abs_le]; constructor <;> linarith))
  generalize ieee.float32 (b + 1 / 2) = c at ec ⊢
  have hc0 : (0 : ℚ) ≤ c := by linarith
  have hc1 : c < 4096 := by linarith
  obtain ⟨n, hn, hn1, hn2, hn3⟩ := floor_small c hc0 hc1
  rw [truncate_of_nonneg _ hc0, hn]
  have e1 : ((n : Int) % 2 ^ 32).toNat = n := by omega
  rw [e1]
  unfold tempK tempY
  refine ⟨hn1, ?_, ?_⟩
  · norm_num at ea eb ec ⊢
    linarith
  · norm_num at ea eb ec ⊢
    linarith

/-- For a raw value below 4096 the value decoded by `ReadAllTemperature` is
within `10⁻⁹` of `(raw - 1/2) · tempY / 4096 + tempK`. -/
theorem readAllTemperatureDecode_near (n : Nat) (hn : n < 4096) :
    |readAllTemperatureDecode n - (((n : ℚ) - 1 / 2) * (tempY / 4096) + tempK)| ≤ 1 / 10 ^ 9 := by
  obtain ⟨_, _, _, hK, hY⟩ := temperature_constants
  have hmod : n % 4096 = n := Nat.mod_eq_of_lt hn
  have hnq : (n : ℚ) < 4096 := by exact_mod_cast hn
  have hn0 : (0 : ℚ) ≤ (n : ℚ) := Nat.cast_nonneg n
  unfold readAllTemperatureDecode
  rw [hmod, hK, hY]
  generalize (n : ℚ) = x at hnq hn0 ⊢
  have e0 := abs_le.mp (ieee.float64_near x 4096 (by rw [abs_le]; constructor <;> linarith))
  generalize ieee.float64 x = x0 at e0 ⊢
  have e1 := abs_le.mp (ieee.float64_near (x0 - 1 / 2) 4097
    (by rw [abs_le]; constructor <;> linarith))
  generalize ieee.float64 (x0 - 1 / 2) = x1 at e1 ⊢
  have e2 := abs_le.mp (ieee.float64_near (x1 * (5830754142561239 / 8796093022208)) 2720000
    (by rw [abs_le]; constructor <;> linarith))
  generalize ieee.float64 (x1 * (5830754142561239 / 8796093022208)) = x2 at e2 ⊢
  have e3 := abs_le.mp (ieee.float64_near (x2 * (1 / 4096)) 700
    (by rw [abs_le]; constructor <;> linarith))
  generalize ieee.float64 (x2 * (1 / 4096)) = x3 at e3 ⊢
  have e4 := abs_le.mp (ieee.float64_near (x3 + -632175205506089 / 2199023255552) 1000
    (by rw [abs_le]; constructor <;> linarith))
  generalize ieee.float64 (x3 + -632175205506089 / 2199023255552) = d at e4 ⊢
  unfold tempK tempY
  rw [abs_le]
  norm_num at e0 e1 e2 e3 e4 ⊢
  constructor <;> linarith

end asic

namespace asic

/-- On the working range the raw value of `InverseTemp` with the default
calibration is a natural number below 4096 within `(x - 1.002, x + 0.002]` for
`x = (t - tempK) / tempY · 4096`. -/
theorem InverseTemp_near (t : ℚ) (h1 : -50 ≤ t) (h2 : t ≤ 125) :
    ∃ n : Nat, TopologyType.InverseTemp (ieee.float32 tempY) (ieee.float32 tempK) t = (n : Int) ∧
      n < 4096 ∧
      (t - tempK) * (4096 / tempY) - 1 - 1 / 500 < (n : ℚ) ∧
      (n : ℚ) ≤ (t - tempK) * (4096 / tempY) + 1 / 500 := by
  obtain ⟨hK, hY, _, _, _⟩ := temperature_constants
  unfold TopologyType.InverseTemp
  rw [hK, hY]
  have ea := abs_le.mp (ieee.float32_near (t - -9420145 / 32768) 413
    (by rw [abs_le]; constructor <;> linarith))
  generalize ieee.float32 (t - -9420145 / 32768) = a at ea ⊢
  have hdiv : a / (5430313 / 8192) = a * (8192 / 5430313) := by ring
  rw [hdiv]
  have eb := abs_le.mp (ieee.float32_near (a * (8192 / 5430313)) 1
    (by rw [abs_le]; constructor <;> linarith))
  generalize ieee.float32 (a * (8192 / 5430313)) = b at eb ⊢
  have ec := abs_le.mp (ieee.float32_near (b * 4096) 4097
    (by rw [abs_le]; constructor <;> linarith))
  generalize ieee.float32 (b * 4096) = c at ec ⊢
  have hc0 : (0 : ℚ) ≤ c := by linarith
  have hc1 : c < 4096 := by linarith
  obtain ⟨n, hn, hn1, hn2, hn3⟩ := floor_small c hc0 hc1
  rw [truncate_of_nonneg _ hc0, hn]
  refine ⟨n, by omega, hn1, ?_, ?_⟩
  · unfold tempK tempY
    norm_num at ea eb ec ⊢
    linarith
  · unfold tempK tempY
    norm_num at ea eb ec ⊢
    linarith

/-- For a raw value below 4096 the value decoded by `TopologyType.Temp` with
the default calibration is within 0.0005 of `(raw - 1/2) · tempY / 4096 + tempK`. -/
theorem Temp_near (n : Nat) (hn : n < 4096) :
    |TopologyType.Temp (ieee.float32 tempY) (ieee.float32 tempK) (n : Int) -
        (((n : ℚ) - 1 / 2) * (tempY / 4096) + tempK)| ≤ 1 / 2000 := by
  obtain ⟨hK, hY, _, _, _⟩ := temperature_constants
  have hmod : ((n : Int) % 65536 : Int) = (n : Int) := by omega
  have hnq : (n : ℚ) < 4096 := by exact_mod_cast hn
  have hn0 : (0 : ℚ) ≤ (n : ℚ) := Nat.cast_nonneg n
  unfold TopologyType.Temp
  rw [hmod, hK, hY]
  simp only [Int.cast_natCast]
  generalize (n : ℚ) = x at hnq hn0 ⊢
  have e0 := abs_le.mp (ieee.float32_near x 4096 (by rw [abs_le]; constructor <;> linarith))
  generalize ieee.float32 x = x0 at e0 ⊢
  have e1 := abs_le.mp (ieee.float32_near (x0 - 1 / 2) 4097
    (by rw [abs_le]; constructor <;> linarith))
  generalize ieee.float32 (x0 - 1 / 2) = x1 at e1 ⊢
  have e2 := abs_le.mp (ieee.float32_near (x1 * (5430313 / 8192)) 2720000
    (by rw [abs_le]; constructor <;> linarith))
  generalize ieee.float32 (x1 * (5430313 / 8192)) = x2 at e2 ⊢
  have e3 := abs_le.mp (ieee.float32_near (x2 * (1 / 4096)) 700
    (by rw [abs_le]; constructor <;> linarith))
  generalize ieee.float32 (x2 * (1 / 4096)) = x3 at e3 ⊢
  have e4 := abs_le.mp (ieee.float32_near (x3 + -9420145 / 32768) 400
    (by rw [abs_le]; constructor <;> linarith))
  generalize ieee.float32 (x3 + -9420145 / 32768) = d at e4 ⊢
  unfold tempK tempY
  rw [abs_le]
  norm_num at e0 e1 e2 e3 e4 ⊢
  constructor <;> linarith

/-- C10, counterexample.  At 0 °C `temperatureConvert` gives the raw value
1776, which `ReadAllTemperature` decodes to about -0.14 °C: the round trip is
off by more than 0.05 °C.  The same holds for `InverseTemp` and `Temp`. -/
theorem temperature_roundtrip_counterexample :
    temperatureConvert 0 = 1776 ∧
    ¬ (|readAllTemperatureDecode (temperatureConvert 0) - 0| ≤ 5 / 100) ∧
    TopologyType.InverseTemp (ieee.float32 tempY) (ieee.float32 tempK) 0 = 1776 ∧
    ¬ (|TopologyType.Temp (ieee.float32 tempY) (ieee.float32 tempK)
          (TopologyType.InverseTemp (ieee.float32 tempY) (ieee.float32 tempK) 0) - 0| ≤ 5 / 100) := by
  refine ⟨by decide!, ?_, by decide!, ?_⟩
  · have c : readAllTemperatureDecode (temperatureConvert 0) =
        -1234030003487 / 8796093022208 := by decide!
    rw [c]
    norm_num [abs_le]
  · have c : TopologyType.Temp (ieee.float32 tempY) (ieee.float32 tempK)
        (TopologyType.InverseTemp (ieee.float32 tempY) (ieee.float32 tempK) 0) =
        -4597 / 32768 := by decide!
    rw [c]
    norm_num [abs_le]

/-- C10, amended.  With every operation rounded as the code rounds it
(`float32` in `temperatureConvert`, `InverseTemp` and `Temp`, `float64` in
`ReadAllTemperature`), for every temperature `t` in `[-50, 125]` °C the value
that `ReadAllTemperature` decodes from `temperatureConvert t` lies in
`(t - 0.163, t + 0.001)`, and the value that `TopologyType.Temp` decodes from
`TopologyType.InverseTemp t` (default calibration) lies in
`(t - 0.244, t - 0.080)`; the step of the raw value is `tempY/4096`, about
0.162 °C. -/
theorem temperature_roundtrip_bounds (t : ℚ) (h1 : -50 ≤ t) (h2 : t ≤ 125) :
    (t - 163 / 1000 < readAllTemperatureDecode (temperatureConvert t) ∧
      readAllTemperatureDecode (temperatureConvert t) < t + 1 / 1000) ∧
    (t - 244 / 1000 <
        TopologyType.Temp (ieee.float32 tempY) (ieee.float32 tempK)
          (TopologyType.InverseTemp (ieee.float32 tempY) (ieee.float32 tempK) t) ∧
      TopologyType.Temp (ieee.float32 tempY) (ieee.float32 tempK)
          (TopologyType.InverseTemp (ieee.float32 tempY) (ieee.float32 tempK) t) <
        t - 80 / 1000) := by
  constructor
  · obtain ⟨hlt, hlo, hhi⟩ := temperatureConvert_near t h1 h2
    have hd := abs_le.mp (readAllTemperatureDecode_near (temperatureConvert t) hlt)
    generalize readAllTemperatureDecode (temperatureConvert t) = d at hd ⊢
    generalize ((temperatureConvert t : Nat) : ℚ) = r at hlo hhi hd
    unfold tempK tempY at *
    norm_num at hlo hhi hd ⊢
    constructor <;> linarith
  · obtain ⟨n, hn, hlt, hlo, hhi⟩ := InverseTemp_near t h1 h2
    rw [hn]
    have hd := abs_le.mp (Temp_near n hlt)
    generalize TopologyType.Temp (ieee.float32 tempY) (ieee.float32 tempK) (n : Int) = d at hd ⊢
    generalize (n : ℚ) = r at hlo hhi hd
    unfold tempK tempY at *
    norm_num at hlo hhi hd ⊢
    constructor <;> linarith

/-- Witness of `temperature_roundtrip_bounds` at 0 °C. -/
theorem temperature_roundtrip_bounds_witness :
    ((0 : ℚ) - 163 / 1000 < readAllTemperatureDecode (temperatureConvert 0) ∧
      readAllTemperatureDecode (temperatureConvert 0) < 0 + 1 / 1000) ∧
    ((0 : ℚ) - 244 / 1000 <
        TopologyType.Temp (ieee.float32 tempY) (ieee.float32 tempK)
          (TopologyType.InverseTemp (ieee.float32 tempY) (ieee.float32 tempK) 0) ∧
      TopologyType.Temp (ieee.float32 tempY) (ieee.float32 tempK)
          (TopologyType.InverseTemp (ieee.float32 tempY) (ieee.float32 tempK) 0) <
        0 - 80 / 1000) :=
  temperature_roundtrip_bounds 0 (by norm_num) (by norm_num)

end asic

namespace asic

/-- Two inputs at which the roundings decide the raw value.  For the `float32`
with the bit pattern c246a5fd (about -49.662 °C) `temperatureConvert` gives
1470, where the same expression in exact arithmetic gives 1469; for the
`float32` nearest to 0.10246094 °C `InverseTemp` gives 1777. -/
theorem temperature_rounding_examples :
    ieee.float32 (-13018621 / 262144) = -13018621 / 262144 ∧
    temperatureConvert (-13018621 / 262144) = 1470 ∧
    truncate (((-13018621 / 262144 : ℚ) - tempK) / (tempY * (1 / 4096)) + 1 / 2) = 1469 ∧
    TopologyType.InverseTemp (ieee.float32 tempY) (ieee.float32 tempK)
      (ieee.float32 0.10246094) = 1777 := by
  refine ⟨?_, ?_, ?_, ?_⟩ <;> decide!

end asic

/-! ## Theorems: payload index -/

namespace asicio

theorem createPayloadEntriesAddrs_spec (cmd asicId : Nat) (addrs : List Nat)
    (m : asicReadPayload → List Nat) (ps : List asicReadPayload) :
    (createPayloadEntriesAddrs cmd asicId addrs (m, ps)).2 =
        ps ++ addrs.map (fun a => (⟨a, asicId⟩ : asicReadPayload)) ∧
      ∀ p c, ((createPayloadEntriesAddrs cmd asicId addrs (m, ps)).1 p).count c =
        (m p).count c +
          if c = cmd then (addrs.map (fun a => (⟨a, asicId⟩ : asicReadPayload))).count p else 0 := by
  induction addrs generalizing m ps with
  | nil => simp [createPayloadEntriesAddrs]
  | cons a addrs ih =>
    simp only [createPayloadEntriesAddrs]
    obtain ⟨h1, h2⟩ := ih (Function.update m ⟨a, asicId⟩ (m ⟨a, asicId⟩ ++ [cmd]))
      (ps ++ [⟨a, asicId⟩])
    refine ⟨by simp [h1], ?_⟩
    intro p c
    rw [h2 p c]
    by_cases hp : p = ⟨a, asicId⟩
    · subst hp
      by_cases hc : c = cmd
      · subst hc
        simp [List.count_cons, List.count_append]
        omega
      · simp [hc, List.count_append, List.count_cons, Ne.symm hc]
    · have hp' : ¬ ((⟨a, asicId⟩ : asicReadPayload) = p) := fun h => hp h.symm
      by_cases hc : c = cmd
      · simp [Function.update_noteq hp, hc, List.count_cons, hp']
      · simp [Function.update_noteq hp, hc]

theorem createPayloadEntriesTargets_spec (cmd : Nat) (addrs targets : List Nat)
    (m : asicReadPayload → List Nat) (ps : List asicReadPayload) :
    ∃ qs : List asicReadPayload,
      (createPayloadEntriesTargets cmd addrs targets (m, ps)).2 = ps ++ qs ∧
      ∀ p c, ((createPayloadEntriesTargets cmd addrs targets (m, ps)).1 p).count c =
        (m p).count c + if c = cmd then qs.count p else 0 := by
  induction targets generalizing m ps with
  | nil => exact ⟨[], by simp [createPayloadEntriesTargets]⟩
  | cons t targets ih =>
    simp only [createPayloadEntriesTargets]
    obtain ⟨h1, h2⟩ := createPayloadEntriesAddrs_spec cmd t addrs m ps
    obtain ⟨qs, h3, h4⟩ := ih (createPayloadEntriesAddrs cmd t addrs (m, ps)).1
      (createPayloadEntriesAddrs cmd t addrs (m, ps)).2
    refine ⟨addrs.map (fun a => (⟨a, t⟩ : asicReadPayload)) ++ qs, ?_, ?_⟩
    · rw [h3, h1, List.append_assoc]
    · intro p c
      rw [h4 p c, h2 p c]
      by_cases hc : c = cmd
      · simp [hc, List.count_append]; omega
      · simp [hc]

theorem removePayloads_count (cmd : Nat) (ps : List asicReadPayload)
    (m : asicReadPayload → List Nat) (p : asicReadPayload) (c : Nat) :
    ((removePayloads cmd ps m) p).count c =
      if c = cmd then (m p).count c - ps.count p else (m p).count c := by
  induction ps generalizing m with
  | nil => simp [removePayloads]
  | cons q ps ih =>
    simp only [removePayloads]
    rw [ih]
    by_cases hp : p = q
    · subst hp
      by_cases hc : c = cmd
      · subst hc
        simp [List.count_erase_self, List.count_cons]
        omega
      · simp [hc, List.count_erase_of_ne hc]
    · have hp' : ¬ (q = p) := fun h => hp h.symm
      by_cases hc : c = cmd
      · simp [Function.update_noteq hp, hc, List.count_cons, hp']
      · simp [Function.update_noteq hp, hc]

theorem releaseCommand_maps (aa : AuraAsicIO) (cmd : Nat) (val : Int) :
    (releaseCommand aa cmd val).cmdRegReadMap = aa.cmdRegReadMap ∧
      (releaseCommand aa cmd val).cmdReverseRegReadMap = aa.cmdReverseRegReadMap := by
  unfold releaseCommand
  simp only []
  split_ifs <;> exact ⟨rfl, rfl⟩

theorem removePayloadsFromMapandRelease_maps (aa : AuraAsicIO) (cmd : Nat) (val : Int) :
    (removePayloadsFromMapandRelease aa cmd val).cmdRegReadMap =
        removePayloads cmd ((aa.cmdReverseRegReadMap cmd).getD []) aa.cmdRegReadMap ∧
      (removePayloadsFromMapandRelease aa cmd val).cmdReverseRegReadMap =
        Function.update aa.cmdReverseRegReadMap cmd none := by
  unfold removePayloadsFromMapandRelease
  simp only []
  constructor
  · rw [(releaseCommand_maps _ cmd val).1]
  · rw [(releaseCommand_maps _ cmd val).2]

theorem removeCommand_maps (aa : AuraAsicIO) (cmd : Nat) (val : Int) :
    (removeCommand aa cmd val).cmdRegReadMap =
        (removePayloadsFromMapandRelease aa cmd val).cmdRegReadMap ∧
      (removeCommand aa cmd val).cmdReverseRegReadMap =
        (removePayloadsFromMapandRelease aa cmd val).cmdReverseRegReadMap := by
  unfold removeCommand
  constructor
  · rw [(removePayloadsFromMapandRelease_maps _ cmd val).1,
      (removePayloadsFromMapandRelease_maps _ cmd val).1]
  · rw [(removePayloadsFromMapandRelease_maps _ cmd val).2,
      (removePayloadsFromMapandRelease_maps _ cmd val).2]

theorem createPayloadEntriesInMap_maps (clock : Nat → Int) (aa : AuraAsicIO) (cmd : Nat) :
    ∃ qs : List asicReadPayload,
      (createPayloadEntriesInMap clock aa cmd).cmdReverseRegReadMap =
        Function.update aa.cmdReverseRegReadMap cmd (some qs) ∧
      ∀ p c, ((createPayloadEntriesInMap clock aa cmd).cmdRegReadMap p).count c =
        (aa.cmdRegReadMap p).count c + if c = cmd then qs.count p else 0 := by
  obtain ⟨qs, h1, h2⟩ := createPayloadEntriesTargets_spec cmd (aa.cmds cmd).addrs
    (aa.cmds cmd).targets aa.cmdRegReadMap []
  refine ⟨qs, ?_, ?_⟩
  · simp [createPayloadEntriesInMap, AuraAsicIO.timeNow, h1]
  · intro p c
    simpa [createPayloadEntriesInMap, AuraAsicIO.timeNow] using h2 p c

/-- In every reachable state a record occurs in the list of a payload exactly
as often as the payload occurs in the record's entry of the reverse map. -/
theorem Reachable.count_eq (clock : Nat → Int) (aa : AuraAsicIO) (h : Reachable clock aa) :
    ∀ p c, (aa.cmdRegReadMap p).count c = ((aa.cmdReverseRegReadMap c).getD []).count p := by
  induction h with
  | init cmds => intro p c; simp [NewAsicIOInit]
  | create aa cmd _ hfresh ih =>
    intro p c
    obtain ⟨qs, h1, h2⟩ := createPayloadEntriesInMap_maps clock aa cmd
    rw [h1, h2 p c, ih p c]
    by_cases hc : c = cmd
    · subst hc; simp [hfresh]
    · simp [hc, Function.update_noteq hc]
  | timeout aa cmd val _ ih =>
    intro p c
    obtain ⟨h1, h2⟩ := removePayloadsFromMapandRelease_maps aa cmd val
    rw [h1, h2, removePayloads_count, ih p c]
    by_cases hc : c = cmd
    · subst hc; simp
    · simp [hc, Function.update_noteq hc]
  | complete aa cmd val _ ih =>
    intro p c
    obtain ⟨h1, h2⟩ := removePayloadsFromMapandRelease_maps aa cmd val
    rw [(removeCommand_maps aa cmd val).1, (removeCommand_maps aa cmd val).2, h1, h2,
      removePayloads_count, ih p c]
    by_cases hc : c = cmd
    · subst hc; simp
    · simp [hc, Function.update_noteq hc]
  | other aa aa1 _ h1 h2 ih =>
    intro p c
    rw [h1, h2]; exact ih p c

/-- C8 (payload index closure).  In every state the transport can reach, and
so for every record registered by `createPayloadEntriesInMap` whatever
repetitions its target and address lists have, after
`removePayloadsFromMapandRelease` has run for the record (directly, as on
timeout, or through `removeCommand`, as on completion) no list of the forward
map `cmdRegReadMap` contains the record and the reverse map
`cmdReverseRegReadMap` has no entry for it. -/
theorem payload_index_closure (clock : Nat → Int) (aa : AuraAsicIO) (h : Reachable clock aa)
    (cmd : Nat) (val : Int) :
    ((∀ p, cmd ∉ (removePayloadsFromMapandRelease aa cmd val).cmdRegReadMap p) ∧
      (removePayloadsFromMapandRelease aa cmd val).cmdReverseRegReadMap cmd = none) ∧
    ((∀ p, cmd ∉ (removeCommand aa cmd val).cmdRegReadMap p) ∧
      (removeCommand aa cmd val).cmdReverseRegReadMap cmd = none) := by
  have key : (∀ p, cmd ∉ (removePayloadsFromMapandRelease aa cmd val).cmdRegReadMap p) ∧
      (removePayloadsFromMapandRelease aa cmd val).cmdReverseRegReadMap cmd = none := by
    obtain ⟨h1, h2⟩ := removePayloadsFromMapandRelease_maps aa cmd val
    constructor
    · intro p
      rw [h1, ← List.count_eq_zero, removePayloads_count, if_pos rfl, Reachable.count_eq clock aa h]
      omega
    · rw [h2]; simp
  refine ⟨key, ?_⟩
  rw [(removeCommand_maps aa cmd val).1, (removeCommand_maps aa cmd val).2]
  exact key

/-- Witness of `payload_index_closure`: the record at address 7 with targets
`[5, 5]` and addresses `[1, 1]`, registered on the empty index (its payload
`(1, 5)` then lists the record four times), is removed on timeout (status 1). -/
theorem payload_index_closure_witness :
    (createPayloadEntriesInMap (fun _ => 0)
        (NewAsicIOInit (fun _ => ⟨0, zeroTime, zeroTime, zeroTime, false, [5, 5], CMD_READ,
          [1, 1], [], [], 0, false, false, false⟩)) 7).cmdRegReadMap ⟨1, 5⟩ = [7, 7, 7, 7] ∧
    (((∀ p, 7 ∉ (removePayloadsFromMapandRelease (createPayloadEntriesInMap (fun _ => 0)
        (NewAsicIOInit (fun _ => ⟨0, zeroTime, zeroTime, zeroTime, false, [5, 5], CMD_READ,
          [1, 1], [], [], 0, false, false, false⟩)) 7) 7 1).cmdRegReadMap p) ∧
      (removePayloadsFromMapandRelease (createPayloadEntriesInMap (fun _ => 0)
        (NewAsicIOInit (fun _ => ⟨0, zeroTime, zeroTime, zeroTime, false, [5, 5], CMD_READ,
          [1, 1], [], [], 0, false, false, false⟩)) 7) 7 1).cmdReverseRegReadMap 7 = none) ∧
    ((∀ p, 7 ∉ (removeCommand (createPayloadEntriesInMap (fun _ => 0)
        (NewAsicIOInit (fun _ => ⟨0, zeroTime, zeroTime, zeroTime, false, [5, 5], CMD_READ,
          [1, 1], [], [], 0, false, false, false⟩)) 7) 7 1).cmdRegReadMap p) ∧
      (removeCommand (createPayloadEntriesInMap (fun _ => 0)
        (NewAsicIOInit (fun _ => ⟨0, zeroTime, zeroTime, zeroTime, false, [5, 5], CMD_READ,
          [1, 1], [], [], 0, false, false, false⟩)) 7) 7 1).cmdReverseRegReadMap 7 = none)) :=
  ⟨by decide,
    payload_index_closure (fun _ => 0) _
      (Reachable.create _ 7 (Reachable.init _) rfl) 7 1⟩

end asicio

/-! ## Theorems: pipelined register read -/

namespace asic

theorem clearFaultyAsic_frame (clock : Nat → Int) (aa : AuraAsic) (t : Nat) :
    (clearFaultyAsic clock aa t).2.actualChipIds = aa.actualChipIds ∧
      (clearFaultyAsic clock aa t).2.seqChipIds = aa.seqChipIds ∧
      (clearFaultyAsic clock aa t).2.faultyAsicsTrack.isSome = aa.faultyAsicsTrack.isSome := by
  unfold clearFaultyAsic
  cases h : aa.faultyAsicsTrack with
  | none => simp [h]
  | some m =>
    simp only []
    cases m t with
    | none => simp [h]
    | some payload =>
      simp only [AuraAsic.timeNow]
      split_ifs <;> simp [h]

theorem updateAsicFaultyTracker_isSome (clock : Nat → Int) (aa : AuraAsic) (t : Nat)
    (h : aa.faultyAsicsTrack.isSome = true) :
    ∃ aa1, updateAsicFaultyTracker clock aa t = some aa1 ∧
      aa1.faultyAsicsTrack.isSome = true := by
  unfold updateAsicFaultyTracker
  cases hm : aa.faultyAsicsTrack with
  | none => simp [hm] at h
  | some m =>
    simp only []
    cases m t with
    | none => simp [AuraAsic.timeNow]
    | some tr =>
      simp only [AuraAsic.timeNow]
      split_ifs <;> simp

theorem filterStep_cases (clock : Nat → Int) (ra : Bool) (st : FilterState) (idx t : Nat) :
    ∃ aa1 : AuraAsic,
      (aa1.actualChipIds = st.aa.actualChipIds ∧ aa1.seqChipIds = st.aa.seqChipIds ∧
        aa1.faultyAsicsTrack.isSome = st.aa.faultyAsicsTrack.isSome) ∧
      ((filterStep clock ra st idx t = { st with aa := aa1, faultyAsics := true } ∧
          isFaultyAsic st.aa t = true ∧ (clearFaultyAsic clock st.aa t).1 = false) ∨
        (filterStep clock ra st idx t = { st with aa := aa1 } ∧
          ra = true ∧ isAsicDetected aa1 t = false) ∨
        (filterStep clock ra st idx t = FilterState.submit { st with aa := aa1 } idx t ∧
          (isFaultyAsic st.aa t = true → (clearFaultyAsic clock st.aa t).1 = true) ∧
          (ra = true → isAsicDetected aa1 t = true))) := by
  unfold filterStep
  by_cases hf : isFaultyAsic st.aa t = true
  · rw [if_pos hf]
    have hfr := clearFaultyAsic_frame clock st.aa t
    rcases hc : clearFaultyAsic clock st.aa t with ⟨b, aa1⟩
    rw [hc] at hfr
    cases b with
    | false => exact ⟨aa1, hfr, Or.inl ⟨rfl, hf, rfl⟩⟩
    | true =>
      simp only []
      by_cases hd : (ra && !isAsicDetected aa1 t) = true
      · rw [if_pos hd]
        simp at hd
        exact ⟨aa1, hfr, Or.inr (Or.inl ⟨rfl, hd.1, hd.2⟩)⟩
      · rw [if_neg hd]
        refine ⟨aa1, hfr, Or.inr (Or.inr ⟨rfl, fun _ => by first | rfl | trivial, ?_⟩)⟩
        intro hra
        simpa [hra] using hd
  · rw [if_neg hf]
    by_cases hd : (ra && !isAsicDetected st.aa t) = true
    · rw [if_pos hd]
      simp at hd
      exact ⟨st.aa, ⟨rfl, rfl, rfl⟩, Or.inr (Or.inl ⟨rfl, hd.1, hd.2⟩)⟩
    · rw [if_neg hd]
      refine ⟨st.aa, ⟨rfl, rfl, rfl⟩, Or.inr (Or.inr ⟨rfl, fun h => absurd h hf, ?_⟩)⟩
      intro hra
      simpa [hra] using hd

theorem filterStep_frame (clock : Nat → Int) (ra : Bool) (st : FilterState) (idx t : Nat) :
    (filterStep clock ra st idx t).aa.actualChipIds = st.aa.actualChipIds ∧
      (filterStep clock ra st idx t).aa.seqChipIds = st.aa.seqChipIds ∧
      (filterStep clock ra st idx t).aa.faultyAsicsTrack.isSome =
        st.aa.faultyAsicsTrack.isSome := by
  obtain ⟨aa1, hfr, h | h | h⟩ := filterStep_cases clock ra st idx t <;>
    rw [h.1] <;> exact hfr

theorem filterTargets_frame (clock : Nat → Int) (ra : Bool) (ts : List Nat) (idx : Nat)
    (st : FilterState) :
    (filterTargets clock ra ts idx st).aa.actualChipIds = st.aa.actualChipIds ∧
      (filterTargets clock ra ts idx st).aa.seqChipIds = st.aa.seqChipIds ∧
      (filterTargets clock ra ts idx st).aa.faultyAsicsTrack.isSome =
        st.aa.faultyAsicsTrack.isSome := by
  induction ts generalizing idx st with
  | nil => exact ⟨rfl, rfl, rfl⟩
  | cons t ts ih =>
    simp only [filterTargets]
    obtain ⟨h1, h2, h3⟩ := ih (idx + 1) (filterStep clock ra st idx t)
    obtain ⟨g1, g2, g3⟩ := filterStep_frame clock ra st idx t
    exact ⟨h1.trans g1, h2.trans g2, h3.trans g3⟩

theorem filterTargets_append (clock : Nat → Int) (ra : Bool) (xs ys : List Nat) (idx : Nat)
    (st : FilterState) :
    filterTargets clock ra (xs ++ ys) idx st =
      filterTargets clock ra ys (idx + xs.length) (filterTargets clock ra xs idx st) := by
  induction xs generalizing idx st with
  | nil => simp [filterTargets]
  | cons x xs ih =>
    show filterTargets clock ra (xs ++ ys) (idx + 1) (filterStep clock ra st idx x) = _
    rw [ih, List.length_cons, filterTargets]
    congr 1
    omega

theorem FilterInv_step (clock : Nat → Int) (all : List Nat) (ra : Bool) (idx t : Nat)
    (st : FilterState) (hinv : FilterInv all ra idx st) (ht : all[idx]? = some t) :
    FilterInv all ra (idx + 1) (filterStep clock ra st idx t) := by
  obtain ⟨ha, hb, hc⟩ := hinv
  obtain ⟨aa1, _, h | h | h⟩ := filterStep_cases clock ra st idx t
  · rw [h.1]
    refine ⟨fun k hk => ⟨Nat.lt_succ_of_lt (ha k hk).1, (ha k hk).2⟩, hb, ?_⟩
    intro hfa; simp at hfa
  · rw [h.1]
    refine ⟨fun k hk => ⟨Nat.lt_succ_of_lt (ha k hk).1, (ha k hk).2⟩, hb, ?_⟩
    intro _ hra; rw [h.2.1] at hra; simp at hra
  · rw [h.1]
    refine ⟨?_, ?_, ?_⟩
    · intro k hk
      simp only [FilterState.submit, List.length_append, List.length_singleton] at hk ⊢
      by_cases hkl : k = st.newTargets.length
      · subst hkl
        simp [ht]
      · have hk' : k < st.newTargets.length := by omega
        rw [Function.update_noteq hkl, List.getElem?_append_left hk']
        exact ⟨Nat.lt_succ_of_lt (ha k hk').1, (ha k hk').2⟩
    · intro k1 k2 h12 hk2
      simp only [FilterState.submit, List.length_append, List.length_singleton] at hk2 ⊢
      by_cases hkl : k2 = st.newTargets.length
      · subst hkl
        rw [Function.update_same, Function.update_noteq (Nat.ne_of_lt h12)]
        exact (ha k1 h12).1
      · have hk2' : k2 < st.newTargets.length := by omega
        rw [Function.update_noteq hkl, Function.update_noteq (by omega)]
        exact hb k1 k2 h12 hk2'
    · intro hfa hra
      simp only [FilterState.submit, List.length_append, List.length_singleton] at hfa ⊢
      obtain ⟨hl, hm⟩ := hc hfa hra
      refine ⟨by omega, ?_⟩
      intro k hk
      by_cases hkl : k = st.newTargets.length
      · subst hkl; rw [Function.update_same]; exact hl.symm
      · rw [Function.update_noteq hkl]; exact hm k (by omega)

theorem FilterInv_segment (clock : Nat → Int) (all : List Nat) (ra : Bool)
    (xs : List Nat) (idx : Nat) (st : FilterState) (hinv : FilterInv all ra idx st)
    (hpre : ∀ j, j < xs.length → all[idx + j]? = xs[j]?) :
    FilterInv all ra (idx + xs.length) (filterTargets clock ra xs idx st) := by
  induction xs generalizing idx st with
  | nil => simpa [filterTargets] using hinv
  | cons t ts ih =>
    simp only [filterTargets, List.length_cons]
    have ht : all[idx]? = some t := by
      have := hpre 0 (by simp)
      simpa using this
    have h := ih (idx + 1) _ (FilterInv_step clock all ra idx t st hinv ht) (by
      intro j hj
      have := hpre (j + 1) (by simp; omega)
      rw [List.getElem?_cons_succ] at this
      rw [← this]
      congr 1
      omega)
    have e : idx + 1 + ts.length = idx + (ts.length + 1) := by omega
    rw [e] at h
    exact h

theorem FilterInv_init (all : List Nat) (ra : Bool) (aa : AuraAsic) :
    FilterInv all ra 0 (filterInit aa) := by
  refine ⟨?_, ?_, ?_⟩
  · intro k hk; simp [filterInit] at hk
  · intro k1 k2 _ hk; simp [filterInit] at hk
  · intro _ _; simp [filterInit]

theorem FilterInv_final (clock : Nat → Int) (aa : AuraAsic) (targets : Option (List Nat)) :
    FilterInv (targetList aa targets) targets.isNone (targetList aa targets).length
      (filterFinal clock aa targets) := by
  have h := FilterInv_segment clock (targetList aa targets) targets.isNone (targetList aa targets)
    0 _ (FilterInv_init _ _ aa) (by intro j _; simp)
  simpa [filterFinal] using h

theorem FilterInv_at (clock : Nat → Int) (aa : AuraAsic) (targets : Option (List Nat)) (i : Nat)
    (hi : i ≤ (targetList aa targets).length) :
    FilterInv (targetList aa targets) targets.isNone i (filterStateAt clock aa targets i) := by
  have h := FilterInv_segment clock (targetList aa targets) targets.isNone
    ((targetList aa targets).take i) 0 _ (FilterInv_init _ _ aa) (by
      intro j hj
      simp only [List.length_take] at hj
      rw [List.getElem?_take_of_lt (by omega)]
      simp)
  simp only [List.length_take, Nat.zero_add] at h
  rw [Nat.min_eq_left hi] at h
  exact h

theorem filterTargets_avoid (clock : Nat → Int) (ra : Bool) (i : Nat) (ts : List Nat) :
    ∀ (idx : Nat) (st : FilterState), i < idx →
      (∀ k, k < st.newTargets.length → st.newTargetIndexMap k ≠ i) →
      ∀ k, k < (filterTargets clock ra ts idx st).newTargets.length →
        (filterTargets clock ra ts idx st).newTargetIndexMap k ≠ i := by
  induction ts with
  | nil => intro idx st _ h; simpa [filterTargets] using h
  | cons t ts ih =>
    intro idx st hi h
    simp only [filterTargets]
    apply ih (idx + 1) _ (by omega)
    obtain ⟨aa1, _, hc | hc | hc⟩ := filterStep_cases clock ra st idx t
    · rw [hc.1]; exact h
    · rw [hc.1]; exact h
    · rw [hc.1]
      intro k hk
      simp only [FilterState.submit, List.length_append, List.length_singleton] at hk ⊢
      by_cases hkl : k = st.newTargets.length
      · subst hkl; rw [Function.update_same]; omega
      · rw [Function.update_noteq hkl]; exact h k (by omega)

theorem isAsicDetected_congr (aa aa1 : AuraAsic) (h : aa1.actualChipIds = aa.actualChipIds)
    (t : Nat) : isAsicDetected aa1 t = isAsicDetected aa t := by
  simp [isAsicDetected, h]

/-- A list position that the filter loop skips is the origin of no submitted
position. -/
theorem filterFinal_skips (clock : Nat → Int) (aa : AuraAsic) (targets : Option (List Nat))
    (i : Nat) (hi : i < (targetList aa targets).length)
    (hskip :
      (isFaultyAsic (filterStateAt clock aa targets i).aa ((targetList aa targets).getD i 0) = true ∧
        (clearFaultyAsic clock (filterStateAt clock aa targets i).aa
          ((targetList aa targets).getD i 0)).1 = false) ∨
      (targets = none ∧ isAsicDetected aa ((targetList aa targets).getD i 0) = false)) :
    ∀ k, k < (filterFinal clock aa targets).newTargets.length →
      (filterFinal clock aa targets).newTargetIndexMap k ≠ i := by
  have hsplit : targetList aa targets =
      (targetList aa targets).take i ++
        ((targetList aa targets).getD i 0 :: (targetList aa targets).drop (i + 1)) := by
    rw [List.getD_eq_getElem _ _ hi, ← List.drop_eq_getElem_cons hi, List.take_append_drop]
  have hfin : filterFinal clock aa targets =
      filterTargets clock targets.isNone ((targetList aa targets).drop (i + 1)) (i + 1)
        (filterStep clock targets.isNone (filterStateAt clock aa targets i) i
          ((targetList aa targets).getD i 0)) := by
    unfold filterFinal filterStateAt
    conv_lhs => rw [hsplit]
    rw [filterTargets_append, filterTargets]
    simp [Nat.min_eq_left (Nat.le_of_lt hi)]
  rw [hfin]
  apply filterTargets_avoid clock _ i _ (i + 1) _ (by omega)
  have hinv := FilterInv_at clock aa targets i (Nat.le_of_lt hi)
  have hlt : ∀ k, k < (filterStateAt clock aa targets i).newTargets.length →
      (filterStateAt clock aa targets i).newTargetIndexMap k ≠ i :=
    fun k hk => Nat.ne_of_lt (hinv.1 k hk).1
  obtain ⟨aa1, hfr, hc | hc | hc⟩ := filterStep_cases clock targets.isNone
    (filterStateAt clock aa targets i) i ((targetList aa targets).getD i 0)
  · rw [hc.1]; exact hlt
  · rw [hc.1]; exact hlt
  · exfalso
    rcases hskip with ⟨h1, h2⟩ | ⟨h1, h2⟩
    · have := hc.2.1 h1
      rw [h2] at this
      exact Bool.false_ne_true this
    · have h3 := hc.2.2 (by rw [h1]; rfl)
      have h4 : aa1.actualChipIds = aa.actualChipIds := by
        rw [hfr.1]
        exact (filterTargets_frame clock _ _ 0 (filterInit aa)).1
      rw [isAsicDetected_congr aa aa1 h4] at h3
      rw [h2] at h3
      exact Bool.false_ne_true h3

end asic

namespace asic

theorem projectRegs_spec (clock : Nat → Int) (alen : Nat) (retData : List Int)
    (resIdx asicIdx target : Nat) (n : Nat) :
    ∀ (regIdx : Nat) (res : List Int) (flag : Bool) (aa : AuraAsic) (res' : List Int)
      (flag' : Bool) (aa' : AuraAsic),
      projectRegs clock alen retData resIdx asicIdx target n regIdx (res, flag, aa) =
        some (res', flag', aa') →
      res'.length = res.length ∧
      (∀ p, (∀ r, regIdx ≤ r → r < regIdx + n → p ≠ resIdx * alen + r) → res'[p]? = res[p]?) ∧
      (∀ r, regIdx ≤ r → r < regIdx + n →
        ∃ d, retData[asicIdx * alen + r]? = some d ∧ res'[resIdx * alen + r]? = some d) ∧
      (if flag = false ∧ slotFailed retData (asicIdx * alen + regIdx) n = true then
        updateAsicFaultyTracker clock aa target = some aa'
       else aa' = aa) := by
  induction n with
  | zero =>
    intro regIdx res flag aa res' flag' aa' h
    simp only [projectRegs, Option.some.injEq, Prod.mk.injEq] at h
    obtain ⟨rfl, rfl, rfl⟩ := h
    refine ⟨rfl, fun _ _ => rfl, ?_, ?_⟩
    · intro r h1 h2; omega
    · simp [slotFailed]
  | succ n ih =>
    intro regIdx res flag aa res' flag' aa' h
    rw [projectRegs] at h
    simp only [] at h
    cases hd : retData[asicIdx * alen + regIdx]? with
    | none => rw [hd] at h; simp at h
    | some d =>
      rw [hd] at h
      simp only [] at h
      by_cases hb : resIdx * alen + regIdx < res.length
      · rw [if_pos hb] at h
        have key : ∀ (flag1 : Bool) (aa1 : AuraAsic),
            projectRegs clock alen retData resIdx asicIdx target n (regIdx + 1)
              (res.set (resIdx * alen + regIdx) d, flag1, aa1) = some (res', flag', aa') →
            res'.length = res.length ∧
            (∀ p, (∀ r, regIdx ≤ r → r < regIdx + (n + 1) → p ≠ resIdx * alen + r) →
              res'[p]? = res[p]?) ∧
            (∀ r, regIdx ≤ r → r < regIdx + (n + 1) →
              ∃ d, retData[asicIdx * alen + r]? = some d ∧ res'[resIdx * alen + r]? = some d) ∧
            (if flag1 = false ∧ slotFailed retData (asicIdx * alen + (regIdx + 1)) n = true then
              updateAsicFaultyTracker clock aa1 target = some aa'
             else aa' = aa1) := by
          intro flag1 aa1 h1
          obtain ⟨i1, i2, i3, i4⟩ := ih (regIdx + 1) _ flag1 aa1 res' flag' aa' h1
          refine ⟨by rw [i1, List.length_set], ?_, ?_, i4⟩
          · intro p hp
            rw [i2 p (fun r hr1 hr2 => hp r (by omega) (by omega))]
            rw [List.getElem?_set_ne]
            exact fun e => hp regIdx (Nat.le_refl _) (by omega) e.symm
          · intro r hr1 hr2
            by_cases hr : r = regIdx
            · subst hr
              refine ⟨d, hd, ?_⟩
              rw [i2 _ (fun r' hr1' _ => by omega)]
              rw [List.getElem?_set_eq_of_lt _ hb]
            · exact i3 r (by omega) (by omega)
        by_cases hc : d = -1 ∧ flag = false
        · rw [if_pos hc] at h
          cases hu : updateAsicFaultyTracker clock aa target with
          | none => rw [hu] at h; simp at h
          | some aa1 =>
            rw [hu] at h
            simp only [] at h
            obtain ⟨k1, k2, k3, k4⟩ := key true aa1 h
            refine ⟨k1, k2, k3, ?_⟩
            simp only [Bool.true_eq_false, false_and, if_false] at k4
            subst k4
            simp [slotFailed, hd, hc.1, hc.2, hu]
        · rw [if_neg hc] at h
          obtain ⟨k1, k2, k3, k4⟩ := key flag aa h
          refine ⟨k1, k2, k3, ?_⟩
          by_cases hfl : flag = false
          · have hd1 : d ≠ -1 := fun e => hc ⟨e, hfl⟩
            have e1 : slotFailed retData (asicIdx * alen + regIdx) (n + 1) =
                slotFailed retData (asicIdx * alen + (regIdx + 1)) n := by
              simp [slotFailed, hd, hd1, Nat.add_assoc]
            rw [e1]; exact k4
          · simp only [hfl, false_and, if_false] at k4 ⊢
            exact k4
      · rw [if_neg hb] at h; simp at h

end asic

namespace asic

theorem group_index_ne (a b n r r' : Nat) (hab : a < b) (hr : r < n) :
    a * n + r ≠ b * n + r' := by
  have h1 : (a + 1) * n ≤ b * n := Nat.mul_le_mul_right n hab
  have h2 : (a + 1) * n = a * n + n := by ring
  omega

theorem slotFailed_of_no_failure (retData : List Int) (h : ∀ d ∈ retData, d ≠ -1)
    (start n : Nat) : slotFailed retData start n = false := by
  induction n generalizing start with
  | zero => rfl
  | succ n ih =>
    simp only [slotFailed, ih, Bool.or_false]
    cases hd : retData[start]? with
    | none => rfl
    | some d =>
      have := h d (List.getElem?_mem hd)
      simp [this]

theorem projectRegs_total (clock : Nat → Int) (alen : Nat) (retData : List Int)
    (resIdx asicIdx target : Nat) (n : Nat) :
    ∀ (regIdx : Nat) (res : List Int) (flag : Bool) (aa : AuraAsic),
      asicIdx * alen + regIdx + n ≤ retData.length →
      resIdx * alen + regIdx + n ≤ res.length →
      (aa.faultyAsicsTrack.isSome = true ∨ ∀ d ∈ retData, d ≠ -1) →
      ∃ res' flag' aa',
        projectRegs clock alen retData resIdx asicIdx target n regIdx (res, flag, aa) =
          some (res', flag', aa') ∧
        (aa'.faultyAsicsTrack.isSome = true ∨ ∀ d ∈ retData, d ≠ -1) := by
  induction n with
  | zero =>
    intro regIdx res flag aa _ _ h
    exact ⟨res, flag, aa, rfl, h⟩
  | succ n ih =>
    intro regIdx res flag aa h1 h2 h3
    have hlt : asicIdx * alen + regIdx < retData.length := by omega
    rw [projectRegs]
    simp only [List.getElem?_eq_getElem hlt]
    rw [if_pos (by omega)]
    by_cases hc : retData[asicIdx * alen + regIdx] = -1 ∧ flag = false
    · rw [if_pos hc]
      rcases h3 with h3 | h3
      · obtain ⟨aa1, hu, hs⟩ := updateAsicFaultyTracker_isSome clock aa target h3
        rw [hu]
        exact ih (regIdx + 1) _ true aa1 (by omega) (by rw [List.length_set]; omega) (Or.inl hs)
      · exact absurd hc.1 (h3 _ (List.getElem_mem _))
    · rw [if_neg hc]
      exact ih (regIdx + 1) _ flag aa (by omega) (by rw [List.length_set]; omega) h3

theorem projectAsics_spec (clock : Nat → Int) (alen : Nat) (retData : List Int)
    (nt : List Nat) (map : Nat → Nat)
    (hmono : ∀ k1 k2, k1 < k2 → k2 < nt.length → map k1 < map k2) (n : Nat) :
    ∀ (k : Nat) (res : List Int) (aa : AuraAsic) (res' : List Int) (aa' : AuraAsic),
      k + n = nt.length →
      projectAsics clock alen retData nt map n k (res, aa) = some (res', aa') →
      res'.length = res.length ∧
      (∀ p, (∀ k' r, k ≤ k' → k' < k + n → r < alen → p ≠ map k' * alen + r) →
        res'[p]? = res[p]?) ∧
      (∀ k' r, k ≤ k' → k' < k + n → r < alen →
        ∃ d, retData[k' * alen + r]? = some d ∧ res'[map k' * alen + r]? = some d) ∧
      applyTrackerUpdates clock (failedTargets alen retData (nt.drop k) k) aa = some aa' := by
  induction n with
  | zero =>
    intro k res aa res' aa' hk h
    simp only [projectAsics, Option.some.injEq, Prod.mk.injEq] at h
    obtain ⟨rfl, rfl⟩ := h
    refine ⟨rfl, fun _ _ => rfl, ?_, ?_⟩
    · intro k' r h1 h2; omega
    · have : nt.drop k = [] := List.drop_eq_nil_iff.mpr (by omega)
      rw [this]; rfl
  | succ n ih =>
    intro k res aa res' aa' hk h
    rw [projectAsics] at h
    cases hp : projectRegs clock alen retData (map k) k (nt.getD k 0) alen 0 (res, false, aa) with
    | none => rw [hp] at h; simp at h
    | some r1 =>
      obtain ⟨res1, flag1, aa1⟩ := r1
      rw [hp] at h
      simp only [] at h
      obtain ⟨p1, p2, p3, p4⟩ := projectRegs_spec clock alen retData (map k) k (nt.getD k 0) alen
        0 res false aa res1 flag1 aa1 hp
      obtain ⟨i1, i2, i3, i4⟩ := ih (k + 1) res1 aa1 res' aa' (by omega) h
      have hklt : k < nt.length := by omega
      refine ⟨by rw [i1, p1], ?_, ?_, ?_⟩
      · intro p hne
        rw [i2 p (fun k' r h1 h2 h3 => hne k' r (by omega) (by omega) h3)]
        exact p2 p (fun r _ h2 => hne k r (Nat.le_refl _) (by omega) (by omega))
      · intro k' r h1 h2 h3
        by_cases hkk : k' = k
        · subst hkk
          obtain ⟨d, d1, d2⟩ := p3 r (Nat.zero_le _) (by omega)
          refine ⟨d, d1, ?_⟩
          rw [i2 _ (fun k'' r'' g1 g2 g3 =>
            group_index_ne (map k') (map k'') alen r r'' (hmono k' k'' (by omega) (by omega)) h3)]
          exact d2
        · exact i3 k' r (by omega) (by omega) h3
      · have hdrop : nt.drop k = nt.getD k 0 :: nt.drop (k + 1) := by
          rw [List.getD_eq_getElem _ _ hklt]
          exact List.drop_eq_getElem_cons hklt
        rw [hdrop, failedTargets]
        simp only [Nat.add_zero, true_and] at p4
        by_cases hs : slotFailed retData (k * alen) alen = true
        · rw [if_pos hs] at p4 ⊢
          simp only [List.singleton_append, applyTrackerUpdates, p4]
          exact i4
        · rw [if_neg hs] at p4 ⊢
          subst p4
          simpa using i4

theorem projectAsics_total (clock : Nat → Int) (alen : Nat) (retData : List Int)
    (nt : List Nat) (map : Nat → Nat) (n : Nat) :
    ∀ (k : Nat) (res : List Int) (aa : AuraAsic),
      (k + n) * alen ≤ retData.length →
      (∀ k', k ≤ k' → k' < k + n → (map k' + 1) * alen ≤ res.length) →
      (aa.faultyAsicsTrack.isSome = true ∨ ∀ d ∈ retData, d ≠ -1) →
      ∃ r, projectAsics clock alen retData nt map n k (res, aa) = some r := by
  induction n with
  | zero => intro k res aa _ _ _; exact ⟨_, rfl⟩
  | succ n ih =>
    intro k res aa h1 h2 h3
    have e1 : (k + (n + 1)) * alen = k * alen + n * alen + alen := by ring
    have e2 : (map k + 1) * alen = map k * alen + alen := by ring
    have h2k := h2 k (Nat.le_refl _) (by omega)
    obtain ⟨res1, flag1, aa1, hp, hs⟩ := projectRegs_total clock alen retData (map k) k
      (nt.getD k 0) alen 0 res false aa (by omega) (by omega) h3
    obtain ⟨q1, _, _, _⟩ := projectRegs_spec clock alen retData (map k) k (nt.getD k 0) alen
      0 res false aa res1 flag1 aa1 hp
    rw [projectAsics, hp]
    simp only []
    apply ih (k + 1) res1 aa1
    · have : k + 1 + n = k + (n + 1) := by omega
      rw [this]; exact h1
    · intro k' g1 g2
      rw [q1]; exact h2 k' (by omega) (by omega)
    · exact hs

end asic

namespace asic

/-- The three return paths of `ReadRegsPipelined`, in the vocabulary of the
statements below. -/
theorem ReadRegsPipelined_eq (clock : Nat → Int)
    (nonBlockingRead : List Nat → List Nat → Int × List Int) (aa : AuraAsic)
    (targets : Option (List Nat)) (addrs : List Nat) :
    ReadRegsPipelined clock nonBlockingRead aa targets addrs =
      if (filterFinal clock aa targets).faultyAsics = true ∧
          (filterFinal clock aa targets).newTargets.length = 0 then
        some (readStub (targetList aa targets) addrs, (filterFinal clock aa targets).aa)
      else if (nonBlockingRead (filterFinal clock aa targets).newTargets addrs).1 = 0 ∧
          (filterFinal clock aa targets).faultyAsics = false ∧ targets.isNone = false then
        some ((nonBlockingRead (filterFinal clock aa targets).newTargets addrs).2,
          (filterFinal clock aa targets).aa)
      else
        projectAsics clock addrs.length
          (nonBlockingRead (filterFinal clock aa targets).newTargets addrs).2
          (filterFinal clock aa targets).newTargets
          (filterFinal clock aa targets).newTargetIndexMap
          (filterFinal clock aa targets).newTargets.length 0
          (List.replicate ((targetList aa targets).length * addrs.length) (-1),
            (filterFinal clock aa targets).aa) := by
  cases targets with
  | none =>
    simp only [ReadRegsPipelined, filterFinal, targetList, filterInit, Option.isNone_none,
      if_true]
    try rfl
  | some ts =>
    simp only [ReadRegsPipelined, filterFinal, targetList, filterInit, Option.isNone_some]
    rfl

/-- If the transport returns one data slot per submitted (target, addr) pair,
and the tracker map is allocated or no returned slot is -1, then
`ReadRegsPipelined` returns (does not panic). -/
theorem ReadRegsPipelined_returns (clock : Nat → Int)
    (nonBlockingRead : List Nat → List Nat → Int × List Int) (aa : AuraAsic)
    (targets : Option (List Nat)) (addrs : List Nat)
    (hslots : (nonBlockingRead (filterFinal clock aa targets).newTargets addrs).2.length =
      (filterFinal clock aa targets).newTargets.length * addrs.length)
    (htrack : aa.faultyAsicsTrack.isSome = true ∨
      ∀ d ∈ (nonBlockingRead (filterFinal clock aa targets).newTargets addrs).2, d ≠ -1) :
    ∃ r, ReadRegsPipelined clock nonBlockingRead aa targets addrs = some r := by
  rw [ReadRegsPipelined_eq]
  split_ifs
  · exact ⟨_, rfl⟩
  · exact ⟨_, rfl⟩
  · have hinv := FilterInv_final clock aa targets
    apply projectAsics_total
    · rw [hslots, Nat.zero_add]
    · intro k _ hk
      rw [Nat.zero_add] at hk
      rw [List.length_replicate]
      exact Nat.mul_le_mul_right _ (hinv.1 k hk).1
    · rcases htrack with h | h
      · left
        rw [← h]
        exact (filterTargets_frame clock _ _ 0 (filterInit aa)).2.2
      · exact Or.inr h

/-- C4 (length of the pipelined result).  Provided the transport returns one
data slot per submitted (target, addr) pair, every vector `ReadRegsPipelined`
returns has length `len(targets) · len(addrs)`, or `len(seqChipIds) ·
len(addrs)` when `targets` is nil (`targetList` is `targets`, or `seqChipIds`
when `targets` is nil); and the call does return whenever the
tracker map is allocated or no returned slot is -1. -/
theorem ReadRegsPipelined_length (clock : Nat → Int)
    (nonBlockingRead : List Nat → List Nat → Int × List Int) (aa : AuraAsic)
    (targets : Option (List Nat)) (addrs : List Nat)
    (hslots : (nonBlockingRead (filterFinal clock aa targets).newTargets addrs).2.length =
      (filterFinal clock aa targets).newTargets.length * addrs.length) :
    (∀ res aa', ReadRegsPipelined clock nonBlockingRead aa targets addrs = some (res, aa') →
      res.length = (targetList aa targets).length * addrs.length) ∧
    ((aa.faultyAsicsTrack.isSome = true ∨
        ∀ d ∈ (nonBlockingRead (filterFinal clock aa targets).newTargets addrs).2, d ≠ -1) →
      ∃ r, ReadRegsPipelined clock nonBlockingRead aa targets addrs = some r) := by
  refine ⟨?_, ReadRegsPipelined_returns clock nonBlockingRead aa targets addrs hslots⟩
  intro res aa' h
  have hinv := FilterInv_final clock aa targets
  rw [ReadRegsPipelined_eq] at h
  split_ifs at h with h1 h2
  · simp only [Option.some.injEq, Prod.mk.injEq] at h
    rw [← h.1, readStub, List.length_replicate, Nat.mul_comm]
  · simp only [Option.some.injEq, Prod.mk.injEq] at h
    rw [← h.1, hslots, (hinv.2.2 h2.2.1 h2.2.2).1]
  · obtain ⟨p1, _, _, _⟩ := projectAsics_spec clock addrs.length _ _ _ hinv.2.1 _ 0 _ _ res aa'
      (Nat.zero_add _) h
    rw [p1, List.length_replicate]

end asic

namespace asic

/-- C5, counterexample.  Chip 9 was not detected at discovery, yet a caller
that lists it gets it submitted to the transport, and its result entry is
what the transport returns (here 109), not -1. -/
theorem ReadRegsPipelined_undetected_counterexample :
    isAsicDetected scenarioBoard 9 = false ∧
    (filterFinal scenarioClock scenarioBoard (some [9])).newTargets = [9] ∧
    (ReadRegsPipelined scenarioClock (fun ts as => (0, ts.flatMap (fun t => as.map (fun _ => (100 + t : Int)))))
      scenarioBoard (some [9]) [0x1e]).map (fun r => r.1) = some [109] := by
  decide

/-- C5, amended.  In `ReadRegsPipelined`, a position `i` of the target list
(the caller's list, or `seqChipIds` when `targets` is nil) is skipped when its
chip, at the moment the filter loop examines it, is flagged faulty and
`clearFaultyAsic` does not re-admit it, or, in the read-all case only
(`targets` nil), was not detected at discovery.  A skipped position is the
origin of no submitted position (so a chip listed once is not in the submitted
list), and in every returned vector all `len(addrs)` entries of the position
equal -1, whatever the transport returns.  The call does return when the
transport returns one slot per submitted pair and the tracker map is allocated
or no returned slot is -1. -/
theorem ReadRegsPipelined_skipped (clock : Nat → Int)
    (nonBlockingRead : List Nat → List Nat → Int × List Int) (aa : AuraAsic)
    (targets : Option (List Nat)) (addrs : List Nat)
    (i : Nat) (hi : i < (targetList aa targets).length)
    (hskip :
      (isFaultyAsic (filterStateAt clock aa targets i).aa ((targetList aa targets).getD i 0) = true ∧
        (clearFaultyAsic clock (filterStateAt clock aa targets i).aa
          ((targetList aa targets).getD i 0)).1 = false) ∨
      (targets = none ∧ isAsicDetected aa ((targetList aa targets).getD i 0) = false)) :
    (∀ k, k < (filterFinal clock aa targets).newTargets.length →
      (filterFinal clock aa targets).newTargetIndexMap k ≠ i) ∧
    ((targetList aa targets).Nodup →
      (targetList aa targets).getD i 0 ∉ (filterFinal clock aa targets).newTargets) ∧
    (∀ res aa', ReadRegsPipelined clock nonBlockingRead aa targets addrs = some (res, aa') →
      ∀ j, j < addrs.length → res[i * addrs.length + j]? = some (-1)) ∧
    ((nonBlockingRead (filterFinal clock aa targets).newTargets addrs).2.length =
        (filterFinal clock aa targets).newTargets.length * addrs.length →
      (aa.faultyAsicsTrack.isSome = true ∨
        ∀ d ∈ (nonBlockingRead (filterFinal clock aa targets).newTargets addrs).2, d ≠ -1) →
      ∃ r, ReadRegsPipelined clock nonBlockingRead aa targets addrs = some r) := by
  have hav := filterFinal_skips clock aa targets i hi hskip
  have hinv := FilterInv_final clock aa targets
  refine ⟨hav, ?_, ?_, ReadRegsPipelined_returns clock nonBlockingRead aa targets addrs⟩
  · intro hnd hmem
    obtain ⟨k, hk, hkt⟩ := List.getElem_of_mem hmem
    have h1 := (hinv.1 k hk).2
    have h2 := (hinv.1 k hk).1
    rw [List.getElem?_eq_getElem hk, hkt, List.getElem?_eq_getElem h2,
      List.getD_eq_getElem _ _ hi] at h1
    have h3 := (List.Nodup.getElem_inj_iff hnd).mp (Option.some.inj h1)
    exact hav k hk h3
  · intro res aa' h j hj
    have hpos : i * addrs.length + j < (targetList aa targets).length * addrs.length := by
      have h1 : (i + 1) * addrs.length ≤ (targetList aa targets).length * addrs.length :=
        Nat.mul_le_mul_right _ hi
      have h2 : (i + 1) * addrs.length = i * addrs.length + addrs.length := by ring
      omega
    rw [ReadRegsPipelined_eq] at h
    split_ifs at h with h1 h2
    · simp only [Option.some.injEq, Prod.mk.injEq] at h
      rw [← h.1, readStub, Nat.mul_comm]
      simp [hpos]
    · exfalso
      obtain ⟨hl, hm⟩ := hinv.2.2 h2.2.1 h2.2.2
      exact hav i (by omega) (hm i hi)
    · obtain ⟨_, p2, _, _⟩ := projectAsics_spec clock addrs.length _ _ _ hinv.2.1 _ 0 _ _ res aa'
        (Nat.zero_add _) h
      rw [p2]
      · simp [hpos]
      · intro k' r _ hk' hr
        rw [Nat.zero_add] at hk'
        rcases Nat.lt_or_gt_of_ne (hav k' hk') with hlt | hgt
        · exact (group_index_ne _ _ _ r j hlt hr).symm
        · exact group_index_ne _ _ _ j r hgt hj

/-- Witness of `ReadRegsPipelined_skipped`: chip 2 of the scenario board, at
position 2 of the caller's list `[0, 1, 2, 3]`, is flagged faulty and cannot be
re-admitted. -/
theorem ReadRegsPipelined_skipped_witness :
    (∀ k, k < (filterFinal scenarioClock scenarioBoard (some [0, 1, 2, 3])).newTargets.length →
      (filterFinal scenarioClock scenarioBoard (some [0, 1, 2, 3])).newTargetIndexMap k ≠ 2) ∧
    ((targetList scenarioBoard (some [0, 1, 2, 3])).Nodup →
      (targetList scenarioBoard (some [0, 1, 2, 3])).getD 2 0 ∉
        (filterFinal scenarioClock scenarioBoard (some [0, 1, 2, 3])).newTargets) ∧
    (∀ res aa', ReadRegsPipelined scenarioClock scenarioTransport scenarioBoard
        (some [0, 1, 2, 3]) [0x1e] = some (res, aa') →
      ∀ j, j < [0x1e].length → res[2 * [0x1e].length + j]? = some (-1)) ∧
    ((scenarioTransport (filterFinal scenarioClock scenarioBoard (some [0, 1, 2, 3])).newTargets
          [0x1e]).2.length =
        (filterFinal scenarioClock scenarioBoard (some [0, 1, 2, 3])).newTargets.length *
          [0x1e].length →
      (scenarioBoard.faultyAsicsTrack.isSome = true ∨
        ∀ d ∈ (scenarioTransport
          (filterFinal scenarioClock scenarioBoard (some [0, 1, 2, 3])).newTargets [0x1e]).2,
            d ≠ -1) →
      ∃ r, ReadRegsPipelined scenarioClock scenarioTransport scenarioBoard
        (some [0, 1, 2, 3]) [0x1e] = some r) :=
  ReadRegsPipelined_skipped scenarioClock scenarioTransport scenarioBoard (some [0, 1, 2, 3])
    [0x1e] 2 (by decide) (Or.inl (by decide))

/-- C6 (re-projection of responses).  Whenever `ReadRegsPipelined` returns,
for every position `k` of the submitted list and every address index `j`:
position `k` comes from index `newTargetIndexMap k` of the original (caller's
or full) target list, which holds the same chip, distinct positions come from
distinct increasing indices, and the result entry at `(that index) ·
len(addrs) + j` equals the transport's data entry `k · len(addrs) + j` for
that chip and `addrs[j]`.  The call does return when the transport returns
one slot per submitted pair and the tracker map is allocated or no returned
slot is -1. -/
theorem ReadRegsPipelined_submitted (clock : Nat → Int)
    (nonBlockingRead : List Nat → List Nat → Int × List Int) (aa : AuraAsic)
    (targets : Option (List Nat)) (addrs : List Nat) :
    (∀ res aa', ReadRegsPipelined clock nonBlockingRead aa targets addrs = some (res, aa') →
      ∀ k, k < (filterFinal clock aa targets).newTargets.length → ∀ j, j < addrs.length →
        (filterFinal clock aa targets).newTargetIndexMap k < (targetList aa targets).length ∧
        (targetList aa targets)[(filterFinal clock aa targets).newTargetIndexMap k]? =
          (filterFinal clock aa targets).newTargets[k]? ∧
        (∀ k1, k1 < k → (filterFinal clock aa targets).newTargetIndexMap k1 <
          (filterFinal clock aa targets).newTargetIndexMap k) ∧
        ∀ d, (nonBlockingRead (filterFinal clock aa targets).newTargets addrs).2[
            k * addrs.length + j]? = some d →
          res[(filterFinal clock aa targets).newTargetIndexMap k * addrs.length + j]? = some d) ∧
    ((nonBlockingRead (filterFinal clock aa targets).newTargets addrs).2.length =
        (filterFinal clock aa targets).newTargets.length * addrs.length →
      (aa.faultyAsicsTrack.isSome = true ∨
        ∀ d ∈ (nonBlockingRead (filterFinal clock aa targets).newTargets addrs).2, d ≠ -1) →
      ∃ r, ReadRegsPipelined clock nonBlockingRead aa targets addrs = some r) := by
  have hinv := FilterInv_final clock aa targets
  refine ⟨?_, ReadRegsPipelined_returns clock nonBlockingRead aa targets addrs⟩
  intro res aa' h k hk j hj
  refine ⟨(hinv.1 k hk).1, (hinv.1 k hk).2, fun k1 hk1 => hinv.2.1 k1 k hk1 hk, ?_⟩
  intro d hd
  rw [ReadRegsPipelined_eq] at h
  split_ifs at h with h1 h2
  · omega
  · simp only [Option.some.injEq, Prod.mk.injEq] at h
    obtain ⟨hl, hm⟩ := hinv.2.2 h2.2.1 h2.2.2
    rw [← h.1, hm k (by omega)]
    exact hd
  · obtain ⟨_, _, p3, _⟩ := projectAsics_spec clock addrs.length _ _ _ hinv.2.1 _ 0 _ _ res aa'
      (Nat.zero_add _) h
    obtain ⟨d', e1, e2⟩ := p3 k j (Nat.zero_le _) (by omega) hj
    rw [hd] at e1
    rw [e2, ← e1]

/-- Witness of `ReadRegsPipelined_submitted`: in scenario 2 of the
specification the call returns, and chip 3, at position 2 of the submitted
list `[0, 1, 3]`, comes from index 3 of the caller's list, where the result
holds the transport's entry for it. -/
theorem ReadRegsPipelined_submitted_witness :
    (filterFinal scenarioClock scenarioBoard (some [0, 1, 2, 3])).newTargets = [0, 1, 3] ∧
    (filterFinal scenarioClock scenarioBoard (some [0, 1, 2, 3])).newTargetIndexMap 2 = 3 ∧
    ∃ r, ReadRegsPipelined scenarioClock scenarioTransport scenarioBoard
      (some [0, 1, 2, 3]) [0x1e] = some r :=
  ⟨by decide, by decide,
    (ReadRegsPipelined_submitted scenarioClock scenarioTransport scenarioBoard
      (some [0, 1, 2, 3]) [0x1e]).2 (by decide) (Or.inl (by decide))⟩

end asic

namespace asic

theorem failedTargets_of_no_failure (alen : Nat) (retData : List Int)
    (h : ∀ d ∈ retData, d ≠ -1) (nt : List Nat) (k : Nat) :
    failedTargets alen retData nt k = [] := by
  induction nt generalizing k with
  | nil => rfl
  | cons t nt ih =>
    simp [failedTargets, slotFailed_of_no_failure retData h, ih]

/-- Witness of `ReadRegsPipelined_length`: scenario 2 of the specification,
targets `[0, 1, 2, 3]` and one address. -/
theorem ReadRegsPipelined_length_witness :
    (∀ res aa', ReadRegsPipelined scenarioClock scenarioTransport scenarioBoard
        (some [0, 1, 2, 3]) [0x1e] = some (res, aa') →
      res.length = (targetList scenarioBoard (some [0, 1, 2, 3])).length * [0x1e].length) ∧
    ((scenarioBoard.faultyAsicsTrack.isSome = true ∨
        ∀ d ∈ (scenarioTransport
          (filterFinal scenarioClock scenarioBoard (some [0, 1, 2, 3])).newTargets [0x1e]).2,
            d ≠ -1) →
      ∃ r, ReadRegsPipelined scenarioClock scenarioTransport scenarioBoard
        (some [0, 1, 2, 3]) [0x1e] = some r) :=
  ReadRegsPipelined_length scenarioClock scenarioTransport scenarioBoard (some [0, 1, 2, 3])
    [0x1e] (by decide)

end asic

/-! ## Theorems: DVFS target adaptation -/

namespace asic

/-- C11, counterexample.  Two calls of `reduceTargetTHS` in a row (power still
over the limit at the next per-second check, `curTargetTHS` unchanged at 100):
the first call brings `targetTHS` from 100 to 90, the second call leaves it at
90, which is not strictly less than before. -/
theorem reduceTargetTHS_counterexample :
    (reduceTargetTHS scenarioDvfs 3 true).targetTHS = 90 ∧
    ¬ ((reduceTargetTHS (reduceTargetTHS scenarioDvfs 3 true) 3 true).targetTHS <
      (reduceTargetTHS scenarioDvfs 3 true).targetTHS) := by
  have h1 : reduceTargetTHS scenarioDvfs 3 true =
      { scenarioDvfs with nBouncingBack := 1, targetReducing := true, targetTHS := 90 } := by
    simp [reduceTargetTHS, scenarioDvfs, goInt, backOffPctBigStep, devhdr.GetTotalChainCount]
    norm_num
  have h2 : (reduceTargetTHS (reduceTargetTHS scenarioDvfs 3 true) 3 true).targetTHS = 90 := by
    rw [h1]
    simp [reduceTargetTHS, scenarioDvfs, goInt, backOffPctBigStep, devhdr.GetTotalChainCount]
    norm_num
  rw [h2, h1]
  simp

theorem goInt_of_small (x : Int) (h1 : -(2 ^ 63) ≤ x) (h2 : x < 2 ^ 63) : goInt x = x := by
  unfold goInt
  omega

theorem ite_lt_eq_max (a b : ℚ) : (if a < b then b else a) = max a b := by
  split_ifs with h
  · exact (max_eq_right (le_of_lt h)).symm
  · exact (max_eq_left (not_lt.mp h)).symm

/-- The value `reduceTargetTHS` leaves in `targetTHS`: the reduced working
target, raised to the floor when it is below it. -/
theorem reduceTargetTHS_targetTHS (g : DvfsGlobals) (num_boards : Int) (bigStep : Bool) :
    (reduceTargetTHS g num_boards bigStep).targetTHS =
      max (g.curTargetTHS * (1 - (reduceTargetTHS g num_boards bigStep).backOffPct))
        (g.MinThsRate * (num_boards : ℚ) / (devhdr.GetTotalChainCount : ℚ)) := by
  unfold reduceTargetTHS
  simp only [ite_lt_eq_max]
  by_cases h0 : g.nBouncingBack = 0
  · simp only [if_pos h0]
  · simp only [if_neg h0]
    by_cases h1 : g.targetReducing = false ∧ g.backOffPct > minPctStep
    · simp only [if_pos h1]
    · simp only [if_neg h1]

/-- C11, amended.  After `reduceTargetTHS`, `targetTHS` is
`curTargetTHS · (1 - backOffPct)` for the back-off in force after the call,
raised to the floor `MinThsRate · num_boards / (total chain count)` when below
it.  It is strictly less than the value `targetTHS` held before the call
whenever that value was at least `curTargetTHS`, `curTargetTHS` is positive and
above the floor, and the call is the first one (`nBouncingBack = 0`) or the
back-off and the bounce counter are positive. -/
theorem reduceTargetTHS_lt (g : DvfsGlobals) (num_boards : Int) (bigStep : Bool)
    (hcur : g.curTargetTHS ≤ g.targetTHS) (hpos : 0 < g.curTargetTHS)
    (hmin : g.MinThsRate * (num_boards : ℚ) / (devhdr.GetTotalChainCount : ℚ) < g.curTargetTHS)
    (hpct : g.nBouncingBack = 0 ∨
      (0 < g.backOffPct ∧ 0 < g.nBouncingBack ∧ g.nBouncingBack < 2 ^ 63 - 1)) :
    (reduceTargetTHS g num_boards bigStep).targetTHS =
        max (g.curTargetTHS * (1 - (reduceTargetTHS g num_boards bigStep).backOffPct))
          (g.MinThsRate * (num_boards : ℚ) / (devhdr.GetTotalChainCount : ℚ)) ∧
      (reduceTargetTHS g num_boards bigStep).targetTHS < g.targetTHS := by
  refine ⟨reduceTargetTHS_targetTHS g num_boards bigStep, ?_⟩
  have hb : 0 < (reduceTargetTHS g num_boards bigStep).backOffPct := by
    unfold reduceTargetTHS
    simp only []
    by_cases h0 : g.nBouncingBack = 0
    · rw [if_pos h0]
      cases bigStep <;> simp [backOffPctBigStep, backOffPctSmallStep] <;> norm_num
    · rw [if_neg h0]
      rcases hpct with h | ⟨hb, hn, hn2⟩
      · exact absurd h h0
      · by_cases h1 : g.targetReducing = false ∧ g.backOffPct > minPctStep
        · rw [if_pos h1]
          simp only []
          rw [goInt_of_small _ (by omega) (by omega)]
          have hn1 : (0 : ℚ) < (g.nBouncingBack : ℚ) := by exact_mod_cast hn
          have hn3 : (0 : ℚ) < ((g.nBouncingBack + 1 : Int) : ℚ) := by
            have : (0 : Int) < g.nBouncingBack + 1 := by omega
            exact_mod_cast this
          exact mul_pos hb (div_pos hn1 hn3)
        · rw [if_neg h1]
          exact hb
  rw [reduceTargetTHS_targetTHS]
  apply lt_of_lt_of_le _ hcur
  apply max_lt _ hmin
  nlinarith

/-- Witness of `reduceTargetTHS_lt`: the first reduction from target 100 on a
three-board miner. -/
theorem reduceTargetTHS_lt_witness :
    (reduceTargetTHS scenarioDvfs 3 true).targetTHS =
        max (scenarioDvfs.curTargetTHS * (1 - (reduceTargetTHS scenarioDvfs 3 true).backOffPct))
          (scenarioDvfs.MinThsRate * ((3 : Int) : ℚ) / (devhdr.GetTotalChainCount : ℚ)) ∧
      (reduceTargetTHS scenarioDvfs 3 true).targetTHS < scenarioDvfs.targetTHS :=
  reduceTargetTHS_lt scenarioDvfs 3 true (by simp [scenarioDvfs]) (by simp [scenarioDvfs])
    (by simp [scenarioDvfs, devhdr.GetTotalChainCount]; norm_num) (Or.inl rfl)

/-- C12 (floor of the reduced target).  For every DVFS state and both values
of `bigStep`, after `reduceTargetTHS` the value of `targetTHS` is at least
`MinThsRate · num_boards / (total chain count)`. -/
theorem reduceTargetTHS_ge_floor (g : DvfsGlobals) (num_boards : Int) (bigStep : Bool) :
    g.MinThsRate * (num_boards : ℚ) / (devhdr.GetTotalChainCount : ℚ) ≤
      (reduceTargetTHS g num_boards bigStep).targetTHS := by
  rw [reduceTargetTHS_targetTHS]
  exact le_max_right _ _

theorem monitorPowerTargetApply_spec (g0 g : DvfsGlobals) (ratio : ℚ)
    (h1 : g.orgTargetTHS = g0.orgTargetTHS) (h2 : g.targetTHS = g0.targetTHS) :
    (monitorPowerTargetApply g ratio).2.orgTargetTHS = g0.orgTargetTHS ∧
    ((monitorPowerTargetApply g ratio).1 = true →
      (monitorPowerTargetApply g ratio).2.targetTHS ≤ g0.orgTargetTHS) ∧
    ((monitorPowerTargetApply g ratio).1 = false →
      (monitorPowerTargetApply g ratio).2.targetTHS = g0.targetTHS) := by
  unfold monitorPowerTargetApply
  simp only []
  by_cases hc : (if g.targetTHS * ratio ≥ g.orgTargetTHS then g.orgTargetTHS
      else g.targetTHS * ratio) / g.targetTHS < 1.01
  · rw [if_pos hc]
    exact ⟨h1, by simp, fun _ => h2⟩
  · rw [if_neg hc]
    refine ⟨h1, fun _ => ?_, by simp⟩
    show (if g.targetTHS * ratio ≥ g.orgTargetTHS then g.orgTargetTHS
      else g.targetTHS * ratio) ≤ g0.orgTargetTHS
    rw [← h1]
    split_ifs with h
    · exact le_refl _
    · exact le_of_lt (not_le.mp h)

theorem monitorPowerTargetRatio_spec (g : DvfsGlobals) (hashpct pwrpct suggestedStep : ℚ) :
    (monitorPowerTargetRatio g hashpct pwrpct suggestedStep).2.orgTargetTHS = g.orgTargetTHS ∧
    ((monitorPowerTargetRatio g hashpct pwrpct suggestedStep).1 = true →
      (monitorPowerTargetRatio g hashpct pwrpct suggestedStep).2.targetTHS ≤ g.orgTargetTHS) ∧
    ((monitorPowerTargetRatio g hashpct pwrpct suggestedStep).1 = false →
      (monitorPowerTargetRatio g hashpct pwrpct suggestedStep).2.targetTHS = g.targetTHS) := by
  unfold monitorPowerTargetRatio
  by_cases hs : suggestedStep ≥ minPctStep
  · rw [if_pos hs]
    exact monitorPowerTargetApply_spec g _ _ rfl rfl
  · rw [if_neg hs]
    by_cases hn : g.nBouncingBack ≥ 5 ∨ g.backOffPct ≤ minPctStep
    · rw [if_pos hn]
      simp
    · rw [if_neg hn]
      apply monitorPowerTargetApply_spec g
      · split_ifs <;> rfl
      · split_ifs <;> rfl

/-- C13 (expansion cap).  For every DVFS state and all arguments,
`monitorPowerTarget` leaves `orgTargetTHS` as it is; when it returns true it
has assigned `targetTHS` a value that is at most `orgTargetTHS`, and when it
returns false it has not assigned `targetTHS`.  In particular, if
`targetTHS <= orgTargetTHS` before the call, then also after it. -/
theorem monitorPowerTarget_le_org (g : DvfsGlobals) (voltage max_voltage avgHashRate : ℚ)
    (sinceTuneDone : Int) :
    (monitorPowerTarget g voltage max_voltage avgHashRate sinceTuneDone).2.orgTargetTHS =
      g.orgTargetTHS ∧
    ((monitorPowerTarget g voltage max_voltage avgHashRate sinceTuneDone).1 = true →
      (monitorPowerTarget g voltage max_voltage avgHashRate sinceTuneDone).2.targetTHS ≤
        g.orgTargetTHS) ∧
    ((monitorPowerTarget g voltage max_voltage avgHashRate sinceTuneDone).1 = false →
      (monitorPowerTarget g voltage max_voltage avgHashRate sinceTuneDone).2.targetTHS =
        g.targetTHS) ∧
    (g.targetTHS ≤ g.orgTargetTHS →
      (monitorPowerTarget g voltage max_voltage avgHashRate sinceTuneDone).2.targetTHS ≤
        (monitorPowerTarget g voltage max_voltage avgHashRate sinceTuneDone).2.orgTargetTHS) := by
  have key : (monitorPowerTarget g voltage max_voltage avgHashRate sinceTuneDone).2.orgTargetTHS =
      g.orgTargetTHS ∧
    ((monitorPowerTarget g voltage max_voltage avgHashRate sinceTuneDone).1 = true →
      (monitorPowerTarget g voltage max_voltage avgHashRate sinceTuneDone).2.targetTHS ≤
        g.orgTargetTHS) ∧
    ((monitorPowerTarget g voltage max_voltage avgHashRate sinceTuneDone).1 = false →
      (monitorPowerTarget g voltage max_voltage avgHashRate sinceTuneDone).2.targetTHS =
        g.targetTHS) := by
    unfold monitorPowerTarget
    simp only []
    split_ifs <;> first
      | exact monitorPowerTargetRatio_spec _ _ _ _
      | simp
  obtain ⟨k1, k2, k3⟩ := key
  refine ⟨k1, k2, k3, ?_⟩
  intro h
  rw [k1]
  cases hb : (monitorPowerTarget g voltage max_voltage avgHashRate sinceTuneDone).1 with
  | true => exact k2 hb
  | false => rw [k3 hb]; exact h

end asic

/-! ## Theorems: byte-loss recovery and response queues -/

namespace asicio

set_option maxRecDepth 100000 in
/-- C15, counterexample.  The frame of chip 2 answering a READ of register
`0x1e` with data 7 is accepted intact, but the 15-byte fragment without its
command byte is rejected: its byte 4 (the id) equals `CMD_READ`, so the
recovery of the command byte is not tried. -/
theorem checkCfgRespRaw_cmd_loss_counterexample :
    checkCfgRespRaw [0x54, 0x76, 0xc0, 0xda, 2, 2, 0, 0x1e, 7, 0, 0, 0, 91, 2, 235, 195] =
      .ok ⟨0xdac07654, 2, 2, 0, 0x1e, 7, 0xc3eb025b⟩ ∧
    checkCfgRespRaw
      (List.eraseIdx [0x54, 0x76, 0xc0, 0xda, 2, 2, 0, 0x1e, 7, 0, 0, 0, 91, 2, 235, 195] 5) =
      .error "partial unpacked" := by
  constructor <;> rfl

/-- C15, amended.  For every 16-byte config response frame with correct CRC
whose command byte is READ (2), whose spare byte is 0 and whose id byte is not
2, `checkCfgRespRaw` applied to the 15-byte fragment obtained by deleting
byte 5 (the command byte) succeeds and returns the same response as for the
intact frame. -/
theorem checkCfgRespRaw_recovers_cmd (v : List Nat) (hlen : v.length = 16)
    (hcrc : binary.uint32 (v.drop 12) = crc32.Checksum (v.take 12) ^^^ 0xFFFFFFFF)
    (hcmd : v.getD 5 0 = CMD_READ) (hspare : v.getD 6 0 = 0) (hid : v.getD 4 0 ≠ CMD_READ) :
    checkCfgRespRaw (v.eraseIdx 5) = checkCfgRespRaw v ∧
    checkCfgRespRaw v =
      .ok { Response_unique := binary.uint32 (v.take 4), Id := v.getD 4 0,
            Command := v.getD 5 0, Spare := v.getD 6 0, Address := v.getD 7 0,
            Data := binary.uint32 ((v.drop 8).take 4), Crc := binary.uint32 (v.drop 12) } := by
  constructor
  · match v, hlen with
    | [w0, w1, w2, w3, w4, w5, w6, w7, w8, w9, w10, w11, w12, w13, w14, w15], _ =>
      simp only [List.getD_cons_succ, List.getD_cons_zero] at hcmd hspare hid
      subst hcmd hspare
      have hr : recoverByteLoss
          (List.eraseIdx [w0, w1, w2, w3, w4, CMD_READ, 0, w7, w8, w9, w10, w11, w12, w13, w14,
            w15] 5) =
          .ok ([w0, w1, w2, w3, w4, CMD_READ, 0, w7, w8, w9, w10, w11, w12, w13, w14, w15], 5) := by
        simp [recoverByteLoss, RSP_LEN_CFG, hid]
      have hr0 : recoverByteLoss
          [w0, w1, w2, w3, w4, CMD_READ, 0, w7, w8, w9, w10, w11, w12, w13, w14, w15] =
          .ok ([w0, w1, w2, w3, w4, CMD_READ, 0, w7, w8, w9, w10, w11, w12, w13, w14, w15], 0) := by
        simp [recoverByteLoss, RSP_LEN_CFG]
      simp only [checkCfgRespRaw, hr, hr0]
  · rw [checkCfgRespRaw_of_length_16 v hlen, if_neg (by simpa using hcrc)]

set_option maxRecDepth 100000 in
/-- Witness of `checkCfgRespRaw_recovers_cmd`: the frame of chip 5 answering a
READ of register `0x1e` with data 7. -/
theorem checkCfgRespRaw_recovers_cmd_witness :
    checkCfgRespRaw
      (List.eraseIdx [0x54, 0x76, 0xc0, 0xda, 5, 2, 0, 0x1e, 7, 0, 0, 0, 66, 11, 46, 201] 5) =
      checkCfgRespRaw [0x54, 0x76, 0xc0, 0xda, 5, 2, 0, 0x1e, 7, 0, 0, 0, 66, 11, 46, 201] ∧
    checkCfgRespRaw [0x54, 0x76, 0xc0, 0xda, 5, 2, 0, 0x1e, 7, 0, 0, 0, 66, 11, 46, 201] =
      .ok { Response_unique :=
              binary.uint32 (List.take 4
                [0x54, 0x76, 0xc0, 0xda, 5, 2, 0, 0x1e, 7, 0, 0, 0, 66, 11, 46, 201]),
            Id := List.getD [0x54, 0x76, 0xc0, 0xda, 5, 2, 0, 0x1e, 7, 0, 0, 0, 66, 11, 46, 201] 4 0,
            Command :=
              List.getD [0x54, 0x76, 0xc0, 0xda, 5, 2, 0, 0x1e, 7, 0, 0, 0, 66, 11, 46, 201] 5 0,
            Spare :=
              List.getD [0x54, 0x76, 0xc0, 0xda, 5, 2, 0, 0x1e, 7, 0, 0, 0, 66, 11, 46, 201] 6 0,
            Address :=
              List.getD [0x54, 0x76, 0xc0, 0xda, 5, 2, 0, 0x1e, 7, 0, 0, 0, 66, 11, 46, 201] 7 0,
            Data := binary.uint32 (List.take 4 (List.drop 8
              [0x54, 0x76, 0xc0, 0xda, 5, 2, 0, 0x1e, 7, 0, 0, 0, 66, 11, 46, 201])),
            Crc := binary.uint32 (List.drop 12
              [0x54, 0x76, 0xc0, 0xda, 5, 2, 0, 0x1e, 7, 0, 0, 0, 66, 11, 46, 201]) } :=
  checkCfgRespRaw_recovers_cmd
    [0x54, 0x76, 0xc0, 0xda, 5, 2, 0, 0x1e, 7, 0, 0, 0, 66, 11, 46, 201]
    (by decide) (by decide) (by decide) (by decide) (by decide)

/-- C16 (sequence-0 filter).  For every 92-byte hit frame, `putHitRawResult`
returns normally; it leaves the hit queue (and everything else) unchanged when
the frame's sequence byte (offset 7) is 0, whatever the rest of the frame and
its crc field are, and otherwise appends the frame at the back of the hit
queue. -/
theorem putHitRawResult_spec (aa : AuraAsicIO) (v : List Nat) (hlen : v.length = 92) :
    (v.getD 7 0 = 0 → putHitRawResult aa v = some aa) ∧
    (v.getD 7 0 ≠ 0 → putHitRawResult aa v = some { aa with qHit := aa.qHit ++ [v] }) := by
  have h7 : v[7]? = some (v.getD 7 0) := by
    rw [List.getD_eq_getElem?_getD, List.getElem?_eq_getElem (by omega)]
    rfl
  constructor
  · intro h
    unfold putHitRawResult
    rw [h7]
    exact if_pos h
  · intro h
    unfold putHitRawResult
    rw [h7]
    exact if_neg h

/-- Witness of `putHitRawResult_spec`: an all-zero 92-byte frame (sequence 0)
on a queue that holds one frame. -/
theorem putHitRawResult_spec_witness :
    (List.getD (List.replicate 92 0) 7 0 = 0 →
      putHitRawResult
        { NewAsicIOInit (fun _ => ⟨0, 0, 0, 0, false, [], 0, [], [], [], 0, false, false, false⟩)
          with qHit := [List.replicate 92 1] } (List.replicate 92 0) =
        some { NewAsicIOInit
          (fun _ => ⟨0, 0, 0, 0, false, [], 0, [], [], [], 0, false, false, false⟩)
          with qHit := [List.replicate 92 1] }) ∧
    (List.getD (List.replicate 92 0) 7 0 ≠ 0 →
      putHitRawResult
        { NewAsicIOInit (fun _ => ⟨0, 0, 0, 0, false, [], 0, [], [], [], 0, false, false, false⟩)
          with qHit := [List.replicate 92 1] } (List.replicate 92 0) =
        some { { NewAsicIOInit
          (fun _ => ⟨0, 0, 0, 0, false, [], 0, [], [], [], 0, false, false, false⟩)
          with qHit := [List.replicate 92 1] } with
            qHit := [List.replicate 92 1] ++ [List.replicate 92 0] }) :=
  putHitRawResult_spec _ (List.replicate 92 0) (by simp)

/-- What `getCfgResp` returns for a queued response that passes the CRC check:
the data unless the id differs, or both the command and the address differ. -/
theorem getCfgResp_of_valid (asicRead : AuraAsicIO → AuraAsicIO) (aa : AuraAsicIO)
    (v : List Nat) (rest : List (List Nat)) (resp : responseCfgType) (id cmd addr : Nat)
    (hq : aa.qResp = v :: rest) (hv : checkCfgRespRaw v = .ok resp) :
    (getCfgResp asicRead aa id cmd addr).1 =
      if resp.Id ≠ id ∨ (resp.Command ≠ cmd ∧ resp.Address ≠ addr) then
        .error "unmatched result"
      else .ok resp.Data := by
  simp only [getCfgResp, CheckCfgResp, hq, Fifo.Pop, hv]
  split_ifs <;> rfl

set_option maxRecDepth 100000 in
/-- C20, the code at the failing input.  A READ of register `0x1e` on chip 5
is requested; the queue holds the CRC-valid response of chip 5 to a READ of
register `0x1f` (data 7).  `getCfgResp` returns 7 instead of the error
"unmatched result". -/
theorem getCfgResp_address_mismatch :
    (getCfgResp (fun aa => aa)
      { NewAsicIOInit (fun _ => ⟨0, 0, 0, 0, false, [], 0, [], [], [], 0, false, false, false⟩)
        with qResp := [[0x54, 0x76, 0xc0, 0xda, 5, 2, 0, 0x1f, 7, 0, 0, 0, 242, 34, 78, 244]] }
      5 2 0x1e).1 = .ok 7 := by
  rfl

end asicio

/-! ## Theorems: chip discovery -/

namespace asic

set_option maxRecDepth 100000 in
/-- The expected chip id of table index `ii` on a default board: the index
itself up to 65, and `ii + 62` (ids 128 to 193) from 66 on. -/
theorem expectedId_default : ∀ ii : Nat, ii < 132 →
    toUint8 (ChipIndexToId (toUint8 (ii : Int)) devhdr.DefaultHbAsicIdConfig) =
      if ii ≤ 65 then ii else ii + 62 := by
  decide

/-- The collection loop keeps every reply that passes its test, in order of
arrival. -/
theorem foldl_collectChip (results : List asicio.responseCfgType)
    (hres : ∀ r ∈ results, r.Data = chipUnique ∧ r.Address = ADDR_CHIP_UNIQUE ∧ r.Id ≤ 255) :
    ∀ acc : List Int,
      results.foldl (collectChip 255 []) acc = acc ++ results.map (fun r => (r.Id : Int)) := by
  induction results with
  | nil => intro acc; simp
  | cons r rest ih =>
    intro acc
    obtain ⟨h1, h2, h3⟩ := hres r (List.mem_cons_self _ _)
    have hstep : collectChip 255 [] acc r = acc ++ [(r.Id : Int)] := by
      unfold collectChip
      have h3' : (r.Id : Int) ≤ 255 := by exact_mod_cast h3
      simp [h1, h2, h3']
    rw [List.foldl_cons, hstep, ih (fun x hx => hres x (List.mem_cons_of_mem _ hx))]
    simp

/-- On an ascending list of ids below 256, the duplicate-removal loop gives a
strictly ascending list with the same members. -/
theorem dedupChips_spec :
    ∀ (l : List Int) (keys : Int → Bool) (acc : List Nat),
      l.Sorted (fun a b => a ≤ b) → (∀ x ∈ l, 0 ≤ x ∧ x < 256) →
      (∀ x : Int, 0 ≤ x → (keys x = true ↔ x.toNat ∈ acc)) →
      acc.Pairwise (fun a b => a < b) → (∀ a ∈ acc, ∀ x ∈ l, (a : Int) ≤ x) →
      (dedupChips l keys acc).Pairwise (fun a b => a < b) ∧
      ∀ y, y ∈ dedupChips l keys acc ↔ y ∈ acc ∨ ∃ x ∈ l, x.toNat = y := by
  intro l
  induction l with
  | nil =>
    intro keys acc _ _ _ hp _
    simp [dedupChips, hp]
  | cons entry rest ih =>
    intro keys acc hs hr hk hp hle
    have hs2 : rest.Sorted (fun a b => a ≤ b) := hs.of_cons
    have hhead : ∀ x ∈ rest, entry ≤ x := fun x hx => List.rel_of_sorted_cons hs x hx
    obtain ⟨e0, e1⟩ := hr entry (List.mem_cons_self _ _)
    have hr2 : ∀ x ∈ rest, 0 ≤ x ∧ x < 256 := fun x hx => hr x (List.mem_cons_of_mem _ hx)
    simp only [dedupChips]
    by_cases hkey : keys entry = true
    · rw [if_pos hkey]
      obtain ⟨r1, r2⟩ := ih keys acc hs2 hr2 hk hp
        (fun a ha x hx => hle a ha x (List.mem_cons_of_mem _ hx))
      refine ⟨r1, fun y => ?_⟩
      rw [r2 y]
      constructor
      · rintro (h | ⟨x, hx, hxy⟩)
        · exact Or.inl h
        · exact Or.inr ⟨x, List.mem_cons_of_mem _ hx, hxy⟩
      · rintro (h | ⟨x, hx, hxy⟩)
        · exact Or.inl h
        · rcases List.mem_cons.mp hx with rfl | hx
          · exact Or.inl (hxy ▸ (hk _ e0).mp hkey)
          · exact Or.inr ⟨x, hx, hxy⟩
    · rw [if_neg hkey]
      have hnot : entry.toNat ∉ acc := fun h => hkey ((hk _ e0).mpr h)
      have hu8 : toUint8 entry = entry.toNat := by
        unfold toUint8
        rw [Int.emod_eq_of_lt e0 e1]
      rw [hu8]
      have hlt : ∀ a ∈ acc, a < entry.toNat := by
        intro a ha
        have h1 := hle a ha entry (List.mem_cons_self _ _)
        have h2 : a ≠ entry.toNat := fun h => hnot (h ▸ ha)
        omega
      obtain ⟨r1, r2⟩ := ih (Function.update keys entry true) (acc ++ [entry.toNat]) hs2 hr2
        (by
          intro x hx
          by_cases hxe : x = entry
          · subst hxe
            simp
          · rw [Function.update_noteq hxe, hk x hx]
            have : x.toNat ≠ entry.toNat := by omega
            simp [this])
        (by
          rw [List.pairwise_append]
          refine ⟨hp, List.pairwise_singleton _ _, ?_⟩
          intro a ha b hb
          rw [List.mem_singleton] at hb
          subst hb
          exact hlt a ha)
        (by
          intro a ha x hx
          rcases List.mem_append.mp ha with ha | ha
          · exact hle a ha x (List.mem_cons_of_mem _ hx)
          · rw [List.mem_singleton] at ha
            subst ha
            have := hhead x hx
            omega)
      refine ⟨r1, fun y => ?_⟩
      rw [r2 y]
      constructor
      · rintro (h | ⟨x, hx, hxy⟩)
        · rcases List.mem_append.mp h with h | h
          · exact Or.inl h
          · rw [List.mem_singleton] at h
            exact Or.inr ⟨entry, List.mem_cons_self _ _, h.symm⟩
        · exact Or.inr ⟨x, List.mem_cons_of_mem _ hx, hxy⟩
      · rintro (h | ⟨x, hx, hxy⟩)
        · exact Or.inl (List.mem_append_left _ h)
        · rcases List.mem_cons.mp hx with rfl | hx
          · exact Or.inl (List.mem_append_right _ (List.mem_singleton.mpr hxy.symm))
          · exact Or.inr ⟨x, hx, hxy⟩

/-- The table loop on a strictly ascending list `chips2` of expected ids (of a
default board): from index `ii` on, entry `k` holds the expected id of `k` and
is marked not found exactly when that id is not in `chips2`.  The cursor `jj`
has passed the ids below the expected id of `ii` and no others. -/
theorem buildChipTable_spec (chips2 : List Nat) (hp : chips2.Pairwise (fun a b => a < b))
    (hexp : ∀ x ∈ chips2, x ≤ 65 ∨ (128 ≤ x ∧ x ≤ 193)) :
    ∀ (n ii jj : Nat) (seq : List Nat) (arr : List ChipEntry),
      ii + n = 132 → arr.length = ii → seq.length = 132 →
      (∀ j, j < jj → j < chips2.length → chips2.getD j 0 < if ii ≤ 65 then ii else ii + 62) →
      (∀ j, jj ≤ j → j < chips2.length → (if ii ≤ 65 then ii else ii + 62) ≤ chips2.getD j 0) →
      (buildChipTable devhdr.DefaultHbAsicIdConfig chips2 n ii jj (seq, arr)).2.length = 132 ∧
      (buildChipTable devhdr.DefaultHbAsicIdConfig chips2 n ii jj (seq, arr)).1.length = 132 ∧
      (∀ k, k < ii →
        (buildChipTable devhdr.DefaultHbAsicIdConfig chips2 n ii jj (seq, arr)).2[k]? = arr[k]? ∧
        (buildChipTable devhdr.DefaultHbAsicIdConfig chips2 n ii jj (seq, arr)).1[k]? = seq[k]?) ∧
      (∀ k, ii ≤ k → k < 132 → ∃ e,
        (buildChipTable devhdr.DefaultHbAsicIdConfig chips2 n ii jj (seq, arr)).2[k]? = some e ∧
        (buildChipTable devhdr.DefaultHbAsicIdConfig chips2 n ii jj (seq, arr)).1[k]? =
          some e.ChipId ∧
        e.ChipId = (if k ≤ 65 then k else k + 62) ∧
        (e.NotFound = true ↔ (if k ≤ 65 then k else k + 62) ∉ chips2)) := by
  have hmono : ∀ j1 j2, j1 < j2 → j2 < chips2.length →
      chips2.getD j1 0 < chips2.getD j2 0 := by
    intro j1 j2 h12 h2
    rw [List.getD_eq_getElem _ _ h2, List.getD_eq_getElem _ _ (lt_trans h12 h2)]
    exact List.pairwise_iff_getElem.mp hp j1 j2 (lt_trans h12 h2) h2 h12
  have himg : ∀ j, j < chips2.length →
      chips2.getD j 0 ≤ 65 ∨ (128 ≤ chips2.getD j 0 ∧ chips2.getD j 0 ≤ 193) := by
    intro j hj
    rw [List.getD_eq_getElem _ _ hj]
    exact hexp _ (List.getElem_mem _)
  have hmem : ∀ x, x ∈ chips2 ↔ ∃ j, j < chips2.length ∧ chips2.getD j 0 = x := by
    intro x
    constructor
    · intro hx
      obtain ⟨j, hj, hjx⟩ := List.getElem_of_mem hx
      exact ⟨j, hj, by rw [List.getD_eq_getElem _ _ hj]; exact hjx⟩
    · rintro ⟨j, hj, hjx⟩
      rw [List.getD_eq_getElem _ _ hj] at hjx
      exact hjx ▸ List.getElem_mem _
  intro n
  induction n with
  | zero =>
    intro ii jj seq arr hn harr hseq _ _
    have h132 : arr.length = 132 := by omega
    refine ⟨by simpa [buildChipTable] using h132, by simpa [buildChipTable] using hseq,
      fun k _ => by simp [buildChipTable], fun k h1 h2 => by omega⟩
  | succ n ih =>
    intro ii jj seq arr hn harr hseq hA hB
    have hii : ii < 132 := by omega
    simp only [buildChipTable, expectedId_default ii hii]
    have hset : ∀ v : Nat, (seq.set ii v)[ii]? = some v := by
      intro v
      simp [List.getElem?_set, hseq, hii]
    have happ : ∀ e : ChipEntry, (arr ++ [e])[ii]? = some e := by
      intro e
      rw [List.getElem?_append_right (by omega)]
      simp [harr]
    by_cases hc : jj < chips2.length ∧
        (if ii ≤ 65 then ii else ii + 62) = chips2.getD jj 0
    · rw [if_pos hc]
      obtain ⟨r1, r2, r3, r4⟩ := ih (ii + 1) (jj + 1)
        (seq.set ii (if ii ≤ 65 then ii else ii + 62))
        (arr ++ [{ ChipId := if ii ≤ 65 then ii else ii + 62 }])
        (by omega) (by simp [harr]) (by simp [hseq])
        (by
          intro j hj hjl
          by_cases hjj : j = jj
          · subst hjj
            rw [← hc.2]
            split_ifs <;> omega
          · have := hA j (by omega) hjl
            split_ifs at this ⊢ <;> omega)
        (by
          intro j hj hjl
          have h1 := hmono jj j (by omega) hjl
          have h2 := himg j hjl
          rw [← hc.2] at h1
          split_ifs at h1 ⊢ <;> omega)
      refine ⟨r1, r2, ?_, ?_⟩
      · intro k hk
        obtain ⟨a1, a2⟩ := r3 k (by omega)
        rw [a1, a2]
        constructor
        · rw [List.getElem?_append_left (by omega)]
        · simp [List.getElem?_set, show ii ≠ k by omega]
      · intro k hk1 hk2
        by_cases hki : k = ii
        · subst hki
          obtain ⟨a1, a2⟩ := r3 k (by omega)
          rw [a1, a2, happ, hset]
          refine ⟨_, rfl, rfl, rfl, ?_⟩
          constructor
          · intro h
            cases h
          · intro h
            exact absurd ((hmem _).mpr ⟨jj, hc.1, hc.2.symm⟩) h
        · exact r4 k (by omega) hk2
    · rw [if_neg hc]
      have hB2 : ∀ j, jj ≤ j → j < chips2.length →
          (if ii + 1 ≤ 65 then ii + 1 else ii + 1 + 62) ≤ chips2.getD j 0 := by
        intro j hj hjl
        have h2 := himg j hjl
        have h3 := hB j hj hjl
        by_cases hjj : j = jj
        · subst hjj
          have h4 : (if ii ≤ 65 then ii else ii + 62) ≠ chips2.getD j 0 :=
            fun h => hc ⟨hjl, h⟩
          split_ifs at h3 h4 ⊢ <;> omega
        · have h5 := hmono jj j (by omega) hjl
          have h6 := hB jj (le_refl _) (by omega)
          split_ifs at h3 h6 ⊢ <;> omega
      obtain ⟨r1, r2, r3, r4⟩ := ih (ii + 1) jj
        (seq.set ii (if ii ≤ 65 then ii else ii + 62))
        (arr ++ [{ ChipId := if ii ≤ 65 then ii else ii + 62, NotFound := true }])
        (by omega) (by simp [harr]) (by simp [hseq])
        (by
          intro j hj hjl
          have := hA j hj hjl
          split_ifs at this ⊢ <;> omega)
        hB2
      refine ⟨r1, r2, ?_, ?_⟩
      · intro k hk
        obtain ⟨a1, a2⟩ := r3 k (by omega)
        rw [a1, a2]
        constructor
        · rw [List.getElem?_append_left (by omega)]
        · simp [List.getElem?_set, show ii ≠ k by omega]
      · intro k hk1 hk2
        by_cases hki : k = ii
        · subst hki
          obtain ⟨a1, a2⟩ := r3 k (by omega)
          rw [a1, a2, happ, hset]
          refine ⟨_, rfl, rfl, rfl, ?_⟩
          constructor
          · intro _ hin
            obtain ⟨j, hjl, hjx⟩ := (hmem _).mp hin
            by_cases hj : j < jj
            · have := hA j hj hjl
              omega
            · have := hB2 j (by omega) hjl
              split_ifs at this hjx <;> omega
          · intro _
            rfl
        · exact r4 k (by omega) hk2

/-- The table of `AuraAsicInit` when every responder is an expected id of a
default board (0 to 65, 128 to 193): the detected ids are the responders in
ascending order without repetition, the table has 132 entries holding the
expected ids in ascending order, and an entry is marked not found exactly when
its id is not among the responders. -/
theorem AuraAsicInitTable_expected_responders (results : List asicio.responseCfgType)
    (hne : results ≠ [])
    (hres : ∀ r ∈ results, r.Data = chipUnique ∧ r.Address = ADDR_CHIP_UNIQUE ∧
      (r.Id ≤ 65 ∨ (128 ≤ r.Id ∧ r.Id ≤ 193))) :
    ∃ t : ChipTable,
      AuraAsicInitTable 255 [] devhdr.DefaultHbAsicIdConfig results = .ok t ∧
      t.ChipArray.length = 132 ∧ t.seqChipIds.length = 132 ∧
      t.actualChipIds.Pairwise (fun a b => a < b) ∧
      (∀ y, y ∈ t.actualChipIds ↔ ∃ r ∈ results, r.Id = y) ∧
      ∀ k, k < 132 → ∃ e, t.ChipArray[k]? = some e ∧ t.seqChipIds[k]? = some e.ChipId ∧
        e.ChipId = (if k ≤ 65 then k else k + 62) ∧
        (e.NotFound = true ↔ ∀ r ∈ results, r.Id ≠ e.ChipId) := by
  have hres2 : ∀ r ∈ results, r.Data = chipUnique ∧ r.Address = ADDR_CHIP_UNIQUE ∧ r.Id ≤ 255 :=
    fun r hr => ⟨(hres r hr).1, (hres r hr).2.1, by have := (hres r hr).2.2; omega⟩
  have hchips := foldl_collectChip results hres2 []
  rw [List.nil_append] at hchips
  have hsorted : (sortInts (results.map (fun r => (r.Id : Int)))).Sorted (fun a b => a ≤ b) :=
    List.sorted_insertionSort _ _
  have hperm : ∀ x, x ∈ sortInts (results.map (fun r => (r.Id : Int))) ↔
      ∃ r ∈ results, (r.Id : Int) = x := by
    intro x
    unfold sortInts
    rw [(List.perm_insertionSort _ _).mem_iff, List.mem_map]
  obtain ⟨d1, d2⟩ := dedupChips_spec (sortInts (results.map (fun r => (r.Id : Int))))
    (fun _ => false) [] hsorted
    (by
      intro x hx
      obtain ⟨r, hr, rfl⟩ := (hperm x).mp hx
      have := (hres r hr).2.2
      omega)
    (by intro x _; simp)
    List.Pairwise.nil
    (by intro a ha; cases ha)
  have hmem : ∀ y, y ∈ dedupChips (sortInts (results.map (fun r => (r.Id : Int))))
      (fun _ => false) [] ↔ ∃ r ∈ results, r.Id = y := by
    intro y
    rw [d2 y]
    constructor
    · rintro (h | ⟨x, hx, hxy⟩)
      · cases h
      · obtain ⟨r, hr, rfl⟩ := (hperm x).mp hx
        exact ⟨r, hr, by simpa using hxy⟩
    · rintro ⟨r, hr, hry⟩
      exact Or.inr ⟨(r.Id : Int), (hperm _).mpr ⟨r, hr, rfl⟩, by simpa using hry⟩
  obtain ⟨b1, b2, _, b4⟩ := buildChipTable_spec
    (dedupChips (sortInts (results.map (fun r => (r.Id : Int)))) (fun _ => false) []) d1
    (by
      intro x hx
      obtain ⟨r, hr, rfl⟩ := (hmem x).mp hx
      exact (hres r hr).2.2)
    132 0 0 (List.replicate 132 0) [] rfl rfl (by simp)
    (fun j hj => absurd hj (Nat.not_lt_zero j))
    (fun j _ _ => by simp)
  have hlen : (results.map (fun r => (r.Id : Int))).length ≠ 0 := by
    rw [List.length_map]
    exact fun h => hne (List.length_eq_zero.mp h)
  unfold AuraAsicInitTable
  simp only [hchips, if_neg hlen]
  rcases hb : buildChipTable devhdr.DefaultHbAsicIdConfig
      (dedupChips (sortInts (results.map (fun r => (r.Id : Int)))) (fun _ => false) [])
      132 0 0 (List.replicate 132 0, []) with ⟨seq, arr⟩
  rw [hb] at b1 b2 b4
  have hb2 : buildChipTable devhdr.DefaultHbAsicIdConfig
      (dedupChips (sortInts (results.map (fun r => (r.Id : Int)))) (fun _ => false) [])
      GetAsicCounts 0 0 (List.replicate GetAsicCounts 0, []) = (seq, arr) := hb
  rw [hb2]
  refine ⟨_, rfl, b1, b2, d1, hmem, ?_⟩
  intro k hk
  obtain ⟨e, e1, e2, e3, e4⟩ := b4 k (Nat.zero_le k) hk
  refine ⟨e, e1, e2, e3, ?_⟩
  rw [e4, e3, hmem]
  constructor
  · intro h r hr hrk
    exact h ⟨r, hr, hrk⟩
  · rintro h ⟨r, hr, hrk⟩
    exact h r hr hrk

set_option maxRecDepth 100000 in
/-- C14 (code defect): with the discovery replies of the chips 0, 70 and 128
(all at most `maxChipId = 255`), `AuraAsicInit` builds its tables, records the
three chips as detected, and still marks the entry of the expected chip 128
(index 66) as not found, although 128 is among the responders; chip 0 is
marked as found. -/
theorem AuraAsicInitTable_unexpected_responder :
    ∃ t : ChipTable,
      AuraAsicInitTable 255 [] devhdr.DefaultHbAsicIdConfig
        [discoveryReply 0, discoveryReply 70, discoveryReply 128] = .ok t ∧
      t.actualChipIds = [0, 70, 128] ∧
      t.ChipArray.length = 132 ∧
      t.seqChipIds = List.range 66 ++ (List.range 66).map (fun i => 128 + i) ∧
      t.ChipArray[0]? = some { ChipId := 0, NotFound := false } ∧
      t.ChipArray[66]? = some { ChipId := 128, NotFound := true } := by
  refine ⟨_, rfl, ?_, ?_, ?_, ?_, ?_⟩ <;> decide

end asic

/-! ## Theorems: the temperature monitor -/

namespace asic

/-- One pass of the loop body of `processTemp` does not panic when the read of
the cached temperature does not; it never lowers `max_temp`, and it raises
`max_temp` to at least a cached temperature in `(-300, 170]`. -/
theorem processTempEntry_some (handles : List (Option AuraAsic)) (g : DvfsGlobals)
    (b : Int) (t : TopologyType) (h : cachedTemp handles t ≠ none) :
    ∃ g1 b1 t1, processTempEntry handles g b t = some (g1, b1, t1) ∧
      g.max_temp ≤ g1.max_temp ∧
      (∀ x, cachedTemp handles t = some (some x) → -300 < x → x ≤ 170 → x ≤ g1.max_temp) := by
  unfold cachedTemp at h ⊢
  unfold processTempEntry
  simp only []
  by_cases h1 : goInt (t.board + 1) < 0
  · simp [h1] at h
  · simp only [h1, if_false] at h ⊢
    rcases hh : handles[(goInt (t.board + 1)).toNat]? with _ | _ | aa
    · simp [hh] at h
    · simp [hh]
    · simp only [hh] at h ⊢
      by_cases h2 : aa.deadBoard = true
      · simp [h2]
      · simp only [h2, if_false] at h ⊢
        by_cases h3 : ChipIdToIndex aa (toUint8 t.id) < 0
        · simp [h3] at h
        · simp only [h3, if_false] at h ⊢
          rcases hc : aa.cacheTemps[(ChipIdToIndex aa (toUint8 t.id)).toNat]? with _ | y
          · simp [hc] at h
          · simp only [hc]
            have hg1 : (if g.curBoard = -1 then { g with curBoard := t.board } else g).max_temp
                = g.max_temp := by split_ifs <;> rfl
            generalize (if g.curBoard = -1 then { g with curBoard := t.board } else g) = g1
              at hg1 ⊢
            by_cases h4 : y > -300
            · simp only [h4, if_true]
              refine ⟨_, _, _, rfl, ?_, ?_⟩
              · simp only [apply_ite DvfsGlobals.max_temp, apply_ite TopologyType.temperature]
                split_ifs <;> linarith
              · intro x hx hlo hhi
                have hx : y = x := by simpa using hx
                subst hx
                have h5 : ¬ y > 170 := not_lt.mpr hhi
                simp only [h5, if_false, apply_ite DvfsGlobals.max_temp]
                split_ifs <;> linarith
            · simp only [h4, if_false]
              refine ⟨_, _, _, rfl, ?_, ?_⟩
              · exact le_of_eq hg1.symm
              · intro x hx hlo _
                have hx : y = x := by simpa using hx
                subst hx
                exact absurd hlo h4

/-- The loop of `processTemp` runs to its end when no read of a cached
temperature panics; `max_temp` at its end is at least its value at the start
and at least every cached temperature in `(-300, 170]` that the loop read. -/
theorem processTempLoop_some (handles : List (Option AuraAsic)) :
    ∀ (ts : List TopologyType) (g : DvfsGlobals) (b : Int),
      (∀ e ∈ ts, cachedTemp handles e ≠ none) →
      ∃ g1 b1 ts1, processTempLoop handles ts (g, b) = some ((g1, b1), ts1) ∧
        g.max_temp ≤ g1.max_temp ∧
        (∀ e ∈ ts, ∀ x, cachedTemp handles e = some (some x) → -300 < x → x ≤ 170 →
          x ≤ g1.max_temp) := by
  intro ts
  induction ts with
  | nil =>
    intro g b _
    exact ⟨g, b, [], rfl, le_refl _, fun e he => absurd he (List.not_mem_nil e)⟩
  | cons t rest ih =>
    intro g b hread
    obtain ⟨g1, b1, t1, he, hmono, hhot⟩ :=
      processTempEntry_some handles g b t (hread t (List.mem_cons_self t rest))
    obtain ⟨g2, b2, ts2, hl, hmono2, hhot2⟩ :=
      ih g1 b1 (fun e he => hread e (List.mem_cons_of_mem t he))
    refine ⟨g2, b2, t1 :: ts2, ?_, le_trans hmono hmono2, ?_⟩
    · simp only [processTempLoop, he, hl]
    · intro e he x hx hlo hhi
      rcases List.mem_cons.mp he with rfl | hmem
      · exact le_trans (hhot x hx hlo hhi) hmono2
      · exact hhot2 e hmem x hx hlo hhi

/-- The loop of `enterStandbyMode` runs to its end when the array `AsicHandle`
has a slot for every index it visits. -/
theorem standbyHandles_some :
    ∀ (n i : Nat) (handles : List (Option AuraAsic)), i + n < handles.length →
      ∃ handles1, standbyHandles n i handles = some handles1 := by
  intro n
  induction n with
  | zero => intro i handles _; exact ⟨handles, rfl⟩
  | succ n ih =>
    intro i handles hlen
    have hi : i + 1 < handles.length := by omega
    rcases hh : handles[i + 1]? with _ | _ | aa
    · rw [List.getElem?_eq_getElem hi] at hh
      cases hh
    · simp only [standbyHandles, hh]
      exact ih (i + 1) handles (by omega)
    · simp only [standbyHandles, hh]
      exact ih (i + 1) _ (by rw [List.length_set]; omega)

/-- The function `enterStandbyMode` returns when `AsicHandle` has a slot for
every chain; it leaves `dvfsState` at STANDBY and has called
`SystemPowerOff(false)` once. -/
theorem enterStandbyMode_some (w : DvfsWorld)
    (hslots : devhdr.GetTotalChainCount < w.AsicHandle.length) :
    ∃ w1, enterStandbyMode w = some w1 ∧ w1.globals.dvfsState = DVFS_STANDBY ∧
      w1.powerOffCalls = w.powerOffCalls ++ [false] := by
  obtain ⟨hs, hhs⟩ := standbyHandles_some devhdr.GetTotalChainCount 0 w.AsicHandle
    (by omega)
  refine ⟨{ w with
      globals := { w.globals with dvfsState := DVFS_STANDBY },
      powerOffCalls := w.powerOffCalls ++ [false],
      AsicHandle := hs }, ?_, rfl, rfl⟩
  unfold enterStandbyMode
  simp only [hhs]

/-- C18 (amended): when no read of a cached temperature panics, `AsicHandle`
has a slot for every chain, and some chip of the topology on a non-dead board
has a cached temperature of at least `AsicTempLimit` (120) and at most 170,
`processTemp` returns true, leaves `dvfsState` at STANDBY and has requested
`SystemPowerOff(false)`. -/
theorem processTemp_standby (w : DvfsWorld) (t : TopologyType) (x : ℚ)
    (hread : ∀ e ∈ w.topology, cachedTemp w.AsicHandle e ≠ none)
    (hslots : devhdr.GetTotalChainCount < w.AsicHandle.length)
    (ht : t ∈ w.topology) (hx : cachedTemp w.AsicHandle t = some (some x))
    (hlo : AsicTempLimit ≤ x) (hhi : x ≤ 170) :
    ∃ w1, processTemp w = some (true, w1) ∧ w1.globals.dvfsState = DVFS_STANDBY ∧
      w1.powerOffCalls = w.powerOffCalls ++ [false] := by
  have hlo2 : (-300 : ℚ) < x := by
    have : (120 : ℚ) ≤ x := hlo
    linarith
  obtain ⟨g1, b1, ts1, hl, _, hhot⟩ := processTempLoop_some w.AsicHandle w.topology
    { w.globals with hotChip := -1, hotBoard := -1, max_temp := -40, curBoard := -1 } 0 hread
  have hmax : AsicTempLimit ≤ g1.max_temp := le_trans hlo (hhot t ht x hx hlo2 hhi)
  unfold processTemp
  simp only [hl]
  have hmax2 : ∀ g2 : DvfsGlobals, g2.max_temp = g1.max_temp → g2.max_temp ≥ AsicTempLimit :=
    fun g2 h => by rw [h]; exact hmax
  rw [if_pos (hmax2 _ (by split_ifs <;> rfl))]
  obtain ⟨w2, hw2, hst, hpo⟩ := enterStandbyMode_some
    { w with
      globals :=
        if ((goInt ((ts1.length : Int) - b1) : Int) : ℚ) > 0 then
          { g1 with avg_temp := g1.avg_temp / ((goInt ((ts1.length : Int) - b1) : Int) : ℚ) }
        else { g1 with avg_temp := 0 },
      topology := ts1 } hslots
  exact ⟨w2, by simp only [hw2], hst, hpo⟩

/-- Witness for C18: a chip at 121 degrees, one degree above the limit. -/
theorem processTemp_standby_witness :
    ∃ w1, processTemp (scenarioHotWorld 121) = some (true, w1) ∧
      w1.globals.dvfsState = DVFS_STANDBY ∧
      w1.powerOffCalls = (scenarioHotWorld 121).powerOffCalls ++ [false] :=
  processTemp_standby (scenarioHotWorld 121) { board := 0, id := 0 } 121
    (by
      intro e he
      have he2 : e = { board := 0, id := 0 } := by simpa [scenarioHotWorld] using he
      subst he2
      decide)
    (by decide) (by simp [scenarioHotWorld])
    (by decide) (by norm_num [AsicTempLimit]) (by norm_num)

/-- C18 (counterexample to the claim as stated): a chip on a live board with a
cached temperature of 200 degrees, above `AsicTempLimit`; `processTemp`
returns false, `dvfsState` stays NORMAL and no power-off is requested (the
reading above 170 is counted as a bad reading and replaced by 0). -/
theorem processTemp_above_170_counterexample :
    cachedTemp (scenarioHotWorld 200).AsicHandle { board := 0, id := 0 } = some (some 200) ∧
    AsicTempLimit ≤ 200 ∧
    (processTemp (scenarioHotWorld 200)).map
        (fun r => (r.1, r.2.globals.dvfsState, r.2.powerOffCalls, r.2.topology.map
          (fun e => (e.temperature, e.badTempCtr)))) =
      some (false, DVFS_NORMAL, [], [(0, 1)]) := by
  refine ⟨by decide, by norm_num [AsicTempLimit], ?_⟩
  simp [processTemp, processTempLoop, processTempEntry, scenarioHotWorld, scenarioHotBoard,
    scenarioDvfs, AsicTempLimit, DVFS_NORMAL, goInt, ChipIdToIndex, toUint8,
    devhdr.DefaultHbAsicIdConfig]
  norm_num

end asic

/-! ## Theorems: hit results and the CRC verdict -/

namespace asicio

/-- What `CheckHitResult` does with a queued 92-byte frame: it returns the
decoded response, with the error "unmatched crc32" exactly when the crc field
is not the complement of the checksum of the first 88 bytes. -/
theorem CheckHitResult_of_length_92 (aa : AuraAsicIO) (v : List Nat) (rest : List (List Nat))
    (hq : aa.qHit = v :: rest) (hlen : v.length = 92) :
    ∃ resp : ResponseHitType,
      CheckHitResult aa =
        ((some resp,
          if binary.uint32 (v.drop 88) = crc32.Checksum (v.take 88) ^^^ 0xFFFFFFFF then none
          else some "unmatched crc32"), { aa with qHit := rest }) ∧
      resp.Result = (v.drop 8).take 80 := by
  have h4 : List.take 4 (List.drop 88 v) = List.drop 88 v :=
    List.take_of_length_le (by simp [hlen])
  simp [CheckHitResult, Fifo.Pop, hq, Unpack, UnpackBuf, unpackValue, unpackFields, unpackLeaf,
    binaryRead, GoLeaf.size, ResponseHitType.zero, ResponseHitType.toValue,
    ResponseHitType.ofValue, RSP_LEN_HIT, hlen, h4]
  split_ifs
  · exact ⟨_, rfl, rfl⟩
  · exact ⟨_, rfl, rfl⟩

end asicio

namespace asic

/-- The reader goroutine only appends to the hit queue. -/
theorem deliverHits_qHit (frames : List (List Nat)) :
    ∀ (io io1 : asicio.AuraAsicIO), deliverHits frames io = some io1 →
      ∃ extra, io1.qHit = io.qHit ++ extra := by
  induction frames with
  | nil =>
    intro io io1 h
    simp only [deliverHits, Option.some.injEq] at h
    exact ⟨[], by rw [h, List.append_nil]⟩
  | cons v rest ih =>
    intro io io1 h
    simp only [deliverHits] at h
    cases hp : asicio.putHitRawResult io v with
    | none => rw [hp] at h; cases h
    | some io2 =>
      rw [hp] at h
      obtain ⟨extra, he⟩ := ih io2 io1 h
      unfold asicio.putHitRawResult at hp
      cases h7 : v[7]? with
      | none => rw [h7] at hp; cases hp
      | some seq =>
        rw [h7] at hp
        simp only [] at hp
        split_ifs at hp
        · simp only [Option.some.injEq] at hp
          subst hp
          exact ⟨extra, he⟩
        · simp only [Option.some.injEq] at hp
          subst hp
          refine ⟨[v] ++ extra, ?_⟩
          rw [he]
          simp [asicio.Fifo.Push]

/-- The middle of `CheckResults` on a queue whose head is a 92-byte frame with
a wrong crc field: it returns a message built from that frame together with
the error "unmatched crc32". -/
theorem CheckResultsPoll_queued_crc (clock : Nat → Int)
    (nonBlockingRead : List Nat → List Nat → Int × List Int)
    (arrivals : Nat → List (List Nat)) (aa : AuraAsic) (io io0 : asicio.AuraAsicIO)
    (v : List Nat) (rest : List (List Nat))
    (hq : io.qHit = v :: rest) (hlen : v.length = 92)
    (hcrc : binary.uint32 (v.drop 88) ≠ crc32.Checksum (v.take 88) ^^^ 0xFFFFFFFF)
    (hdeliver : deliverHits (arrivals 0) io = some io0) :
    ∃ out msg, CheckResultsPoll clock nonBlockingRead arrivals aa io = some out ∧
      out.msg = some msg ∧ msg.Body = hexEncodeToString ((v.drop 8).take 80) ∧
      out.err = some "unmatched crc32" := by
  obtain ⟨extra, he⟩ := deliverHits_qHit (arrivals 0) io io0 hdeliver
  rw [hq, List.cons_append] at he
  obtain ⟨resp, hresp, hres⟩ := asicio.CheckHitResult_of_length_92 io0 v (rest ++ extra) he hlen
  rw [if_neg hcrc] at hresp
  unfold CheckResultsPoll
  simp only [hdeliver, hresp, Option.isNone_some, Bool.false_eq_true, false_and, if_false,
    CheckResultsMessage]
  exact ⟨_, _, rfl, rfl, by rw [hres], rfl⟩

/-- C19 (amended): when the hit frame at the head of the queue on entry has a
crc field different from the complement of CRC-32 over its first 88 bytes,
every return of `CheckResults` with a job loaded carries the message built
from that frame together with the error "unmatched crc32", never a nil error;
and `CheckResults` does return when the counter reading and the reader
goroutine do not panic.  (For a frame fetched after polling SUMMARY the
verdict of `CheckHitResult` is dropped.) -/
theorem CheckResults_queued_crc (clock : Nat → Int)
    (nonBlockingRead : List Nat → List Nat → Int × List Int)
    (arrivals : Nat → List (List Nat)) (aa : AuraAsic) (io : asicio.AuraAsicIO)
    (v : List Nat) (rest : List (List Nat))
    (hjob : aa.jobCount ≠ 0)
    (hq : io.qHit = v :: rest) (hlen : v.length = 92)
    (hcrc : binary.uint32 (v.drop 88) ≠ crc32.Checksum (v.take 88) ^^^ 0xFFFFFFFF) :
    (∀ out, CheckResults clock nonBlockingRead arrivals aa io = some out →
      ∃ msg, out.msg = some msg ∧ msg.Body = hexEncodeToString ((v.drop 8).take 80) ∧
        out.err = some "unmatched crc32") ∧
    (∀ io0, deliverHits (arrivals 0) io = some io0 →
      checkHitCounters clock nonBlockingRead { aa with clockReads := aa.clockReads + 1 + 1 }
        ≠ none →
      ∃ out, CheckResults clock nonBlockingRead arrivals aa io = some out) := by
  have key : ∀ aa1 : AuraAsic, ∀ out,
      CheckResultsPoll clock nonBlockingRead arrivals aa1 io = some out →
      ∃ msg, out.msg = some msg ∧ msg.Body = hexEncodeToString ((v.drop 8).take 80) ∧
        out.err = some "unmatched crc32" := by
    intro aa1 out h
    cases hd : deliverHits (arrivals 0) io with
    | none =>
      unfold CheckResultsPoll at h
      rw [hd] at h
      cases h
    | some io0 =>
      obtain ⟨out1, msg, h1, h2, h3, h4⟩ := CheckResultsPoll_queued_crc clock nonBlockingRead
        arrivals aa1 io io0 v rest hq hlen hcrc hd
      rw [h1] at h
      simp only [Option.some.injEq] at h
      subst h
      exact ⟨msg, h2, h3, h4⟩
  constructor
  · intro out h
    unfold CheckResults at h
    rw [if_neg hjob] at h
    simp only [AuraAsic.timeNow] at h
    split_ifs at h
    · cases hc : checkHitCounters clock nonBlockingRead
          { aa with clockReads := aa.clockReads + 1 + 1 } with
      | none => simp only [hc] at h; cases h
      | some r =>
        simp only [hc] at h
        exact key _ out h
    · exact key _ out h
    · exact key _ out h
  · intro io0 hd hcnt
    have key2 : ∀ aa1 : AuraAsic,
        ∃ out, CheckResultsPoll clock nonBlockingRead arrivals aa1 io = some out := by
      intro aa1
      obtain ⟨out1, _, h1, _⟩ := CheckResultsPoll_queued_crc clock nonBlockingRead
        arrivals aa1 io io0 v rest hq hlen hcrc hd
      exact ⟨out1, h1⟩
    unfold CheckResults
    rw [if_neg hjob]
    simp only [AuraAsic.timeNow]
    split_ifs
    · cases hc : checkHitCounters clock nonBlockingRead
          { aa with clockReads := aa.clockReads + 1 + 1 } with
      | none => exact absurd hc hcnt
      | some r => simp only [hc]; exact key2 _
    · exact key2 _
    · exact key2 _

set_option maxRecDepth 100000 in
/-- Witness for C19: the frame with the zero crc field is queued on entry. -/
theorem CheckResults_queued_crc_witness :
    ∃ out msg, CheckResults scenarioClock scenarioSummaryTransport (fun _ => [])
        scenarioPollBoard scenarioQueuedIO = some out ∧
      out.msg = some msg ∧ out.err = some "unmatched crc32" := by
  have h := CheckResults_queued_crc scenarioClock scenarioSummaryTransport (fun _ => [])
    scenarioPollBoard scenarioQueuedIO scenarioHitFrame [] (by decide) rfl (by decide)
    (by decide!)
  obtain ⟨out, hout⟩ := h.2 scenarioQueuedIO rfl (by
    intro hc
    have : (checkHitCounters scenarioClock scenarioSummaryTransport
      { scenarioPollBoard with clockReads := scenarioPollBoard.clockReads + 1 + 1 }).isSome
        = true := by decide!
    rw [hc] at this
    cases this)
  obtain ⟨msg, h1, _, h3⟩ := h.1 out hout
  exact ⟨out, msg, hout, h1, h3⟩

set_option maxRecDepth 100000 in
/-- C19 (counterexample to the claim as stated): the hit queue is empty on
entry, the poll of SUMMARY reports one hit, and the reader goroutine then
queues a frame whose crc field (zero) is not the complement of CRC-32 over its
first 88 bytes.  `CheckResults` returns the solution message built from that
frame together with a nil error. -/
theorem CheckResults_polled_crc_counterexample :
    binary.uint32 (scenarioHitFrame.drop 88) ≠
        crc32.Checksum (scenarioHitFrame.take 88) ^^^ 0xFFFFFFFF ∧
    (CheckResults scenarioClock scenarioSummaryTransport scenarioArrivals scenarioPollBoard
        scenarioIdleIO).map
      (fun out => (out.msg.map (fun m =>
          (m.Seq, m.Chip, decide (m.Body = hexEncodeToString ((scenarioHitFrame.drop 8).take 80)))),
        out.err, out.requests)) =
      some (some (1, 0, true), none, [0]) := by
  constructor
  · decide!
  · decide!

end asic

/-! ## Theorems: the hash-rate update message -/

namespace asic

theorem toUint32_lt (x : Int) : toUint32 x < 2 ^ 32 := by
  unfold toUint32
  have h1 : 0 ≤ x % 2 ^ 32 := Int.emod_nonneg _ (by norm_num)
  have h2 : x % 2 ^ 32 < 2 ^ 32 := Int.emod_lt_of_pos _ (by norm_num)
  omega

/-- The predicate `PerformanceInv` spelled out. -/
theorem PerformanceInv_iff (aa : AuraAsic) :
    PerformanceInv aa = true ↔
      ∀ cur, aa.hitStats[aa.latestSlot]? = some cur →
        ∀ k < aa.seqChipIds.length,
          (cur.deltaGhits.getD []).getD k 0 < 2 ^ 32 ∧
          (cur.deltaThits.getD []).getD k 0 < 2 ^ 32 ∧
          ((cur.deltaGhits.getD []).getD k 0 > 0 →
            ∃ e, aa.ChipArray[k]? = some e ∧
              e.Performance = hitPercent ((cur.deltaThits.getD []).getD k 0)
                ((cur.deltaGhits.getD []).getD k 0)) := by
  unfold PerformanceInv
  cases hs : aa.hitStats[aa.latestSlot]? with
  | none => simp
  | some cur =>
    simp only [List.all_eq_true, List.mem_range, Bool.and_eq_true, Bool.or_eq_true,
      decide_eq_true_eq, Option.some.injEq, forall_eq', Option.map_eq_some']
    constructor
    · intro hh k hk
      obtain ⟨⟨a, b⟩, c⟩ := hh k hk
      refine ⟨a, b, fun hpos => ?_⟩
      rcases c with c | c
      · omega
      · exact c
    · intro hh k hk
      obtain ⟨a, b, c⟩ := hh k hk
      refine ⟨⟨a, b⟩, ?_⟩
      by_cases hz : (cur.deltaGhits.getD []).getD k 0 = 0
      · exact Or.inl hz
      · exact Or.inr (c (Nat.pos_of_ne_zero hz))

/-- Before the first counter reading, when every slot of the ring holds nil
slices, the latest snapshot and the chip table are in step. -/
theorem PerformanceInv_fresh (aa : AuraAsic)
    (h : ∀ cur ∈ aa.hitStats, cur.deltaGhits = none ∧ cur.deltaThits = none) :
    PerformanceInv aa = true := by
  rw [PerformanceInv_iff]
  intro cur hcur k _
  obtain ⟨g, t⟩ := h cur (List.getElem?_mem hcur)
  rw [g, t]
  simp

end asic

/-! ## Theorems: matching responses to pending reads -/

namespace asicio

/-- The loop of `getCmdRegReadFromPayload`: the bound it ends with is at most
the bound it starts with and at most every sequence number of the list; either
nothing of the list was taken (every sequence number is above the starting
bound), or the result is a record of the list with the final bound as its
sequence number. -/
theorem getCmdRegReadLoop_spec (cmds : Nat → asicCmd) :
    ∀ (l : List Nat) (res : Option Nat) (lower : Nat),
      (getCmdRegReadLoop cmds l (res, lower)).2 ≤ lower ∧
      (∀ c ∈ l, (getCmdRegReadLoop cmds l (res, lower)).2 ≤ (cmds c).seq) ∧
      ((getCmdRegReadLoop cmds l (res, lower) = (res, lower) ∧ ∀ c ∈ l, lower < (cmds c).seq) ∨
        ∃ r ∈ l, (getCmdRegReadLoop cmds l (res, lower)).1 = some r ∧
          (cmds r).seq = (getCmdRegReadLoop cmds l (res, lower)).2) := by
  intro l
  induction l with
  | nil =>
    intro res lower
    exact ⟨le_refl _, fun c hc => absurd hc (List.not_mem_nil c),
      Or.inl ⟨rfl, fun c hc => absurd hc (List.not_mem_nil c)⟩⟩
  | cons cmd rest ih =>
    intro res lower
    simp only [getCmdRegReadLoop]
    by_cases h : (cmds cmd).seq ≤ lower
    · rw [if_pos h]
      obtain ⟨i1, i2, i3⟩ := ih (some cmd) (cmds cmd).seq
      refine ⟨le_trans i1 h, ?_, Or.inr ?_⟩
      · intro c hc
        rcases List.mem_cons.mp hc with rfl | hc
        · exact i1
        · exact i2 c hc
      · rcases i3 with ⟨e, _⟩ | ⟨r, hr, h1, h2⟩
        · exact ⟨cmd, List.mem_cons_self _ _, by rw [e], by rw [e]⟩
        · exact ⟨r, List.mem_cons_of_mem _ hr, h1, h2⟩
    · rw [if_neg h]
      obtain ⟨i1, i2, i3⟩ := ih res lower
      refine ⟨i1, ?_, ?_⟩
      · intro c hc
        rcases List.mem_cons.mp hc with rfl | hc
        · exact le_trans i1 (le_of_lt (not_le.mp h))
        · exact i2 c hc
      · rcases i3 with ⟨e, hall⟩ | ⟨r, hr, h1, h2⟩
        · left
          refine ⟨e, ?_⟩
          intro c hc
          rcases List.mem_cons.mp hc with rfl | hc
          · exact not_le.mp h
          · exact hall c hc
        · exact Or.inr ⟨r, List.mem_cons_of_mem _ hr, h1, h2⟩

/-- C21 (oldest pending record).  In every state of the payload index whose
sequence numbers are `uint64` values, for every (chip id, register addr) pair
`getCmdRegReadFromPayload` returns nil exactly when the list of the pair is
empty, and otherwise a record of that list whose sequence number is the
minimum over the list.  In every state the transport can reach, the records
in the list of a pair are the registered records that have the pair among
their payloads. -/
theorem getCmdRegReadFromPayload_oldest (aa : AuraAsicIO) (p : asicReadPayload)
    (hseq : ∀ c ∈ aa.cmdRegReadMap p, (aa.cmds c).seq ≤ maxUint64) :
    (getCmdRegReadFromPayload aa p = none ↔ aa.cmdRegReadMap p = []) ∧
    (∀ r, getCmdRegReadFromPayload aa p = some r →
      r ∈ aa.cmdRegReadMap p ∧ ∀ c ∈ aa.cmdRegReadMap p, (aa.cmds r).seq ≤ (aa.cmds c).seq) ∧
    (∀ clock, Reachable clock aa →
      ∀ c, c ∈ aa.cmdRegReadMap p ↔ p ∈ (aa.cmdReverseRegReadMap c).getD []) := by
  obtain ⟨_, h2, h3⟩ := getCmdRegReadLoop_spec aa.cmds (aa.cmdRegReadMap p) none maxUint64
  refine ⟨?_, ?_, ?_⟩
  · constructor
    · intro hn
      rcases h3 with ⟨_, hall⟩ | ⟨r, _, h1, _⟩
      · cases hl : aa.cmdRegReadMap p with
        | nil => rfl
        | cons c rest =>
          have hc : c ∈ aa.cmdRegReadMap p := by rw [hl]; exact List.mem_cons_self _ _
          exact absurd (hseq c hc) (not_le.mpr (hall c hc))
      · unfold getCmdRegReadFromPayload at hn
        rw [hn] at h1
        cases h1
    · intro hl
      unfold getCmdRegReadFromPayload
      rw [hl]
      rfl
  · intro r hr
    unfold getCmdRegReadFromPayload at hr
    rcases h3 with ⟨e, _⟩ | ⟨r1, hr1, h1, h4⟩
    · rw [e] at hr
      cases hr
    · rw [hr] at h1
      cases h1
      refine ⟨hr1, fun c hc => ?_⟩
      rw [h4]
      exact h2 c hc
  · intro clock hreach c
    rw [← List.count_pos_iff, ← List.count_pos_iff, Reachable.count_eq clock aa hreach p c]

set_option maxRecDepth 100000 in
/-- Witness for C21: of the two records pending for register 5 of chip 1, the
one registered first (at address 7, sequence number 1) is returned. -/
theorem getCmdRegReadFromPayload_oldest_witness :
    getCmdRegReadFromPayload scenarioTwoPending ⟨5, 1⟩ = some 7 ∧
    scenarioTwoPending.cmdRegReadMap ⟨5, 1⟩ = [7, 8] ∧
    ((getCmdRegReadFromPayload scenarioTwoPending ⟨5, 1⟩ = none ↔
        scenarioTwoPending.cmdRegReadMap ⟨5, 1⟩ = []) ∧
      (∀ r, getCmdRegReadFromPayload scenarioTwoPending ⟨5, 1⟩ = some r →
        r ∈ scenarioTwoPending.cmdRegReadMap ⟨5, 1⟩ ∧
        ∀ c ∈ scenarioTwoPending.cmdRegReadMap ⟨5, 1⟩,
          (scenarioTwoPending.cmds r).seq ≤ (scenarioTwoPending.cmds c).seq) ∧
      (∀ clock, Reachable clock scenarioTwoPending →
        ∀ c, c ∈ scenarioTwoPending.cmdRegReadMap ⟨5, 1⟩ ↔
          (⟨5, 1⟩ : asicReadPayload) ∈ (scenarioTwoPending.cmdReverseRegReadMap c).getD [])) :=
  ⟨by decide, by decide,
    getCmdRegReadFromPayload_oldest scenarioTwoPending ⟨5, 1⟩ (by decide)⟩

set_option maxRecDepth 100000 in
/-- C30 (code defect): a read record for the registers 5 and 6 of chip 1 gets
the response for register 5 twice.  The second response completes it:
`updatePayload` marks the record done and releases it with status 0 (the value
sent on its channel), while the slot of register 6 still holds -1.  The same
happens to a record for register 5 that lists chip 1 twice. -/
theorem updatePayload_counts_duplicates :
    (updatePayloads (fun _ => 0) devhdr.DefaultHbAsicIdConfig
        [readResponse 1 5 9, readResponse 1 5 9] scenarioOnePending).map
      (fun aa => ((aa.cmds 7).done, (aa.cmds 7).data, aa.chSent)) =
      some (true, [9, -1], [(7, 0)]) ∧
    (updatePayloads (fun _ => 0) devhdr.DefaultHbAsicIdConfig
        [readResponse 1 5 9, readResponse 1 5 9] scenarioRepeatedTarget).map
      (fun aa => ((aa.cmds 7).done, (aa.cmds 7).data, aa.chSent)) =
      some (true, [9, -1], [(7, 0)]) := by
  constructor <;> decide

end asicio

/-! ## Theorems: the faulty-ASIC tracker over time -/

namespace asic

/-- The tracker entry decides `isFaultyAsic`. -/
theorem isFaultyAsic_eq_trackerEntry (aa : AuraAsic) (chip : Nat) :
    isFaultyAsic aa chip = ((trackerEntry aa chip).map (fun e => e.isFaulty)).getD false := by
  unfold isFaultyAsic trackerEntry
  cases aa.faultyAsicsTrack with
  | none => rfl
  | some m =>
    show (match m chip with
      | some payload => payload.isFaulty
      | none => false) = ((m chip).map (fun e => e.isFaulty)).getD false
    cases m chip <;> rfl

/-- A controller returned by `AuraAsicInit` has the nil tracker map. -/
theorem AuraAsicInit_tracker_nil (brdChainId : Nat) (maxChipId : Int)
    (asicIdCfg : devhdr.HashBoardAsicIdConfig) (results : List asicio.responseCfgType)
    (revision : Nat × Option String) (aa : AuraAsic)
    (h : AuraAsicInit brdChainId maxChipId asicIdCfg results revision = .ok aa) :
    aa.faultyAsicsTrack = none := by
  unfold AuraAsicInit at h
  cases ht : AuraAsicInitTable maxChipId [] asicIdCfg results with
  | error e => rw [ht] at h; cases h
  | ok t =>
    rw [ht] at h
    simp only at h
    split_ifs at h
    cases h
    rfl

/-- On every controller returned by `AuraAsicInit`, with every clock and for
every chip id, `updateAsicFaultyTracker` panics. -/
theorem AuraAsicInit_update_panics (brdChainId : Nat) (maxChipId : Int)
    (asicIdCfg : devhdr.HashBoardAsicIdConfig) (results : List asicio.responseCfgType)
    (revision : Nat × Option String) (aa : AuraAsic)
    (h : AuraAsicInit brdChainId maxChipId asicIdCfg results revision = .ok aa)
    (clock : Nat → Int) (chip : Nat) :
    updateAsicFaultyTracker clock aa chip = none := by
  have hnil := AuraAsicInit_tracker_nil brdChainId maxChipId asicIdCfg results revision aa h
  unfold updateAsicFaultyTracker
  rw [hnil]

set_option maxRecDepth 100000 in
/-- C29: `AuraAsicInit`, run on a board whose chips 0, 1, 5, 128 and 129 answer
the discovery read and whose revision read succeeds, returns a controller;
this controller has no tracker entry for chip 5, its tracker map is the nil
map, and the call of `updateAsicFaultyTracker` for chip 5 panics instead of
leaving an entry with `counts = 1`. -/
theorem AuraAsicInit_tracker_panics :
    ∃ aa, AuraAsicInit 1 255 devhdr.DefaultHbAsicIdConfig scenarioDiscovery (0x100, none) = .ok aa ∧
      aa.actualChipIds = [0, 1, 5, 128, 129] ∧
      trackerEntry aa 5 = none ∧
      aa.faultyAsicsTrack.isNone = true ∧
      (updateAsicFaultyTracker scenarioClock aa 5).isNone = true := by
  refine ⟨_, rfl, ?_, rfl, rfl, rfl⟩
  decide

end asic

namespace asic

/-- A call of `updateAsicFaultyTracker` inside the window of an existing entry
adds one to `counts` and sets `isFaulty` when the count reaches ten; the rest
of the entry is kept. -/
theorem updateAsicFaultyTracker_in_window (aa : AuraAsic) (chip : Nat)
    (m : Nat → Option faultyAsicTracker) (e : faultyAsicTracker) (t : Int)
    (hm : aa.faultyAsicsTrack = some m) (he : m chip = some e)
    (hw : t - e.firstOccurrenceTime < asicFaultyThresholdInSeconds) :
    ∃ aa1, updateAsicFaultyTracker (fun _ => t) aa chip = some aa1 ∧
      trackerEntry aa1 chip = some
        { e with counts := (e.counts + 1) % 2 ^ 32,
                 isFaulty := e.isFaulty || decide ((e.counts + 1) % 2 ^ 32 = asicFaultyThresholdCount) } := by
  unfold updateAsicFaultyTracker
  rw [hm]
  simp only [he, AuraAsic.timeNow, if_pos hw]
  by_cases hc : (e.counts + 1) % 2 ^ 32 = asicFaultyThresholdCount
  · rw [if_pos hc]
    refine ⟨_, rfl, ?_⟩
    have hc2 : (e.counts + 1) % 4294967296 = asicFaultyThresholdCount := by
      have h := hc
      norm_num at h
      exact h
    simp [trackerEntry, hc2]
  · rw [if_neg hc]
    refine ⟨_, rfl, ?_⟩
    have hc2 : ¬ (e.counts + 1) % 4294967296 = asicFaultyThresholdCount := by
      have h := hc
      norm_num at h
      exact h
    simp [trackerEntry, hc2]

/-- A call of `updateAsicFaultyTracker` for a chip without an entry, or with an
entry whose window has run out, leaves a fresh entry that starts at the
instant of the call. -/
theorem updateAsicFaultyTracker_fresh (aa : AuraAsic) (chip : Nat)
    (m : Nat → Option faultyAsicTracker) (t : Int)
    (hm : aa.faultyAsicsTrack = some m)
    (hstart : m chip = none ∨
      ∃ e, m chip = some e ∧ asicFaultyThresholdInSeconds ≤ t - e.firstOccurrenceTime) :
    ∃ aa1, updateAsicFaultyTracker (fun _ => t) aa chip = some aa1 ∧
      trackerEntry aa1 chip = some
        { firstOccurrenceTime := t, counts := 1, isFaulty := false, falseBadCheck := 0 } := by
  unfold updateAsicFaultyTracker
  rw [hm]
  rcases hstart with h0 | ⟨e, he, hx⟩
  · simp only [h0, AuraAsic.timeNow]
    refine ⟨_, rfl, ?_⟩
    simp [trackerEntry]
  · simp only [he, AuraAsic.timeNow, if_neg (not_lt.mpr hx)]
    refine ⟨_, rfl, ?_⟩
    simp [trackerEntry]

/-- After `k ≥ 1` calls in the window that started at `t1`, further calls at
instants of the same window keep counting: the entry records the total number
of calls modulo `2^32` and is flagged exactly when the total is ten or more. -/
theorem runTrackerCalls_updates_window (chip : Nat) (t1 : Int) (fbc : Nat) :
    ∀ (rest : List Int) (aa : AuraAsic) (k : Nat),
      (∀ t ∈ rest, t - t1 < asicFaultyThresholdInSeconds) →
      trackerEntry aa chip = some
        { firstOccurrenceTime := t1, counts := k % 2 ^ 32, isFaulty := decide (10 ≤ k),
          falseBadCheck := fbc } →
      ∃ aa1, runTrackerCalls chip (updatesAt rest) aa = some (0, aa1) ∧
        trackerEntry aa1 chip = some
          { firstOccurrenceTime := t1, counts := (k + rest.length) % 2 ^ 32,
            isFaulty := decide (10 ≤ k + rest.length), falseBadCheck := fbc } := by
  intro rest
  induction rest with
  | nil =>
    intro aa k _ he
    exact ⟨aa, rfl, by simpa using he⟩
  | cons t ts ih =>
    intro aa k hw he
    have hm : ∃ m, aa.faultyAsicsTrack = some m ∧ m chip = some
        { firstOccurrenceTime := t1, counts := k % 2 ^ 32, isFaulty := decide (10 ≤ k),
          falseBadCheck := fbc } := by
      unfold trackerEntry at he
      cases hf : aa.faultyAsicsTrack with
      | none => rw [hf] at he; cases he
      | some m => rw [hf] at he; exact ⟨m, rfl, he⟩
    obtain ⟨m, hm1, hm2⟩ := hm
    obtain ⟨aa1, h1, h2⟩ := updateAsicFaultyTracker_in_window aa chip m _ t hm1 hm2
      (hw t (List.mem_cons_self _ _))
    have hent : trackerEntry aa1 chip = some
        { firstOccurrenceTime := t1, counts := (k + 1) % 2 ^ 32, isFaulty := decide (10 ≤ k + 1),
          falseBadCheck := fbc } := by
      rw [h2]
      simp only [Option.some.injEq, faultyAsicTracker.mk.injEq, true_and, and_true]
      refine ⟨by omega, ?_⟩
      unfold asicFaultyThresholdCount
      by_cases hk : 10 ≤ k
      · simp [hk]; omega
      · have h9 : (k % 2 ^ 32 + 1) % 2 ^ 32 = k + 1 := by omega
        simp only [h9, hk, decide_False, Bool.false_or]
        congr 1
        apply propext
        omega
    obtain ⟨aa2, h3, h4⟩ := ih aa1 (k + 1) (fun t ht => hw t (List.mem_cons_of_mem _ ht)) hent
    refine ⟨aa2, ?_, ?_⟩
    · simp only [updatesAt, List.map_cons, runTrackerCalls, h1]
      exact h3
    · rw [h4]
      simp only [List.length_cons]
      have : k + 1 + ts.length = k + (ts.length + 1) := by omega
      rw [this]

/-- What `updateAsicFaultyTracker` does on an allocated tracker map, which no
controller returned by `AuraAsicInit` has.  Let a chip have no
entry (or one whose window has run out) and let `updateAsicFaultyTracker` be
called for it at the instants `t1 :: rest`, all less than ten seconds after
`t1`.  Then for every `n` from 1 to the number of calls the first `n` calls
complete, none of them being a `clearFaultyAsic`, and after them the chip is
flagged faulty exactly when `n ≥ 10`. -/
theorem updateAsicFaultyTracker_flags_at_ten (aa : AuraAsic) (chip : Nat)
    (m : Nat → Option faultyAsicTracker) (t1 : Int) (rest : List Int)
    (hm : aa.faultyAsicsTrack = some m)
    (hstart : m chip = none ∨
      ∃ e, m chip = some e ∧ asicFaultyThresholdInSeconds ≤ t1 - e.firstOccurrenceTime)
    (hwin : ∀ t ∈ rest, t - t1 < asicFaultyThresholdInSeconds)
    (n : Nat) (h1 : 1 ≤ n) (hn : n ≤ (t1 :: rest).length) :
    ∃ aa1, runTrackerCalls chip (updatesAt ((t1 :: rest).take n)) aa = some (0, aa1) ∧
      (isFaultyAsic aa1 chip = true ↔ asicFaultyThresholdCount ≤ n) := by
  obtain ⟨n0, rfl⟩ : ∃ n0, n = n0 + 1 := ⟨n - 1, by omega⟩
  obtain ⟨aa0, h0, e0⟩ := updateAsicFaultyTracker_fresh aa chip m t1 hm hstart
  have hw : ∀ t ∈ rest.take n0, t - t1 < asicFaultyThresholdInSeconds :=
    fun t ht => hwin t (List.mem_of_mem_take ht)
  obtain ⟨aa1, h2, e1⟩ := runTrackerCalls_updates_window chip t1 0 (rest.take n0) aa0 1 hw
    (by rw [e0]; rfl)
  refine ⟨aa1, ?_, ?_⟩
  · simp only [List.take_succ_cons, updatesAt, List.map_cons, runTrackerCalls, h0]
    exact h2
  · have hlen : (rest.take n0).length = n0 := by
      rw [List.length_take]
      simp only [List.length_cons] at hn
      omega
    rw [isFaultyAsic_eq_trackerEntry, e1, hlen]
    unfold asicFaultyThresholdCount
    simp
    omega

set_option maxRecDepth 100000 in
/-- Example for `updateAsicFaultyTracker_flags_at_ten`: on the fresh board,
whose tracker map is allocated, chip 3 fails twelve times, 100 ms apart; it is not flagged after nine calls and flagged after ten. -/
theorem updateAsicFaultyTracker_flags_at_ten_witness :
    (∃ aa1, runTrackerCalls 3
        (updatesAt ((0 :: (List.range 11).map (fun i => ((i : Int) + 1) * 100000000)).take 9))
        scenarioFreshBoard = some (0, aa1) ∧
      (isFaultyAsic aa1 3 = true ↔ asicFaultyThresholdCount ≤ 9)) ∧
    (∃ aa1, runTrackerCalls 3
        (updatesAt ((0 :: (List.range 11).map (fun i => ((i : Int) + 1) * 100000000)).take 10))
        scenarioFreshBoard = some (0, aa1) ∧
      (isFaultyAsic aa1 3 = true ↔ asicFaultyThresholdCount ≤ 10)) :=
  ⟨updateAsicFaultyTracker_flags_at_ten scenarioFreshBoard 3 (fun _ => none) 0
      ((List.range 11).map (fun i => ((i : Int) + 1) * 100000000)) rfl (Or.inl rfl)
      (by decide) 9 (by decide) (by decide),
   updateAsicFaultyTracker_flags_at_ten scenarioFreshBoard 3 (fun _ => none) 0
      ((List.range 11).map (fun i => ((i : Int) + 1) * 100000000)) rfl (Or.inl rfl)
      (by decide) 10 (by decide) (by decide)⟩

set_option maxRecDepth 100000 in
/-- The bound on the re-admissions rests on the tracker map being nil.  On
the fresh board, whose tracker map is allocated (a state that no controller
returned by `AuraAsicInit` reaches), chip 3 goes through four rounds twenty
minutes apart, each of ten failed reads within one second (after which it is flagged)
and a call of `clearFaultyAsic` eleven minutes after the start of the round.
All four calls of `clearFaultyAsic` return `true`, which is more than
`asicFalseFaultyThresholdCount`; the first failed read of each later round
replaces the entry, so that `falseBadCheck` is 1 again at the end. -/
theorem clearFaultyAsic_readmits_four_times :
    (runTrackerCalls 3 scenarioFourRounds scenarioFreshBoard).map Prod.fst = some 4 ∧
    asicFalseFaultyThresholdCount < 4 ∧
    (runTrackerCalls 3 scenarioFourRounds scenarioFreshBoard).map
        (fun r => trackerEntry r.2 3) =
      some (some { firstOccurrenceTime := 71 * minute, counts := 1, isFaulty := false,
                   falseBadCheck := 1 }) ∧
    (runTrackerCalls 3 (scenarioFourRounds.take 10) scenarioFreshBoard).map
        (fun r => isFaultyAsic r.2 3) = some true ∧
    (runTrackerCalls 3 (scenarioFourRounds.take 21) scenarioFreshBoard).map
        (fun r => isFaultyAsic r.2 3) = some true ∧
    (runTrackerCalls 3 (scenarioFourRounds.take 32) scenarioFreshBoard).map
        (fun r => isFaultyAsic r.2 3) = some true ∧
    (runTrackerCalls 3 (scenarioFourRounds.take 43) scenarioFreshBoard).map
        (fun r => isFaultyAsic r.2 3) = some true := by
  refine ⟨?_, ?_, ?_, ?_, ?_, ?_, ?_⟩ <;> decide

end asic

/-! ## Theorems: the tracker on the controller that `AuraAsicInit` returns -/

namespace asic

/-- On the nil tracker map no chip is faulty. -/
theorem isFaultyAsic_nil (aa : AuraAsic) (chip : Nat) (h : aa.faultyAsicsTrack = none) :
    isFaultyAsic aa chip = false := by
  unfold isFaultyAsic
  rw [h]

/-- On the nil tracker map `updateAsicFaultyTracker` panics. -/
theorem updateAsicFaultyTracker_nil (clock : Nat → Int) (aa : AuraAsic) (chip : Nat)
    (h : aa.faultyAsicsTrack = none) :
    updateAsicFaultyTracker clock aa chip = none := by
  unfold updateAsicFaultyTracker
  rw [h]

/-- On the nil tracker map a run of calls of `updateAsicFaultyTracker` panics
unless it is empty. -/
theorem runTrackerCalls_nil (chip : Nat) (times : List Int) (aa : AuraAsic)
    (h : aa.faultyAsicsTrack = none) (hne : times ≠ []) :
    runTrackerCalls chip (updatesAt times) aa = none := by
  cases times with
  | nil => exact absurd rfl hne
  | cons t ts =>
    simp only [updatesAt, List.map_cons, runTrackerCalls, updateAsicFaultyTracker_nil _ aa chip h]

/-- On the nil tracker map a step of the filter loop leaves the controller and
the flag `faultyAsics` as they are. -/
theorem filterStep_nil (clock : Nat → Int) (ra : Bool) (st : FilterState) (idx t : Nat)
    (h : st.aa.faultyAsicsTrack = none) :
    (filterStep clock ra st idx t).aa = st.aa ∧
      (filterStep clock ra st idx t).faultyAsics = st.faultyAsics := by
  unfold filterStep
  rw [isFaultyAsic_nil st.aa t h]
  simp only [Bool.false_eq_true, if_false]
  split_ifs <;> exact ⟨rfl, rfl⟩

theorem filterTargets_nil (clock : Nat → Int) (ra : Bool) (ts : List Nat) (idx : Nat)
    (st : FilterState) (h : st.aa.faultyAsicsTrack = none) :
    (filterTargets clock ra ts idx st).aa = st.aa ∧
      (filterTargets clock ra ts idx st).faultyAsics = st.faultyAsics := by
  induction ts generalizing idx st with
  | nil => exact ⟨rfl, rfl⟩
  | cons t ts ih =>
    have hs := filterStep_nil clock ra st idx t h
    have := ih (idx + 1) (filterStep clock ra st idx t) (by rw [hs.1]; exact h)
    simp only [filterTargets]
    exact ⟨this.1.trans hs.1, this.2.trans hs.2⟩

/-- On the nil tracker map the tracker updates of a call succeed only when
there is none to make. -/
theorem applyTrackerUpdates_nil (clock : Nat → Int) (ts : List Nat) (aa aa1 : AuraAsic)
    (h : aa.faultyAsicsTrack = none) (hr : applyTrackerUpdates clock ts aa = some aa1) :
    ts = [] ∧ aa1 = aa := by
  cases ts with
  | nil =>
    simp only [applyTrackerUpdates, Option.some.injEq] at hr
    exact ⟨rfl, hr.symm⟩
  | cons t ts =>
    simp only [applyTrackerUpdates, updateAsicFaultyTracker_nil clock aa t h] at hr
    cases hr

/-- What a call of `ReadRegsPipelined` does to the tracker, whatever the
transport returns.  When the call returns, either it took the early return
(status 0, no chip skipped as faulty, targets given by the caller) and the
controller is as the filter loop left it, whatever the returned slots hold, or
`updateAsicFaultyTracker` was applied once for each position of the submitted
list that has a -1 among its `len(addrs)` slots, in list order. -/
theorem ReadRegsPipelined_tracker_paths (clock : Nat → Int)
    (nonBlockingRead : List Nat → List Nat → Int × List Int) (aa : AuraAsic)
    (targets : Option (List Nat)) (addrs : List Nat) (res : List Int) (aa1 : AuraAsic)
    (h : ReadRegsPipelined clock nonBlockingRead aa targets addrs = some (res, aa1)) :
    ((nonBlockingRead (filterFinal clock aa targets).newTargets addrs).1 = 0 ∧
        (filterFinal clock aa targets).faultyAsics = false ∧ targets.isNone = false ∧
        aa1 = (filterFinal clock aa targets).aa) ∨
      applyTrackerUpdates clock
        (failedTargets addrs.length
          (nonBlockingRead (filterFinal clock aa targets).newTargets addrs).2
          (filterFinal clock aa targets).newTargets 0)
        (filterFinal clock aa targets).aa = some aa1 := by
  have hinv := FilterInv_final clock aa targets
  rw [ReadRegsPipelined_eq] at h
  split_ifs at h with h1 h2
  · simp only [Option.some.injEq, Prod.mk.injEq] at h
    have hnil : (filterFinal clock aa targets).newTargets = [] :=
      List.eq_nil_of_length_eq_zero h1.2
    right
    rw [hnil, ← h.2]
    rfl
  · simp only [Option.some.injEq, Prod.mk.injEq] at h
    exact Or.inl ⟨h2.1, h2.2.1, h2.2.2, h.2.symm⟩
  · obtain ⟨_, _, _, p4⟩ := projectAsics_spec clock addrs.length _ _ _ hinv.2.1 _ 0 _ _ res aa1
      (Nat.zero_add _) h
    right
    simpa using p4

/-- On a controller with the nil tracker map, a call of `ReadRegsPipelined`
that returns has made no tracker update: the controller is unchanged, and
unless the call took the early return, no submitted position had a -1 among its
slots.  A call that has to record a failure panics. -/
theorem ReadRegsPipelined_nil_tracker (clock : Nat → Int)
    (nonBlockingRead : List Nat → List Nat → Int × List Int) (aa : AuraAsic)
    (targets : Option (List Nat)) (addrs : List Nat) (res : List Int) (aa1 : AuraAsic)
    (hnil : aa.faultyAsicsTrack = none)
    (h : ReadRegsPipelined clock nonBlockingRead aa targets addrs = some (res, aa1)) :
    aa1 = aa ∧
      (((nonBlockingRead (filterFinal clock aa targets).newTargets addrs).1 = 0 ∧
          targets.isNone = false) ∨
        failedTargets addrs.length
          (nonBlockingRead (filterFinal clock aa targets).newTargets addrs).2
          (filterFinal clock aa targets).newTargets 0 = []) := by
  have hf := filterTargets_nil clock targets.isNone (targetList aa targets) 0 (filterInit aa) hnil
  have hfa : (filterFinal clock aa targets).aa = aa := hf.1
  rcases ReadRegsPipelined_tracker_paths clock nonBlockingRead aa targets addrs res aa1 h with
    hp | hp
  · exact ⟨hp.2.2.2.trans hfa, Or.inl ⟨hp.1, hp.2.2.1⟩⟩
  · rw [hfa] at hp
    have := applyTrackerUpdates_nil clock _ aa aa1 hnil hp
    exact ⟨this.2, Or.inr this.1⟩

set_option maxRecDepth 100000 in
/-- C7: on the controller that `AuraAsicInit` returns for a board whose chips
0, 1, 5, 128 and 129 answer, a read of the chips 0, 1 and 5 in which chip 5
times out does not raise the failure count of chip 5 by one.  When the
transport reports a failure (status 1) the call panics at the tracker update,
for a caller-supplied list and for a read of all chips alike; when the
transport reports status 0 with the -1 slot in its data, the call returns the
data and chip 5 has no tracker entry afterwards. -/
theorem ReadRegsPipelined_tracker_panics :
    ∃ aa, AuraAsicInit 1 255 devhdr.DefaultHbAsicIdConfig scenarioDiscovery (0x100, none) = .ok aa ∧
      (ReadRegsPipelined scenarioClock (scenarioSilentChip 1 5) aa (some [0, 1, 5])
        [0x1e]).isNone = true ∧
      (ReadRegsPipelined scenarioClock (scenarioSilentChip 1 5) aa none [0x1e]).isNone = true ∧
      (ReadRegsPipelined scenarioClock (scenarioSilentChip 0 5) aa (some [0, 1, 5]) [0x1e]).map
        (fun r => (r.1, trackerEntry r.2 5)) = some ([100, 101, -1], none) := by
  refine ⟨_, rfl, ?_, ?_, ?_⟩ <;> decide

set_option maxRecDepth 100000 in
/-- C22: on the controller that `AuraAsicInit` returns for a board whose chips
0, 1, 5, 128 and 129 answer, ten calls of `updateAsicFaultyTracker` for chip 5,
100 ms apart, do not leave the chip flagged: the first call panics, as does a
single call, and `isFaultyAsic` is `false` for the chip. -/
theorem updateAsicFaultyTracker_never_flags :
    ∃ aa, AuraAsicInit 1 255 devhdr.DefaultHbAsicIdConfig scenarioDiscovery (0x100, none) = .ok aa ∧
      (runTrackerCalls 5 (updatesAt ((List.range 10).map (fun i => (i : Int) * 100000000)))
        aa).isNone = true ∧
      (runTrackerCalls 5 (updatesAt [0]) aa).isNone = true ∧
      isFaultyAsic aa 5 = false := by
  refine ⟨_, rfl, ?_, ?_, ?_⟩ <;> decide

end asic

/-! ## Theorems: the stop condition of the target adaptation -/

namespace asic

/-- C27: when `nBouncingBack ≥ 5` or `backOffPct ≤ minPctStep` holds on entry,
and the call is not one that takes a suggested step (it comes at most 30
minutes after the tuning was done, or one of hash rate and power is at 90 % or
more, or the hottest chip is within 15 degrees of the high-water mark), then
`monitorPowerTarget` returns false and leaves `targetTHS` and every other
global unchanged, for every voltage, hash rate, power and temperature. -/
theorem monitorPowerTarget_stop (g : DvfsGlobals) (voltage max_voltage avgHashRate : ℚ)
    (sinceTuneDone : Int)
    (hstop : g.nBouncingBack ≥ 5 ∨ g.backOffPct ≤ minPctStep)
    (hquiet : sinceTuneDone ≤ minute * 30 ∨
      ¬ (avgHashRate / g.orgTargetTHS < 0.90 ∧ g.curPower / g.powerHighWater < 0.90 ∧
          g.max_temp < g.tempHighWater - 15)) :
    monitorPowerTarget g voltage max_voltage avgHashRate sinceTuneDone = (false, g) := by
  have hr : monitorPowerTargetRatio g (avgHashRate / g.orgTargetTHS)
      (g.curPower / g.powerHighWater) 0 = (false, g) := by
    unfold monitorPowerTargetRatio
    rw [if_neg (by unfold minPctStep; norm_num), if_pos hstop]
  unfold monitorPowerTarget
  by_cases h0 : g.targetTHS ≥ g.orgTargetTHS * 0.99
  · rw [if_pos h0]
  · rw [if_neg h0]
    simp only
    by_cases h1 : avgHashRate / g.orgTargetTHS < 0.95 ∧ g.curPower / g.powerHighWater < 0.95 ∧
        voltage < max_voltage - 0.03 ∧ g.max_temp < g.tempHighWater - 10
    · rw [if_pos h1]
      by_cases h2 : sinceTuneDone > minute * 30
      · rw [if_pos h2]
        have hq : ¬ (avgHashRate / g.orgTargetTHS < 0.90 ∧ g.curPower / g.powerHighWater < 0.90 ∧
            g.max_temp < g.tempHighWater - 15) := by
          rcases hquiet with h | h
          · exact absurd h2 (not_lt.mpr h)
          · exact h
        have hq1 : ¬ (avgHashRate / g.orgTargetTHS < 0.75 ∧ g.curPower / g.powerHighWater < 0.75 ∧
            g.max_temp < g.tempHighWater - 25) := by
          rintro ⟨a, b, c⟩
          exact hq ⟨by linarith, by linarith, by linarith⟩
        have hq2 : ¬ (avgHashRate / g.orgTargetTHS < 0.8 ∧ g.curPower / g.powerHighWater < 0.8 ∧
            g.max_temp < g.tempHighWater - 20) := by
          rintro ⟨a, b, c⟩
          exact hq ⟨by linarith, by linarith, by linarith⟩
        rw [if_neg hq1, if_neg hq2, if_neg hq]
        exact hr
      · rw [if_neg h2]
        exact hr
    · rw [if_neg h1]

/-- Witness for C27: the backed-off miner, 20 minutes after the tuning. -/
theorem monitorPowerTarget_stop_witness :
    monitorPowerTarget scenarioBackedOff 13 15 50 (20 * minute) =
      (false, scenarioBackedOff) :=
  monitorPowerTarget_stop scenarioBackedOff 13 15 50 (20 * minute)
    (Or.inl (by decide)) (Or.inl (by decide))

/-- Counterexample for C27: the backed-off miner has `nBouncingBack = 5` and
`backOffPct = 0.01 ≤ minPctStep`.  31 minutes after the tuning, at 50 % of
the hash rate, 1500 W of 3300 W and 70 degrees, `monitorPowerTarget` puts
`targetTHS` back from 50 to 100; at 78 % of the hash rate it raises it
to 55. -/
theorem monitorPowerTarget_stop_counterexample :
    scenarioBackedOff.nBouncingBack ≥ 5 ∧ scenarioBackedOff.backOffPct ≤ minPctStep ∧
    scenarioBackedOff.targetTHS = 50 ∧
    monitorPowerTarget scenarioBackedOff 13 15 50 (31 * minute) =
      (true, { scenarioBackedOff with targetTHS := 100, nBouncingBack := 0 }) ∧
    monitorPowerTarget scenarioBackedOff 13 15 78 (31 * minute) =
      (true, { scenarioBackedOff with
        targetTHS := 55, nBouncingBack := 1, backOffPct := 0.10, targetReducing := false }) := by
  refine ⟨?_, ?_, ?_, ?_, ?_⟩ <;> decide!

end asic

/-! ## Theorems: the end of the fine tuning -/

namespace asic

/-- The `float32` values of the rate constants: `start_rate` is
0.9500000476837158203125, not 0.95. -/
theorem rate_constants :
    low_rate = 4068475 / 4194304 ∧ start_rate = 3984589 / 4194304 ∧
    optimize_trigger_rate = 11744051 / 16777216 ∧ start_rate < low_rate := by
  refine ⟨?_, ?_, ?_, ?_⟩ <;> decide!

/-- In state FINETUNE, `tuneHashRate` is the body of its FINETUNE case. -/
theorem tuneHashRate_finetune (MinerVoutMin : ℚ) (pct : Option ℚ) (tuneResult : Bool)
    (v : TuneVars) (hitrate : ℚ) (hs : v.tuneState = DVFS_TUNE_FINETUNE) :
    tuneHashRate MinerVoutMin pct tuneResult v hitrate = tuneHashRateFinetune v hitrate := by
  unfold tuneHashRate
  rw [hs]
  rw [if_neg (by decide), if_neg (by decide), if_neg (by decide), if_neg (by decide),
    if_pos rfl]

/-- When the body of the FINETUNE case returns true. -/
theorem tuneHashRateFinetune_done (v : TuneVars) (hitrate : ℚ) :
    (tuneHashRateFinetune v hitrate).1 = true ↔
      (hitrate ≥ low_rate ∨ (v.voltage ≥ v.systeminfo.max_voltage ∧ hitrate ≤ start_rate)) := by
  have hsl : start_rate < low_rate := rate_constants.2.2.2
  unfold tuneHashRateFinetune
  simp only [decide_eq_true_eq]
  by_cases h1 : hitrate ≤ start_rate ∧ v.voltage ≥ v.systeminfo.max_voltage
  · rw [if_pos h1]
    simp only [true_iff]
    exact Or.inr ⟨h1.2, h1.1⟩
  · rw [if_neg h1]
    by_cases h2 : hitrate < low_rate
    · rw [if_pos h2]
      simp only [Bool.false_eq_true, false_iff]
      rintro (h | ⟨ha, hb⟩)
      · exact absurd h2 (not_lt.mpr h)
      · exact h1 ⟨hb, ha⟩
    · rw [if_neg h2]
      simp only [true_iff]
      exact Or.inl (not_lt.mp h2)

/-- A step up from the maximum gives the maximum: the rounded sum is not below
`max_voltage` when that is a positive `float32` value and the step is not
negative. -/
theorem stepUpVoltage_at_max (v : TuneVars) (step : ℚ)
    (hv : v.voltage = v.systeminfo.max_voltage) (hpos : 0 < v.systeminfo.max_voltage)
    (hfl : ieee.float32 v.systeminfo.max_voltage = v.systeminfo.max_voltage)
    (hstep : 0 ≤ v.systeminfo.voltage_step * step) :
    stepUpVoltage v step = v.systeminfo.max_voltage := by
  unfold stepUpVoltage
  have h0 : 0 ≤ ieee.float32 (v.systeminfo.voltage_step * step) :=
    ieee.roundFloat_nonneg 23 (-126) _ hstep
  have h1 : v.systeminfo.max_voltage ≤
      ieee.float32 (v.voltage + ieee.float32 (v.systeminfo.voltage_step * step)) :=
    ieee.roundFloat_ge_of_fixed 23 (-126) _ _ hpos hfl (by rw [hv]; linarith)
  exact min_eq_right h1

/-- C24: in tune state FINETUNE, for every measured hit-rate, `tuneHashRate`
returns true exactly when the hit-rate is at least `low_rate` (the `float32`
value of 0.97), or the supply voltage is at or above `max_voltage` and the
hit-rate is at most `start_rate` (the `float32` value of `low_rate - 0.02`,
0.9500000476837158203125).  With the supply at a positive `float32` maximum
and a hit-rate above `start_rate` and below `low_rate` it returns false, stays
in FINETUNE and leaves the voltage at the maximum. -/
theorem tuneHashRate_finetune_done (MinerVoutMin : ℚ) (pct : Option ℚ) (tuneResult : Bool)
    (v : TuneVars) (hitrate : ℚ) (hs : v.tuneState = DVFS_TUNE_FINETUNE) :
    ((tuneHashRate MinerVoutMin pct tuneResult v hitrate).1 = true ↔
      (hitrate ≥ low_rate ∨ (v.voltage ≥ v.systeminfo.max_voltage ∧ hitrate ≤ start_rate))) ∧
    (v.voltage = v.systeminfo.max_voltage → 0 < v.systeminfo.max_voltage →
      ieee.float32 v.systeminfo.max_voltage = v.systeminfo.max_voltage →
      v.systeminfo.min_voltage ≤ v.systeminfo.max_voltage →
      0 ≤ v.systeminfo.voltage_step → start_rate < hitrate → hitrate < low_rate →
      (tuneHashRate MinerVoutMin pct tuneResult v hitrate).1 = false ∧
      (tuneHashRate MinerVoutMin pct tuneResult v hitrate).2.tuneState = DVFS_TUNE_FINETUNE ∧
      (tuneHashRate MinerVoutMin pct tuneResult v hitrate).2.voltage =
        v.systeminfo.max_voltage) := by
  rw [tuneHashRate_finetune MinerVoutMin pct tuneResult v hitrate hs]
  refine ⟨tuneHashRateFinetune_done v hitrate, ?_⟩
  intro hv hpos hfl hmin hstep hlo hhi
  unfold tuneHashRateFinetune
  simp only [decide_eq_true_eq]
  rw [if_neg (fun h => absurd hlo (not_lt.mpr h.1)), if_pos hhi]
  refine ⟨rfl, hs, ?_⟩
  have hst : (0 : ℚ) ≤
      (if ieee.float32 ((⌊ieee.float32 (ieee.float32 (low_rate - hitrate) * 100)⌋ : Int) : ℚ) < 1
        then 1
        else ieee.float32 ((⌊ieee.float32 (ieee.float32 (low_rate - hitrate) * 100)⌋ : Int) : ℚ)) := by
    split_ifs with h
    · norm_num
    · linarith [not_lt.mp h]
  generalize (if ieee.float32
      ((⌊ieee.float32 (ieee.float32 (low_rate - hitrate) * 100)⌋ : Int) : ℚ) < 1 then (1 : ℚ)
    else ieee.float32 ((⌊ieee.float32 (ieee.float32 (low_rate - hitrate) * 100)⌋ : Int) : ℚ)) =
      step at hst ⊢
  have hsu := stepUpVoltage_at_max
    ({ v with lasthitrate := hitrate, last_measurement := v.measurement,
              measurement := ieee.float32 (low_rate - hitrate) } : TuneVars) step hv hpos hfl
    (mul_nonneg hstep hst)
  simp only [DvfsType.SetVoltage]
  rw [hsu]
  exact if_neg (not_lt.mpr hmin)

/-- Witness for C24: the supply at its maximum and a hit-rate of 0.98. -/
theorem tuneHashRate_finetune_done_witness :
    ((tuneHashRate 11 (some 0.9) false scenarioFinetuneAtMax (ieee.float32 0.98)).1 = true ↔
      (ieee.float32 0.98 ≥ low_rate ∨
        (scenarioFinetuneAtMax.voltage ≥ scenarioFinetuneAtMax.systeminfo.max_voltage ∧
          ieee.float32 0.98 ≤ start_rate))) ∧
    (scenarioFinetuneAtMax.voltage = scenarioFinetuneAtMax.systeminfo.max_voltage →
      0 < scenarioFinetuneAtMax.systeminfo.max_voltage →
      ieee.float32 scenarioFinetuneAtMax.systeminfo.max_voltage =
        scenarioFinetuneAtMax.systeminfo.max_voltage →
      scenarioFinetuneAtMax.systeminfo.min_voltage ≤ scenarioFinetuneAtMax.systeminfo.max_voltage →
      0 ≤ scenarioFinetuneAtMax.systeminfo.voltage_step → start_rate < ieee.float32 0.98 →
      ieee.float32 0.98 < low_rate →
      (tuneHashRate 11 (some 0.9) false scenarioFinetuneAtMax (ieee.float32 0.98)).1 = false ∧
      (tuneHashRate 11 (some 0.9) false scenarioFinetuneAtMax (ieee.float32 0.98)).2.tuneState =
        DVFS_TUNE_FINETUNE ∧
      (tuneHashRate 11 (some 0.9) false scenarioFinetuneAtMax (ieee.float32 0.98)).2.voltage =
        scenarioFinetuneAtMax.systeminfo.max_voltage) :=
  tuneHashRate_finetune_done 11 (some 0.9) false scenarioFinetuneAtMax (ieee.float32 0.98) rfl

/-- Counterexample for C24: in FINETUNE with the supply at its maximum of
15 V, a measured hit-rate of 0.96 (as a `float32`) makes `tuneHashRate` return
false; the variables stay in FINETUNE at 15 V.  At the hit-rate `start_rate`
itself it returns true. -/
theorem tuneHashRate_at_max_counterexample :
    scenarioFinetuneAtMax.tuneState = DVFS_TUNE_FINETUNE ∧
    scenarioFinetuneAtMax.voltage = scenarioFinetuneAtMax.systeminfo.max_voltage ∧
    start_rate < ieee.float32 0.96 ∧ ieee.float32 0.96 < low_rate ∧
    tuneHashRate 11 (some 0.9) false scenarioFinetuneAtMax (ieee.float32 0.96) =
      (false, { scenarioFinetuneAtMax with
        lasthitrate := ieee.float32 0.96, last_measurement := ieee.float32 0.015,
        measurement := ieee.float32 (low_rate - ieee.float32 0.96) }) ∧
    (tuneHashRate 11 (some 0.9) false scenarioFinetuneAtMax start_rate).1 = true := by
  refine ⟨?_, ?_, ?_, ?_, ?_, ?_⟩ <;> decide!

end asic

/-! ## Theorems: the per-chip hit-rate -/

namespace asic

/-- Whenever the body of the loop of `getHashRate` stores a quotient, the
stored value is a number in `[0, 1]` if the calibrated general-hit value is not
zero, and is not a number if it is zero. -/
theorem getHashRateChip_measured (frequency : ℚ) (period : Int) (cnt1 cnt0 : Int × Int)
    (a b : Int) (r : Option ℚ)
    (h : getHashRateChip frequency period cnt1 cnt0 = HitRateOutcome.measured a b r) :
    (b ≠ 0 → ∃ q, r = some q ∧ 0 ≤ q ∧ q ≤ 1) ∧ (b = 0 → r = none) := by
  unfold getHashRateChip at h
  simp only at h
  by_cases hb : goInt (cnt1.1 - cnt0.1) < 0 ∨ goInt (cnt1.2 - cnt0.2) < 0
  · rw [if_pos hb] at h
    cases h
  · rw [if_neg hb] at h
    by_cases hz : goInt (cnt1.2 - cnt0.2) = 0
    · rw [if_pos hz] at h
      cases h
    · rw [if_neg hz] at h
      have h0 : 0 ≤ goInt (cnt1.1 - cnt0.1) := by
        by_contra hc
        exact hb (Or.inl (not_le.mp hc))
      injection h with ha hb2 hr
      rw [hb2] at ha hr
      rw [ha] at hr
      subst hr
      constructor
      · intro hne
        have hq : ((b : Int) : ℚ) ≠ 0 := by exact_mod_cast hne
        refine ⟨(a : ℚ) / (b : ℚ), by simp [floatDiv, hq], ?_⟩
        by_cases hgt : goInt (cnt1.1 - cnt0.1) > b
        · rw [if_pos hgt] at ha
          rw [← ha, div_self hq]
          norm_num
        · rw [if_neg hgt] at ha
          have hle : a ≤ b := by rw [← ha]; exact not_lt.mp hgt
          have ha0 : 0 ≤ a := by rw [← ha]; exact h0
          have hbpos : 0 < b := lt_of_le_of_ne (le_trans ha0 hle) (Ne.symm hne)
          have hbq : (0 : ℚ) < (b : ℚ) := by exact_mod_cast hbpos
          have haq : (0 : ℚ) ≤ (a : ℚ) := by exact_mod_cast ha0
          have hleq : (a : ℚ) ≤ (b : ℚ) := by exact_mod_cast hle
          exact ⟨div_nonneg haq (le_of_lt hbq), (div_le_one hbq).mpr hleq⟩
      · intro hzero
        simp [floatDiv, hzero]

/-- C28: a chip at 600 MHz whose counters advanced by 1 true hit and 2 general
hits, measured over a period of 20 ms: both deltas are non-negative and the
general-hit delta is not zero, the expected value `v` is 0, the calibration
replaces the general-hit delta by it, and the stored hit-rate is the quotient
`0/0`, which is not a number.  Over a period of one second the same chip with
deltas 40 and 45 gets the hit-rate 8/9. -/
theorem getHashRateChip_zero_divisor :
    getHashRateChip 600 20000000 (101, 202) (100, 200) = HitRateOutcome.measured 0 0 none ∧
    Int.tdiv (truncate ((600 : ℚ) * 0.07885 * ((20000000 : Int) : ℚ))) second = 0 ∧
    getHashRateChip 600 1000000000 (140, 245) (100, 200) =
      HitRateOutcome.measured 40 45 (some (8 / 9)) := by
  refine ⟨?_, ?_, ?_⟩ <;> decide!

end asic

/-! ## Theorems: the version-rolling windows -/

namespace asic

/-- Entry `k` of the writes of the loop of `setVerRolling`. -/
theorem setVerRollingLoop_getElem (lower window : Nat) :
    ∀ (chips : List Nat) (i k : Nat),
      (setVerRollingLoop lower window chips i)[k]? =
        (chips[k]?).map (fun chip =>
          { chip := chip,
            min := (lower + window * ((i + k) % 2 ^ 32)) % 2 ^ 32,
            max := ((lower + window * ((i + k) % 2 ^ 32)) % 2 ^ 32 + window + (2 ^ 32 - 1)) % 2 ^ 32,
            data := (((lower + window * ((i + k) % 2 ^ 32)) % 2 ^ 32 + window + (2 ^ 32 - 1)) % 2 ^ 32
              * 2 ^ 16 + (lower + window * ((i + k) % 2 ^ 32)) % 2 ^ 32) % 2 ^ 32 }) := by
  intro chips
  induction chips with
  | nil => intro i k; simp [setVerRollingLoop]
  | cons c cs ih =>
    intro i k
    cases k with
    | zero => simp [setVerRollingLoop]
    | succ k =>
      simp only [setVerRollingLoop, List.getElem?_cons_succ]
      rw [ih (i + 1) k]
      have : i + 1 + k = i + (k + 1) := by omega
      rw [this]

/-- The loop of `setVerRolling` writes once per chip. -/
theorem setVerRollingLoop_length (lower window : Nat) :
    ∀ (chips : List Nat) (i : Nat), (setVerRollingLoop lower window chips i).length = chips.length := by
  intro chips
  induction chips with
  | nil => intro i; rfl
  | cons c cs ih => intro i; simp [setVerRollingLoop, ih]

/-- With `lower = 0` and an upper bound `M` that is a multiple of 4, at least
four times the number of chips and at most `2^31`, `setVerRolling` uses a
window size that is a positive multiple of 4 and fits `M` once per chip. -/
theorem setVerRolling_window (aa : AuraAsic) (shift M : Nat)
    (h1 : 1 ≤ aa.actualChipIds.length) (h4 : 4 * aa.actualChipIds.length ≤ M)
    (hM : M ≤ 2 ^ 31) (hdiv : 4 ∣ M) :
    ∃ window, setVerRolling aa shift 0 M =
        some (setVerRollingLoop 0 window aa.actualChipIds 0, shift) ∧
      0 < window ∧ 4 ∣ window ∧ aa.actualChipIds.length * window ≤ M := by
  have hn : aa.actualChipIds.length % 2 ^ 32 = aa.actualChipIds.length := by
    apply Nat.mod_eq_of_lt
    norm_num at hM ⊢
    omega
  have hup : (M + (2 ^ 32 - 0) + 1) % 2 ^ 32 = M + 1 := by
    norm_num at hM ⊢
    omega
  have hw0 : 4 ≤ (M + 1) / aa.actualChipIds.length := by
    rw [Nat.le_div_iff_mul_le (by omega)]
    omega
  have hle : aa.actualChipIds.length * ((M + 1) / aa.actualChipIds.length) ≤ M + 1 :=
    Nat.mul_div_le _ _
  have hwin : (M + 1) / aa.actualChipIds.length / 4 * 4 ≤ (M + 1) / aa.actualChipIds.length :=
    Nat.div_mul_le_self _ _
  have hnw : aa.actualChipIds.length * ((M + 1) / aa.actualChipIds.length / 4 * 4) ≤ M + 1 :=
    le_trans (Nat.mul_le_mul_left _ hwin) hle
  have hd4 : 4 ∣ aa.actualChipIds.length * ((M + 1) / aa.actualChipIds.length / 4 * 4) :=
    Dvd.dvd.mul_left (Dvd.intro_left _ rfl) _
  refine ⟨(M + 1) / aa.actualChipIds.length / 4 * 4, ?_, ?_, Dvd.intro_left _ rfl, ?_⟩
  · unfold setVerRolling
    have hl : ((0 + 3) % 2 ^ 32) / 4 * 4 % 2 ^ 32 = 0 := by norm_num
    simp only [hl, hn, hup]
    rw [if_neg (by omega), if_neg (by omega)]
    have hsmall : (M + 1) / aa.actualChipIds.length / 4 * 4 % 2 ^ 32 =
        (M + 1) / aa.actualChipIds.length / 4 * 4 := by
      apply Nat.mod_eq_of_lt
      have h5 : (M + 1) / aa.actualChipIds.length ≤ M + 1 := Nat.div_le_self _ _
      norm_num at hM ⊢
      omega
    rw [hsmall]
  · omega
  · obtain ⟨a, ha⟩ := hd4
    obtain ⟨b, hb⟩ := hdiv
    omega

/-- C26: let the version mask be new or the job count a multiple of 16, let
`n ≥ 1` chips be detected, and let the width `w = 32 - trailing_zeros(mask) -
leading_zeros(mask)` of the mask satisfy `4·n ≤ 2^w` and `w ≤ 31`.  Then the
block of `SendJob` runs `setVerRolling` without a panic, broadcasts the shift
`trailing_zeros(mask)`, and writes one window per detected chip, in order:
window `i` is `[window·i, window·(i+1) - 1]` for one size `window` that is a
positive multiple of 4, so the windows have the same size and are pairwise
disjoint, and each lies inside `[0, 2^w)`.  For `w ≤ 16` the register value is
`max·2^16 + min`. -/
theorem SendJobVerRolling_windows (aa : AuraAsic) (VersionMask : Nat)
    (hrun : VersionMask ≠ aa.verMask ∨ aa.jobCount % 16 = 0)
    (h1 : 1 ≤ aa.actualChipIds.length)
    (h4 : 4 * aa.actualChipIds.length ≤ 2 ^ verWidth VersionMask)
    (h31 : verWidth VersionMask ≤ 31) :
    ∃ window ws, SendJobVerRolling aa VersionMask =
        some ({ aa with verMask := VersionMask }, some (ws, TrailingZeros32 VersionMask)) ∧
      ws.length = aa.actualChipIds.length ∧ 0 < window ∧ 4 ∣ window ∧
      (∀ i, i < aa.actualChipIds.length →
        ∃ v, ws[i]? = some v ∧ aa.actualChipIds[i]? = some v.chip ∧
          v.min = window * i ∧ v.max + 1 = window * (i + 1) ∧
          v.max < 2 ^ verWidth VersionMask ∧
          (verWidth VersionMask ≤ 16 → v.data = v.max * 2 ^ 16 + v.min)) ∧
      (∀ (i j : Nat) (vi vj : VerWindow), i < j → ws[i]? = some vi → ws[j]? = some vj →
        vi.max < vj.min) := by
  have hw2 : 2 ≤ verWidth VersionMask := by
    by_contra h
    have h5 : verWidth VersionMask ≤ 1 := by omega
    have h6 : 2 ^ verWidth VersionMask ≤ 2 ^ 1 := Nat.pow_le_pow_right (by norm_num) h5
    omega
  have hM31 : 2 ^ verWidth VersionMask ≤ 2 ^ 31 := Nat.pow_le_pow_right (by norm_num) h31
  have hdiv : 4 ∣ 2 ^ verWidth VersionMask := by
    have h5 : (2 : Nat) ^ 2 ∣ 2 ^ verWidth VersionMask := pow_dvd_pow 2 hw2
    simpa using h5
  obtain ⟨window, hset, hpos, hd4, hfit⟩ :=
    setVerRolling_window aa (TrailingZeros32 VersionMask) (2 ^ verWidth VersionMask) h1 h4 hM31 hdiv
  have hshift : TrailingZeros32 VersionMask < 32 := by
    unfold verWidth at hw2
    omega
  have hnopanic : ¬ 32 < TrailingZeros32 VersionMask + LeadingZeros32 VersionMask := by
    unfold verWidth at hw2
    omega
  have hmod : (2 : Nat) ^ verWidth VersionMask % 2 ^ 32 = 2 ^ verWidth VersionMask := by
    apply Nat.mod_eq_of_lt
    norm_num at hM31 ⊢
    omega
  have hsm : TrailingZeros32 VersionMask % 2 ^ 32 = TrailingZeros32 VersionMask := by
    apply Nat.mod_eq_of_lt
    norm_num
    omega
  have hrun2 : SendJobVerRolling aa VersionMask =
      some ({ aa with verMask := VersionMask },
        some (setVerRollingLoop 0 window aa.actualChipIds 0, TrailingZeros32 VersionMask)) := by
    unfold SendJobVerRolling
    rw [if_pos hrun]
    simp only
    rw [if_pos hshift, if_neg hnopanic, Nat.one_shiftLeft]
    have hwd : 32 - TrailingZeros32 VersionMask - LeadingZeros32 VersionMask =
        verWidth VersionMask := rfl
    rw [hwd, hmod, hsm, hset]
  have hentry : ∀ i, i < aa.actualChipIds.length →
      ∃ v, (setVerRollingLoop 0 window aa.actualChipIds 0)[i]? = some v ∧
        aa.actualChipIds[i]? = some v.chip ∧
        v.min = window * i ∧ v.max + 1 = window * (i + 1) ∧
        v.max < 2 ^ verWidth VersionMask ∧
        (verWidth VersionMask ≤ 16 → v.data = v.max * 2 ^ 16 + v.min) := by
    intro i hi
    have hc : aa.actualChipIds[i]? = some (aa.actualChipIds[i]) := List.getElem?_eq_getElem hi
    have hwi : window * (i + 1) ≤ aa.actualChipIds.length * window := by
      rw [Nat.mul_comm window]
      exact Nat.mul_le_mul_right _ hi
    have hexp : window * (i + 1) = window * i + window := by ring
    have hi32 : (0 + i) % 2 ^ 32 = i := by
      rw [Nat.zero_add]
      apply Nat.mod_eq_of_lt
      norm_num at hM31 ⊢
      omega
    have hmin : (0 + window * i) % 2 ^ 32 = window * i := by
      rw [Nat.zero_add]
      apply Nat.mod_eq_of_lt
      norm_num at hM31 ⊢
      omega
    have hmax : (window * i + window + (2 ^ 32 - 1)) % 2 ^ 32 = window * i + window - 1 := by
      norm_num at hM31 ⊢
      omega
    rw [setVerRollingLoop_getElem, hc]
    simp only [Option.map_some']
    rw [hi32, hmin, hmax]
    refine ⟨_, rfl, rfl, rfl, ?_, ?_, ?_⟩
    · show window * i + window - 1 + 1 = window * (i + 1)
      omega
    · show window * i + window - 1 < 2 ^ verWidth VersionMask
      omega
    · intro h16
      have hM16 : 2 ^ verWidth VersionMask ≤ 2 ^ 16 := Nat.pow_le_pow_right (by norm_num) h16
      show ((window * i + window - 1) * 2 ^ 16 + window * i) % 2 ^ 32 =
        (window * i + window - 1) * 2 ^ 16 + window * i
      apply Nat.mod_eq_of_lt
      norm_num at hM16 ⊢
      omega
  refine ⟨window, setVerRollingLoop 0 window aa.actualChipIds 0, hrun2,
    setVerRollingLoop_length 0 window aa.actualChipIds 0, hpos, hd4, hentry, ?_⟩
  intro i j vi vj hij hvi hvj
  have hj : j < aa.actualChipIds.length := by
    have h5 := List.getElem?_eq_some.mp hvj
    obtain ⟨h6, _⟩ := h5
    rw [setVerRollingLoop_length] at h6
    exact h6
  obtain ⟨v1, e1, _, _, m1, _, _⟩ := hentry i (by omega)
  obtain ⟨v2, e2, _, m2, _, _, _⟩ := hentry j hj
  rw [hvi] at e1
  rw [hvj] at e2
  cases e1
  cases e2
  have hle : window * (i + 1) ≤ window * j := Nat.mul_le_mul_left _ (by omega)
  omega

end asic

namespace asic

set_option maxRecDepth 100000 in
/-- Witness for C26: 132 detected chips and the mask `0x1fffe000`, whose width
is 16. -/
theorem SendJobVerRolling_windows_witness :
    verWidth 0x1fffe000 = 16 ∧
    ∃ window ws, SendJobVerRolling (scenarioChips 132) 0x1fffe000 =
        some ({ scenarioChips 132 with verMask := 0x1fffe000 },
          some (ws, TrailingZeros32 0x1fffe000)) ∧
      ws.length = (scenarioChips 132).actualChipIds.length ∧ 0 < window ∧ 4 ∣ window := by
  refine ⟨by decide, ?_⟩
  obtain ⟨window, ws, h, hl, hp, hd, _, _⟩ :=
    SendJobVerRolling_windows (scenarioChips 132) 0x1fffe000 (Or.inl (by decide)) (by decide)
      (by decide) (by decide)
  exact ⟨window, ws, h, hl, hp, hd⟩

set_option maxRecDepth 100000 in
/-- Counterexample for C26: two detected chips and the mask `0x6000`, which
has two bits set: the width is 2 and `max = 1 << 2 = 4`.  `setVerRolling`
computes the window size 0 and writes the same window, `min = 0` and
`max = 4294967295`, to both chips: the windows are not disjoint and do not lie
inside `[0, 4)`.  The same happens with the mask `0xffffffff`, whose `max`
of `1 << 32` becomes 0 as a `uint32`. -/
theorem SendJobVerRolling_narrow_mask_counterexample :
    verWidth 0x6000 = 2 ∧
    (SendJobVerRolling (scenarioChips 2) 0x6000).map Prod.snd =
      some (some ([{ chip := 0, min := 0, max := 4294967295, data := 4294901760 },
                   { chip := 1, min := 0, max := 4294967295, data := 4294901760 }], 13)) ∧
    verWidth 0xffffffff = 32 ∧
    (SendJobVerRolling (scenarioChips 2) 0xffffffff).map Prod.snd =
      some (some ([{ chip := 0, min := 0, max := 4294967295, data := 4294901760 },
                   { chip := 1, min := 0, max := 4294967295, data := 4294901760 }], 0)) := by
  refine ⟨?_, ?_, ?_, ?_⟩ <;> decide

end asic

/-! ## Theorems: the per-second check in STANDBY -/

namespace asic

/-- C25: the miner of `scenarioStandbyWorld` is in STANDBY.  The next
`perSecondCheck`, with no temperature alarm, sets `dvfsState` to TUNING and
`tuneState` to INIT and reduces the target, both when the supply reports
3400 W and when it reports the invalid value 65535 W, which leaves the last
reading of 3400 W in place.  With a report of 100 W the state stays STANDBY. -/
theorem perSecondCheck_leaves_standby :
    scenarioStandbyWorld.globals.dvfsState = DVFS_STANDBY ∧
    (perSecondCheck some 3400 scenarioStandbyWorld 0).map
        (fun r => (r.1, r.2.globals.dvfsState, r.2.globals.tuneState, r.2.globals.targetTHS)) =
      some (true, DVFS_TUNING, DVFS_TUNE_INIT, 90) ∧
    (perSecondCheck some 65535 scenarioStandbyWorld 0).map
        (fun r => (r.1, r.2.globals.dvfsState, r.2.globals.tuneState, r.2.globals.targetTHS)) =
      some (true, DVFS_TUNING, DVFS_TUNE_INIT, 90) ∧
    (perSecondCheck some 100 scenarioStandbyWorld 0).map
        (fun r => (r.1, r.2.globals.dvfsState, r.2.globals.tuneState, r.2.globals.targetTHS)) =
      some (false, DVFS_STANDBY, DVFS_TUNE_DONE, 100) := by
  refine ⟨?_, ?_, ?_, ?_⟩ <;> decide!

end asic
